import Mathlib

/-!
# slogan: causal errors (`pkg/errors`) and structured logging (`pkg/log`)

A shallow embedding of `pkg/errors/stack.go` and `pkg/errors/value.go`:
frames, stacks, `Stack.Trim`, the error variants `simple` and `ValueError`,
their constructors and their `Error` text, the sentinels, the message protocol
(`Message`, `Messages`), the renderer `BackTrace` and the paged stack capture
(`callersPage`, `callers`, `NewStack`); and of `pkg/log`: the attribute trees
of `attrs.go` (`MergeAttrs`, `SetAttrsAtPath`, `GetValueAtPath`), the error
attributes middleware of `handlers.go` and the level methods of the formatting
logger of `sugar.go`; followed by the properties proved about them.

Conventions of the embedding.

* A `Frame` is a `uintptr`; only its equality matters here, so it is a `Nat`.
* A `Stack` is a Go slice of frames, index 0 nearest the capture point and the
  last index nearest the goroutine root; it is a `List Frame`.
* A Go index expression `s[i]` or slice expression `s[:n]` with `int` operands
  either yields its value or raises a run-time fault (index out of range).
  `Stack.index` and `Stack.slice` return `none` for the fault, and every
  function that can reach such an expression returns an `Option`: `none` is
  the fault, `some r` is a normal return of `r`.
* A Go `int` is a 64-bit two's complement integer.  Lengths and the index
  arithmetic of `Stack.Trim` stay within its range and are computed in `Nat`
  and `Int`; the `skip` sums of the stack capture and of `NewPanicError` are
  computed from an `int` the caller chooses, so they wrap around (`wrapInt`).
* Text is a Lean `String`; `strings.Split` on the separator `": "` works on
  its characters, and the bytes written by `BackTrace` are read as text.
* What the Go runtime provides is a parameter: the symbol table
  `runtime.FuncForPC` (`Runtime`) and the call stack read by `runtime.Callers`.
-/

namespace Slogan

/-! ## Machine integers -/

/-- The largest value of the Go type `int` (64 bits). -/
def maxInt : Int := 2 ^ 63 - 1

/-- The value of an `int` expression whose exact value is `x`: Go integer
arithmetic wraps around in two's complement, so the result is the integer of
the range from `-2^63` to `2^63 - 1` that is congruent to `x` modulo `2^64`. -/
def wrapInt (x : Int) : Int := (x + 2 ^ 63) % 2 ^ 64 - 2 ^ 63

/-! ## Frames and stacks -/

/-- A frame is a program counter (`type Frame uintptr`). -/
abbrev Frame := Nat

/-- The method `Frame.Equals`: equality of the underlying `uintptr`. -/
def Frame.Equals (f other : Frame) : Bool := f == other

/-- A stack is a slice of frames (`type Stack []Frame`). -/
abbrev Stack := List Frame

/-- The Go index expression `s[i]` for an `int` index `i`: `none` is the
run-time fault raised when `i` is negative or not below `len(s)`. -/
def Stack.index (s : Stack) (i : Int) : Option Frame :=
  if i < 0 then none else s.get? i.toNat

/-- The Go slice expression `s[:n]` for an `int` bound `n`: `none` is the
run-time fault raised when `n` is negative or above the capacity of `s`, which
is taken to be `len(s)`. -/
def Stack.slice (s : Stack) (n : Int) : Option Stack :=
  if n < 0 ∨ n > s.length then none else some (s.take n.toNat)

/-- The loop of `Stack.Trim`, started with the current value of `idx`:
```go
for s[count-idx-1].Equals(parent[otherCount-idx-1]) && otherCount > idx+1 {
	idx++
}
```
Both index expressions are evaluated before the `&&`, so either can fault
(`none`); otherwise the result is the value of `idx` when the loop exits. -/
def Stack.trimLoop (s parent : Stack) (idx : Nat) : Option Nat :=
  match s.index ((s.length : Int) - idx - 1),
        parent.index ((parent.length : Int) - idx - 1) with
  | some a, some b =>
    if a.Equals b ∧ parent.length > idx + 1 then
      Stack.trimLoop s parent (idx + 1)
    else
      some idx
  | _, _ => none
termination_by parent.length - idx
decreasing_by omega

/-- The method `Stack.Trim`:
```go
func (s Stack) Trim(parent Stack) (Stack, bool) {
	count := len(s)
	otherCount := len(parent)
	if count < otherCount { return s, false }
	if count == 0 || otherCount == 0 { return s, false }
	idx := 1
	for ... { idx++ }
	return s[:count-idx], idx > 0
}
```
-/
def Stack.Trim (s parent : Stack) : Option (Stack × Bool) :=
  let count := s.length
  let otherCount := parent.length
  if count < otherCount then
    some (s, false)
  else if count = 0 ∨ otherCount = 0 then
    some (s, false)
  else
    match Stack.trimLoop s parent 1 with
    | none => none
    | some idx =>
      match s.slice ((count : Int) - (idx : Int)) with
      | none => none
      | some trimmed => some (trimmed, decide (idx > 0))

/-! ## Error variants -/

/-- A dynamically typed Go value (`any`) that is not an error: the payload of
a `ValueError` and the non-error values a `recover()` can deliver. -/
inductive Val
  | nil
  | int (i : Int)
  | str (s : String)
  | other (tag : Nat)
  deriving DecidableEq, Repr

/-- An `error` value.  `simple` is `*simple`, `value` is `ValueError`
(`pkg/errors/value.go`), and `foreign` is any error from outside the package:
it has an `Error()` text and none of the capabilities `StackTrimmer`,
`Stacker`, `Messager`, `Unwrapper`, `BackTracer`.  A `cause` field of Go type
`error` may be nil, hence `Option Err`. -/
inductive Err
  | simple (message : String) (cause : Option Err) (stack : Stack)
  | value (message : String) (value : Val) (cause : Option Err) (stack : Stack)
  | foreign (text : String)
  deriving Repr

/-- A recovered value `v any` handed to `NewPanicError`: `err e` when the type
assertion `v.(error)` succeeds, `val x` otherwise. -/
inductive Any
  | err (e : Err)
  | val (x : Val)
  deriving Repr

mutual
/-- The method `Error()`.
```go
func (s *simple) Error() string {
	if s.cause == nil { return s.message }
	return fmt.Sprintf("%s: %s", s.message, s.cause.Error())
}
func (e ValueError) Error() string { return ErrorString(e.message, e.cause) }
```
-/
def Err.Error : Err → String
  | .simple message none _ => message
  | .simple message (some cause) _ => message ++ ": " ++ cause.Error
  | .value message _ cause _ => ErrorString message cause
  | .foreign text => text
/-- The function `ErrorString`.
```go
func ErrorString(message string, cause error) string {
	if cause == nil { return message }
	return fmt.Sprintf("%s: %s", message, cause.Error())
}
```
-/
def ErrorString (message : String) : Option Err → String
  | none => message
  | some cause => message ++ ": " ++ cause.Error
end

/-- The type assertion `err.(Messager)` followed by `Message()`. -/
def Err.asMessager : Err → Option String
  | .simple message _ _ => some message
  | .value message _ _ _ => some message
  | .foreign _ => none

/-- The type assertion `err.(Unwrapper)` followed by `Unwrap()`. -/
def Err.asUnwrapper : Err → Option (Option Err)
  | .simple _ cause _ => some cause
  | .value _ _ cause _ => some cause
  | .foreign _ => none

/-- The type assertion `err.(Stacker)` followed by `Stack()`. -/
def Err.asStacker : Err → Option Stack
  | .simple _ _ stack => some stack
  | .value _ _ _ stack => some stack
  | .foreign _ => none

/-- The accessor `ValueError.Value()`. -/
def Err.asValue : Err → Option Val
  | .value _ v _ _ => some v
  | _ => none

/-- The method `(*simple).TrimStack` on the fields of the receiver.
```go
func (s *simple) TrimStack(parent Stack) error {
	trimmedStack, ok := s.stack.Trim(parent)
	if ok {
		return &simple{message: s.message, cause: s.cause, stack: trimmedStack}
	}
	return s
}
```
-/
def simple.TrimStack (message : String) (cause : Option Err) (stack : Stack)
    (parent : Stack) : Option Err :=
  match stack.Trim parent with
  | none => none
  | some (trimmedStack, ok) =>
    if ok then some (Err.simple message cause trimmedStack)
    else some (Err.simple message cause stack)

/-- The method `ValueError.TrimStack` on the fields of the receiver.
```go
func (e ValueError) TrimStack(parent Stack) error {
	trimmedStack, ok := e.stack.Trim(parent)
	if ok {
		return &ValueError{message: e.message, cause: e.cause, value: e.value, stack: trimmedStack}
	}
	return e
}
```
-/
def ValueError.TrimStack (message : String) (value : Val) (cause : Option Err)
    (stack : Stack) (parent : Stack) : Option Err :=
  match stack.Trim parent with
  | none => none
  | some (trimmedStack, ok) =>
    if ok then some (Err.value message value cause trimmedStack)
    else some (Err.value message value cause stack)

/-- The type assertion `cause.(StackTrimmer)` on a possibly nil `error`: the
bound method `TrimStack` when the dynamic type has one. -/
def asStackTrimmer : Option Err → Option (Stack → Option Err)
  | some (.simple message cause stack) => some (simple.TrimStack message cause stack)
  | some (.value message value cause stack) =>
    some (ValueError.TrimStack message value cause stack)
  | some (.foreign _) => none
  | none => none

/-! ## Constructors

`NewStack(skip)` reads the call stack of the running goroutine.  Each
constructor takes the capture function of its own call site as the parameter
`NewStack`, so `NewStack 2` below is the freshly captured stack of that call.
`newSimple` and `NewValueError` pass a constant, on which the capture returns.
`NewPanicError` passes a sum that its caller controls: there the parameter is
the function `NewStack` of the stack capture section at that call site, which
may fail to return (`none`). -/

/-- The constructor `newSimple`.
```go
func newSimple(message string, cause error) error {
	result := &simple{message: message, cause: cause, stack: NewStack(2)}
	if stacker, ok := cause.(StackTrimmer); ok {
		result.cause = stacker.TrimStack(result.stack)
	}
	return result
}
```
-/
def newSimple (NewStack : Int → Stack) (message : String) (cause : Option Err) :
    Option Err :=
  let stack := NewStack 2
  match asStackTrimmer cause with
  | some trimStack =>
    (trimStack stack).map (fun trimmed => Err.simple message (some trimmed) stack)
  | none => some (Err.simple message cause stack)

/-- The constructor `NewValueError`; `Sprintf` stands for `fmt.Sprintf`.
```go
func NewValueError(value any, cause error, message string, args ...any) error {
	if len(args) > 0 { message = fmt.Sprintf(message, args...) }
	result := ValueError{message: message, value: value, cause: cause, stack: NewStack(1)}
	if stacker, ok := cause.(StackTrimmer); ok {
		result.cause = stacker.TrimStack(result.stack)
	}
	return result
}
```
-/
def NewValueError (NewStack : Int → Stack) (Sprintf : String → List Val → String)
    (value : Val) (cause : Option Err) (message : String) (args : List Val) :
    Option Err :=
  let message := if args.length > 0 then Sprintf message args else message
  let stack := NewStack 1
  match asStackTrimmer cause with
  | some trimStack =>
    (trimStack stack).map (fun trimmed => Err.value message value (some trimmed) stack)
  | none => some (Err.value message value cause stack)

/-- The constructor `NewPanicError`; the sum `1 + skipStack + 3` is `int`
arithmetic, and `none` is a fault or a stack capture that does not return.
```go
func NewPanicError(v any, skipStack int) error {
	if e, ok := v.(error); ok {
		result := &simple{message: "panic", cause: e, stack: NewStack(1 + skipStack + 3)}
		if stacker, ok := e.(StackTrimmer); ok {
			result.cause = stacker.TrimStack(result.stack)
		}
		return result
	} else {
		return ValueError{message: "panic", value: v, stack: NewStack(1 + skipStack + 3)}
	}
}
```
-/
def NewPanicError (NewStack : Int → Option Stack) (v : Any) (skipStack : Int) :
    Option Err :=
  match v with
  | .err e =>
    match NewStack (wrapInt (wrapInt (1 + skipStack) + 3)) with
    | none => none
    | some stack =>
      match asStackTrimmer (some e) with
      | some trimStack =>
        (trimStack stack).map (fun trimmed => Err.simple "panic" (some trimmed) stack)
      | none => some (Err.simple "panic" (some e) stack)
  | .val x =>
    match NewStack (wrapInt (wrapInt (1 + skipStack) + 3)) with
    | none => none
    | some stack => some (Err.value "panic" x none stack)

/-! ## Reference-level reading of `(*simple).TrimStack`

`*simple` is a pointer type, so whether `TrimStack` writes through its
receiver is a question about the store.  Here the store is a list of objects,
an address is an index into it, and `&simple{...}` allocates at the end. -/

/-- The store of `simple` objects. -/
abbrev Heap := List Err

/-- The method `(*simple).TrimStack` with the receiver given by its address
`s` in the store `h`: the store after the call and the address returned.  The
body reads `s.stack`, `s.message`, `s.cause` and assigns to no field; `return
s` hands back the receiver's own address. -/
def simple.TrimStackRef (h : Heap) (s : Nat) (parent : Stack) : Option (Heap × Nat) :=
  match h[s]? with
  | some (.simple message cause stack) =>
    match stack.Trim parent with
    | none => none
    | some (trimmedStack, ok) =>
      if ok then some (h ++ [Err.simple message cause trimmedStack], h.length)
      else some (h, s)
  | _ => none

/-! ## Sentinels -/

/-- The constructor `WrapSentinel`; the result is never the nil `error`.
```go
func WrapSentinel(cause error, message string) error {
	result := &simple{message: message, cause: cause}
	return result
}
```
-/
def WrapSentinel (cause : Option Err) (message : String) : Option Err :=
  some (Err.simple message cause [])

/-- The constructor `NewSentinel`; the `stack` field keeps its zero value.
```go
func NewSentinel(message string) error {
	result := &simple{message: message}
	return result
}
```
-/
def NewSentinel (message : String) : Err :=
  Err.simple message none []

/-! ## The message protocol -/

/-- The library call `strings.Split(s, MessageSeparator)` with
`MessageSeparator = ": "`, on the characters of `s`: the text is cut at every
occurrence of the separator, found from the left and without overlap, and an
input without separator yields the one-element list of the input itself. -/
def splitMessageSeparator : List Char → List (List Char)
  | [] => [[]]
  | [c] => [[c]]
  | c :: d :: rest =>
    if c = ':' ∧ d = ' ' then [] :: splitMessageSeparator rest
    else
      match splitMessageSeparator (d :: rest) with
      | [] => [[c]]
      | seg :: segs => (c :: seg) :: segs

/-- The function `Messages`.
```go
func Messages(err error) []string {
	return strings.Split(err.Error(), MessageSeparator)
}
```
-/
def Messages (err : Err) : List String :=
  (splitMessageSeparator err.Error.data).map String.mk

/-- The function `Message`; `none` is the fault of the index expression
`message[0]` on an empty slice.
```go
func Message(err error) string {
	if messager, ok := err.(Messager); ok {
		return messager.Message()
	}
	message := strings.Split(err.Error(), MessageSeparator)
	return message[0]
}
```
-/
def Message (err : Err) : Option String :=
  match err.asMessager with
  | some message => some message
  | none => (Messages err)[0]?

/-! ## Rendering

`runtime.FuncForPC` is the symbol table of the running program; it is the
parameter `rt` of everything that resolves a frame. -/

/-- What `runtime.FuncForPC` returns for a known program counter: the name of
the function and its `FileLine` method. -/
structure Func where
  Name : String
  FileLine : Nat → String × Int

/-- The symbol table `runtime.FuncForPC`; `none` is the nil `*runtime.Func`. -/
abbrev Runtime := Nat → Option Func

/-- The method `Frame.pc`: `uintptr(f) - 1` in 64-bit unsigned arithmetic. -/
def Frame.pc (f : Frame) : Nat := (f + (2 ^ 64 - 1)) % 2 ^ 64

/-- The method `Frame.FileLine`.
```go
func (f Frame) FileLine() (string, int) {
	fn := runtime.FuncForPC(f.pc())
	if fn != nil { return fn.FileLine(f.pc()) }
	return "unknown", 0
}
```
-/
def Frame.FileLine (rt : Runtime) (f : Frame) : String × Int :=
  match rt f.pc with
  | some fn => fn.FileLine f.pc
  | none => ("unknown", 0)

/-- The method `Frame.Function`.
```go
func (f Frame) Function() string {
	fn := runtime.FuncForPC(f.pc())
	if fn != nil { return fn.Name() }
	return "unknown"
}
```
-/
def Frame.Function (rt : Runtime) (f : Frame) : String :=
  match rt f.pc with
  | some fn => fn.Name
  | none => "unknown"

/-- The type assertion `cause.(BackTracer)`: `*simple` and `ValueError` have a
`BackTrace` method, both `return BackTrace(receiver)`. -/
def Err.isBackTracer : Err → Bool
  | .simple _ _ _ => true
  | .value _ _ _ _ => true
  | .foreign _ => false

/-- The frame loop of `BackTrace`, appending to `buffer`.
```go
for _, frame := range stacker.Stack() {
	buffer.WriteString("  ")
	buffer.WriteString(frame.Function())
	buffer.WriteString("\n")
	file, line := frame.FileLine()
	buffer.WriteString("    ")
	buffer.WriteString(file)
	buffer.WriteString(":")
	buffer.WriteString(strconv.Itoa(line))
	buffer.WriteString("\n")
}
```
-/
def BackTrace.writeFrames (rt : Runtime) (buffer : String) (stack : Stack) : String :=
  stack.foldl
    (fun buffer frame =>
      buffer ++ "  " ++ frame.Function rt ++ "\n" ++ "    " ++ (frame.FileLine rt).1 ++ ":" ++
        toString (frame.FileLine rt).2 ++ "\n")
    buffer

/-- The branch of `BackTrace` for a cause without a `BackTrace` method,
appending to `buffer`; `none` is the fault of `causeMessages[0]` on an empty
slice.
```go
causeMessages := Messages(cause)
slices.Reverse(causeMessages)
buffer.WriteString("Root Cause: ")
buffer.WriteString(causeMessages[0])
buffer.WriteString("\n")
for i, causeMessage := range causeMessages {
	if i == 0 { continue }
	buffer.WriteString("Caused: ")
	buffer.WriteString(causeMessage)
	buffer.WriteString("\n")
}
```
-/
def BackTrace.writeForeignCause (buffer : String) (cause : Err) : Option String :=
  let causeMessages := (Messages cause).reverse
  match causeMessages[0]? with
  | none => none
  | some first =>
    let buffer := buffer ++ "Root Cause: " ++ first ++ "\n"
    some (causeMessages.enum.foldl
      (fun buffer (entry : Nat × String) =>
        if entry.1 = 0 then buffer else buffer ++ "Caused: " ++ entry.2 ++ "\n")
      buffer)

/-- The body of `BackTrace(err)` once the cause of `err` is known; `causeTrace`
is the value of `backTracer.BackTrace()` for a cause that has the method.
```go
if cause != nil {
	if backTracer, ok := cause.(BackTracer); ok {
		buffer.Write(backTracer.BackTrace())
	} else { ... }
	buffer.WriteString("Caused: ")
} else {
	buffer.WriteString("Root Cause: ")
}
buffer.WriteString(Message(err))
buffer.WriteString("\n")
if stacker, ok := err.(Stacker); ok { ... }
return buffer.Bytes()
```
-/
def BackTrace.body (rt : Runtime) (err : Err) (cause : Option Err)
    (causeTrace : Option String) : Option String :=
  let buffer := ""
  let written : Option String :=
    match cause with
    | some c =>
      if c.isBackTracer then causeTrace.map (fun trace => buffer ++ trace ++ "Caused: ")
      else (BackTrace.writeForeignCause buffer c).map (fun buffer => buffer ++ "Caused: ")
    | none => some (buffer ++ "Root Cause: ")
  match written with
  | none => none
  | some buffer =>
    match Message err with
    | none => none
    | some message =>
      let buffer := buffer ++ message ++ "\n"
      match err.asStacker with
      | some stack => some (BackTrace.writeFrames rt buffer stack)
      | none => some buffer

/-- The function `BackTrace`; the bytes written are read as text, and `none`
is a fault.  The cause is `err.(Unwrapper).Unwrap()` when `err` has the method
and nil otherwise, and a cause with a `BackTrace` method is rendered by the
recursive call.
```go
func BackTrace(err error) []byte {
	buffer := new(bytes.Buffer)
	unwrapper, ok := err.(Unwrapper)
	var cause error
	if ok { cause = unwrapper.Unwrap() }
	...
}
```
-/
def BackTrace (rt : Runtime) : Err → Option String
  | .simple message cause stack =>
    match cause with
    | none => BackTrace.body rt (.simple message none stack) none none
    | some c => BackTrace.body rt (.simple message (some c) stack) (some c) (BackTrace rt c)
  | .value message v cause stack =>
    match cause with
    | none => BackTrace.body rt (.value message v none stack) none none
    | some c => BackTrace.body rt (.value message v (some c) stack) (some c) (BackTrace rt c)
  | .foreign text => BackTrace.body rt (.foreign text) none none

/-! ## Stack capture

The call stack of the running goroutine is a list of frames, innermost first.
A function of this section takes as `live` the call stack at its call site,
index 0 being the frame of its caller, and pushes its own frame in front
before calling on.  The frames of the capture routines themselves are the
fields of `CaptureFrames`.  Every sum on a `skip` is `int` arithmetic and
wraps around (`wrapInt`). -/

/-- The constant `framePageSize`. -/
def framePageSize : Nat := 16

/-- The frames that the capture routines and `runtime.Callers` occupy on the
call stack while they run. -/
structure CaptureFrames where
  Callers : Frame
  newCallersPage : Frame
  nextPage : Frame
  pageNext : Frame
  callersNext : Frame
  newCallers : Frame
  NewStack : Frame

/-- The library call `runtime.Callers(skip, buf)` with `len(buf) = size`:
`stack` is the call stack with the frame of `runtime.Callers` itself at index
0, and the result is the filled part of the buffer, at most `size` frames from
index `skip` on.  The runtime counts `skip` down while it is positive, so a
`skip` below zero skips nothing. -/
def runtimeCallers (stack : List Frame) (skip : Int) (size : Nat) : List Frame :=
  (stack.drop skip.toNat).take size

/-- The type `callersPage`. -/
structure callersPage where
  skip : Int
  frames : List Frame
  off : Nat

/-- The type `callers`. -/
structure callers where
  scanned : List Frame
  page : callersPage

/-- The function `newCallersPage`.
```go
func newCallersPage(skip int) callersPage {
	frames := make([]uintptr, framePageSize)
	count := runtime.Callers(skip+2, frames) // skip this function and runtime.Callers
	if count == 0 { return callersPage{} }
	return callersPage{skip: skip, frames: frames[:count]}
}
```
-/
def newCallersPage (m : CaptureFrames) (live : List Frame) (skip : Int) : callersPage :=
  let frames :=
    runtimeCallers (m.Callers :: m.newCallersPage :: live) (wrapInt (skip + 2)) framePageSize
  let count := frames.length
  if count = 0 then { skip := 0, frames := [], off := 0 }
  else { skip := skip, frames := frames.take count, off := 0 }

/-- The method `callersPage.nextPage`.
```go
func (c callersPage) nextPage() callersPage {
	const skip = 2 // skip Next() and nextPage() calls
	page := newCallersPage(c.skip + len(c.frames) + skip)
	page.skip -= skip
	return page
}
```
-/
def callersPage.nextPage (m : CaptureFrames) (live : List Frame) (c : callersPage) :
    callersPage :=
  let skip : Int := 2
  let page := newCallersPage m (m.nextPage :: live)
    (wrapInt (wrapInt (c.skip + c.frames.length) + skip))
  { page with skip := wrapInt (page.skip - skip) }

/-- The method `callersPage.Next`; `none` is the fault of `c.frames[c.off]`.
```go
func (c callersPage) Next() (uintptr, callersPage, bool) {
	switch len(c.frames) {
	case 0:
		return uintptr(0), callersPage{}, false
	case c.off:
		return c.nextPage().Next()
	default:
		frame := c.frames[c.off]
		c.off++
		return frame, c, true
	}
}
```
-/
def callersPage.Next (m : CaptureFrames) (live : List Frame) (c : callersPage) :
    Option (Frame × callersPage × Bool) :=
  if c.frames.length = 0 then
    some (0, { skip := 0, frames := [], off := 0 }, false)
  else if c.frames.length = c.off then
    callersPage.Next m (m.pageNext :: live) (c.nextPage m (m.pageNext :: live))
  else
    match c.frames[c.off]? with
    | none => none
    | some frame => some (frame, { c with off := c.off + 1 }, true)
termination_by (if c.frames.length ≠ 0 ∧ c.frames.length = c.off then 1 else 0)
decreasing_by
  rename_i h0 h1
  have hoff : (c.nextPage m (m.pageNext :: live)).off = 0 := by
    simp only [callersPage.nextPage, newCallersPage]
    split <;> rfl
  have hnew : (if (c.nextPage m (m.pageNext :: live)).frames.length ≠ 0 ∧
      (c.nextPage m (m.pageNext :: live)).frames.length =
        (c.nextPage m (m.pageNext :: live)).off then 1 else 0) = 0 := by
    rw [hoff]
    exact if_neg (fun h => h.1 h.2)
  have hold : (if c.frames.length ≠ 0 ∧ c.frames.length = c.off then 1 else 0) = 1 :=
    if_pos ⟨h0, h1⟩
  rw [hnew, hold]
  exact Nat.one_pos

/-- The method `callers.Next`.  `slices.Grow` changes the capacity only, and
panics when the slice cannot grow by `framePageSize`; the capacity of a slice
is an `int`, so it does at the latest when `len(c.scanned) + framePageSize`
is above the largest `int` (`none`).
```go
func (c callers) Next() (uintptr, callers, bool) {
	frame, page, ok := c.page.Next()
	if ok {
		if len(c.scanned)%framePageSize == 0 {
			c.scanned = slices.Grow(c.scanned, framePageSize)
		}
		c.scanned = append(c.scanned, Frame(frame))
		c.page = page
		return frame, c, true
	}
	return uintptr(0), c, false
}
```
-/
def callers.Next (m : CaptureFrames) (live : List Frame) (c : callers) :
    Option (Frame × callers × Bool) :=
  match c.page.Next m (m.callersNext :: live) with
  | none => none
  | some (frame, page, ok) =>
    if ok then
      if c.scanned.length % framePageSize = 0 ∧
          (c.scanned.length : Int) + framePageSize > maxInt then
        none
      else
        some (frame, { scanned := c.scanned ++ [frame], page := page }, true)
    else some (0, c, false)

/-- The method `callers.Frames`. -/
def callers.Frames (c : callers) : List Frame := c.scanned

/-- The function `newCallers`.
```go
func newCallers(skip int) callers {
	return callers{page: newCallersPage(skip + 1)}
}
```
-/
def newCallers (m : CaptureFrames) (live : List Frame) (skip : Int) : callers :=
  { scanned := [], page := newCallersPage m (m.newCallers :: live) (wrapInt (skip + 1)) }

/-- The loop of `NewStack`, run for at most `fuel` calls of `c.Next()`; `live`
is the call stack inside `NewStack`.  `none` is a fault or the end of the
fuel.
```go
_, c, ok = c.Next()
for ok {
	_, c, ok = c.Next()
}
return c.Frames()
```
-/
def NewStack.loop (m : CaptureFrames) (live : List Frame) : Nat → callers → Option Stack
  | 0, _ => none
  | fuel + 1, c =>
    match c.Next m live with
    | none => none
    | some (_, c, ok) => if ok then NewStack.loop m live fuel c else some c.Frames

/-- The function `NewStack`, called where the call stack is `live`.
```go
func NewStack(skip int) Stack {
	var ok bool
	c := newCallers(skip + 1) // skip NewStack()
	...
}
```
-/
def NewStack (m : CaptureFrames) (fuel : Nat) (live : List Frame) (skip : Int) :
    Option Stack :=
  NewStack.loop m (m.NewStack :: live) fuel
    (newCallers m (m.NewStack :: live) (wrapInt (skip + 1)))

/-! ## Structured attributes (`pkg/log/attrs.go`)

`slog.Value` and `slog.Attr` are the types of the standard library package
`log/slog`; of the kinds of a value only those that the functions below tell
apart are kept.  A group value is built by `slog.GroupValue` only, which drops
the attributes that are empty groups. -/

mutual
/-- The type `slog.Value`: a string, an integer, any other value that is not
an error, an error (kind `Any`), or a group of attributes. -/
inductive slog.Value
  | string (s : String)
  | int64 (i : Int)
  | any (x : Val)
  | error (e : Err)
  | group (attrs : List slog.Attr)
/-- The type `slog.Attr`: a key and a value. -/
inductive slog.Attr
  | mk (Key : String) (Value : slog.Value)
end

/-- The field `Key` of a `slog.Attr`. -/
def slog.Attr.Key : slog.Attr → String
  | .mk key _ => key

/-- The field `Value` of a `slog.Attr`. -/
def slog.Attr.Value : slog.Attr → slog.Value
  | .mk _ value => value

/-- The test `v.Kind() == slog.KindGroup`. -/
def slog.Value.isGroup : slog.Value → Bool
  | .group _ => true
  | _ => false

/-- The method `isEmptyGroup` of `slog.Value`: a group without attributes. -/
def slog.Value.isEmptyGroup : slog.Value → Bool
  | .group [] => true
  | _ => false

/-- The method `Value.Group()`; `none` is its fault on a value that is not a
group. -/
def slog.Value.Group : slog.Value → Option (List slog.Attr)
  | .group attrs => some attrs
  | _ => none

/-- The expression `a.Value.Any().(error)`: the error held by the value, nil
when the value holds something else. -/
def slog.Value.asError : slog.Value → Option Err
  | .error e => some e
  | _ => none

/-- The library call `slog.GroupValue(as...)`: the group of the given
attributes without those that are empty groups. -/
def slog.GroupValue (as : List slog.Attr) : slog.Value :=
  .group (as.filter (fun a => !a.Value.isEmptyGroup))

/-- The library call `slog.Group(key, attrs...)` on attributes. -/
def slog.Group (key : String) (attrs : List slog.Attr) : slog.Attr :=
  .mk key (slog.GroupValue attrs)

/-- The library call `slog.String(key, value)`. -/
def slog.String (key : String) (value : String) : slog.Attr :=
  .mk key (.string value)

/-- The inner loop of `MergeAttrs` for one `addAttr`, with the `!found` append
after it; `merged` is the call `MergeAttrs(parentAttr.Value.Group(),
addAttr.Value.Group())` as a function of the group of `parentAttr`.
```go
found := false
for i, parentAttr := range newAttrs {
	if parentAttr.Key == addAttr.Key {
		if parentAttr.Value.Kind() == slog.KindGroup && addAttr.Value.Kind() == slog.KindGroup {
			newAttrs[i] = slog.Group(addAttr.Key, lo.ToAnySlice(MergeAttrs(...))...)
		} else {
			newAttrs[i] = addAttr
		}
		found = true
		break
	}
}
if !found { newAttrs = append(newAttrs, addAttr) }
```
-/
def MergeAttrs.inner (addAttr : slog.Attr) (merged : List slog.Attr → List slog.Attr) :
    List slog.Attr → List slog.Attr
  | [] => [addAttr]
  | parentAttr :: rest =>
    if parentAttr.Key = addAttr.Key then
      (match parentAttr.Value with
        | .group parentGroup =>
          if addAttr.Value.isGroup then slog.Group addAttr.Key (merged parentGroup)
          else addAttr
        | _ => addAttr) :: rest
    else parentAttr :: MergeAttrs.inner addAttr merged rest

/-- The function `MergeAttrs`: the attributes of `add` are merged into a copy
of `current` one after the other.
```go
func MergeAttrs(current []slog.Attr, add []slog.Attr) []slog.Attr {
	newAttrs := make([]slog.Attr, len(current), len(current)+len(add))
	copy(newAttrs, current)
	for _, addAttr := range add { ... }
	return newAttrs
}
```
-/
def MergeAttrs (current : List slog.Attr) : List slog.Attr → List slog.Attr
  | [] => current
  | .mk key (.group addGroup) :: rest =>
    MergeAttrs
      (MergeAttrs.inner (.mk key (.group addGroup))
        (fun parentGroup => MergeAttrs parentGroup addGroup) current)
      rest
  | addAttr :: rest =>
    MergeAttrs (MergeAttrs.inner addAttr (fun parentGroup => parentGroup) current) rest

/-- The function `attrIndex`.
```go
func attrIndex(attrs []slog.Attr, name string) int {
	for i, attr := range attrs {
		if attr.Value.Kind() == slog.KindGroup && attr.Key == name { return i }
	}
	return len(attrs)
}
```
-/
def attrIndex : List slog.Attr → String → Nat
  | [], _ => 0
  | attr :: rest, name =>
    if attr.Value.isGroup = true ∧ attr.Key = name then 0 else attrIndex rest name + 1

/-- The function `SetAttrsAtPath`; `none` is a fault of an index expression
or of `Value.Group()`.
```go
func SetAttrsAtPath(parentAttrs []slog.Attr, groups []string, attrs []slog.Attr) []slog.Attr {
	if len(groups) == 0 { return MergeAttrs(parentAttrs, attrs) }
	newAttrs := make([]slog.Attr, len(parentAttrs), len(parentAttrs)+len(attrs))
	copy(newAttrs, parentAttrs)
	childIndex := attrIndex(newAttrs, groups[0])
	if childIndex < len(newAttrs) {
		childAttr := newAttrs[childIndex]
		childAttrs := childAttr.Value.Group()
		newChildAttrs := SetAttrsAtPath(childAttrs, groups[1:], attrs)
		newAttrs[childIndex] = slog.Attr{Key: childAttr.Key, Value: slog.GroupValue(newChildAttrs...)}
	} else {
		for i := len(groups) - 1; i >= 0; i-- {
			attrs = []slog.Attr{slog.Group(groups[i], lo.ToAnySlice(attrs)...)}
		}
		newAttrs = append(newAttrs, attrs...)
	}
	return newAttrs
}
```
-/
def SetAttrsAtPath :
    List slog.Attr → List String → List slog.Attr → Option (List slog.Attr)
  | parentAttrs, [], attrs => some (MergeAttrs parentAttrs attrs)
  | parentAttrs, group :: groups, attrs =>
    let newAttrs := parentAttrs
    let childIndex := attrIndex newAttrs group
    if childIndex < newAttrs.length then
      match newAttrs[childIndex]? with
      | none => none
      | some childAttr =>
        match childAttr.Value.Group with
        | none => none
        | some childAttrs =>
          match SetAttrsAtPath childAttrs groups attrs with
          | none => none
          | some newChildAttrs =>
            some (newAttrs.set childIndex
              (slog.Attr.mk childAttr.Key (slog.GroupValue newChildAttrs)))
    else
      some (newAttrs ++
        (group :: groups).foldr (fun g attrs => [slog.Group g attrs]) attrs)

/-- The loop of `GetValueAtPath` from the value `here` with the rest `p` of
the path; `none` is the result `(slog.Value{}, false)`. -/
def GetValueAtPath.loop : slog.Value → List String → Option slog.Value
  | here, [] => some here
  | here, key :: p =>
    match here with
    | .group attrs =>
      match attrs.find? (fun attr => attr.Key == key) with
      | some attr => GetValueAtPath.loop attr.Value p
      | none => none
    | _ => none

/-- The function `GetValueAtPath`; `some v` is the result `(v, true)`.
```go
func GetValueAtPath(attrs []slog.Attr, p ...string) (slog.Value, bool) {
	here := slog.GroupValue(attrs...)
	for len(p) > 0 {
		if here.Kind() != slog.KindGroup { return slog.Value{}, false }
		found := false
		for _, attr := range here.Group() {
			if attr.Key == p[0] { here = attr.Value; found = true; break }
		}
		if !found { return slog.Value{}, false }
		p = p[1:]
	}
	return here, true
}
```
-/
def GetValueAtPath (attrs : List slog.Attr) (p : List String) : Option slog.Value :=
  GetValueAtPath.loop (slog.GroupValue attrs) p

/-! ## The error attributes middleware (`pkg/log/handlers.go`) -/

/-- The constant `ErrorKey`. -/
def ErrorKey : String := "error"

/-- The constant `ErrorTextKey`. -/
def ErrorTextKey : String := "text"

/-- The constant `ErrorBacktraceKey`. -/
def ErrorBacktraceKey : String := "backtrace"

/-- The function `Attr` of `attrs.go` on an error: the key is `k`; the value
is what `Value` finds by reflection on the dynamic type of the error, given
here as the parameter `Value`. -/
def Attr (Value : Err → slog.Value) (k : String) (v : Err) : slog.Attr :=
  .mk k (Value v)

/-- The search loop of the middleware from index `i` on: the error held by
the first attribute with key `ErrorKey` (nil when it holds none) and the index
`ia` of that attribute.
```go
var err error
var ia int
for i, a := range attrs {
	if a.Key == ErrorKey {
		ia = i
		err, _ = a.Value.Any().(error)
		break
	}
}
```
-/
def NewErrorAttrsMiddleware.search (i : Nat) : List slog.Attr → Option Err × Nat
  | [] => (none, 0)
  | a :: rest =>
    if a.Key = ErrorKey then (a.Value.asError, i)
    else NewErrorAttrsMiddleware.search (i + 1) rest

/-- The function given to `slogmulti.NewWithAttrsInlineMiddleware` by
`NewErrorAttrsMiddleware`: the attribute list it hands to `next`; `none` is a
fault.  `TrimSpace` stands for `strings.TrimSpace`.
```go
if err == nil { return next(attrs) }
attrs[ia] = Attr(ErrorKey, err)
backTraceBytes := errors.BackTrace(err)
attrs = MergeAttrs(attrs, []slog.Attr{{
	Key: ErrorKey,
	Value: slog.GroupValue(
		slog.String(ErrorBacktraceKey, strings.TrimSpace(string(backTraceBytes))),
		slog.String(ErrorTextKey, err.Error())),
}})
return next(attrs)
```
-/
def NewErrorAttrsMiddleware (rt : Runtime) (Value : Err → slog.Value)
    (TrimSpace : String → String) (attrs : List slog.Attr) : Option (List slog.Attr) :=
  match NewErrorAttrsMiddleware.search 0 attrs with
  | (none, _) => some attrs
  | (some err, ia) =>
    let attrs := attrs.set ia (Attr Value ErrorKey err)
    match BackTrace rt err with
    | none => none
    | some backTraceBytes =>
      some (MergeAttrs attrs
        [slog.Attr.mk ErrorKey
          (slog.GroupValue
            [slog.String ErrorBacktraceKey (TrimSpace backTraceBytes),
             slog.String ErrorTextKey err.Error])])

/-! ## The formatting logger (`pkg/log/sugar.go`, `pkg/log/levels.go`) -/

/-- The constant `LevelTrace = slog.Level(-8)`. -/
def LevelTrace : Int := -8

/-- The constant `LevelDebug = slog.LevelDebug`. -/
def LevelDebug : Int := -4

/-- The constant `LevelInfo = slog.LevelInfo`. -/
def LevelInfo : Int := 0

/-- The constant `LevelWarn = slog.LevelWarn`. -/
def LevelWarn : Int := 4

/-- The constant `LevelError = slog.LevelError`. -/
def LevelError : Int := 8

/-- The type `formattingLogger`, as far as the level methods use it: the
`Enabled` test of its `*slog.Logger` for a context (`none` is nil) and a
level. -/
structure formattingLogger where
  Enabled : Option Nat → Int → Bool

/-- What `formattingLogger.log` hands to the handler: the context, the level
and message of the record, and the values added to the logger. -/
structure LogRecord where
  ctx : Option Nat
  level : Int
  msg : String
  values : List Val
  deriving DecidableEq, Repr

/-- The method `formattingLogger.log`; `none` is the return without a record
when the level is not enabled.
```go
func (f *formattingLogger) log(ctx context.Context, level slog.Level, msg string, values ...any) {
	if !f.logger.Enabled(ctx, level) { return }
	l := &formattingLogger{logger: f.logger.With(values...)}
	record := slog.NewRecord(time.Now(), level, msg, f.pc())
	...
	_ = l.logger.Handler().Handle(ctx, record)
}
```
-/
def formattingLogger.log (f : formattingLogger) (ctx : Option Nat) (level : Int)
    (msg : String) (values : List Val) : Option LogRecord :=
  if !f.Enabled ctx level then none
  else some { ctx := ctx, level := level, msg := msg, values := values }

/-- The method `Trace`: `f.log(nil, LevelTrace, msg, args...)`. -/
def formattingLogger.Trace (f : formattingLogger) (msg : String) (args : List Val) :
    Option LogRecord :=
  f.log none LevelTrace msg args

/-- The method `Debug`: `f.log(nil, LevelDebug, msg, args...)`. -/
def formattingLogger.Debug (f : formattingLogger) (msg : String) (args : List Val) :
    Option LogRecord :=
  f.log none LevelDebug msg args

/-- The method `Info`: `f.log(nil, LevelInfo, msg, args...)`. -/
def formattingLogger.Info (f : formattingLogger) (msg : String) (args : List Val) :
    Option LogRecord :=
  f.log none LevelInfo msg args

/-- The method `Warn`: `f.log(nil, LevelWarn, msg, args...)`. -/
def formattingLogger.Warn (f : formattingLogger) (msg : String) (args : List Val) :
    Option LogRecord :=
  f.log none LevelWarn msg args

/-- The method `Error`: `f.log(nil, LevelError, msg, args...)`. -/
def formattingLogger.Error (f : formattingLogger) (msg : String) (args : List Val) :
    Option LogRecord :=
  f.log none LevelError msg args

/-- The method `TraceContext`: `f.log(ctx, LevelTrace, msg, args...)`. -/
def formattingLogger.TraceContext (f : formattingLogger) (ctx : Option Nat) (msg : String)
    (args : List Val) : Option LogRecord :=
  f.log ctx LevelTrace msg args

/-- The method `DebugContext`: `f.log(ctx, LevelDebug, msg, args...)`. -/
def formattingLogger.DebugContext (f : formattingLogger) (ctx : Option Nat) (msg : String)
    (args : List Val) : Option LogRecord :=
  f.log ctx LevelDebug msg args

/-- The method `InfoContext`: `f.log(ctx, LevelInfo, msg, args...)`. -/
def formattingLogger.InfoContext (f : formattingLogger) (ctx : Option Nat) (msg : String)
    (args : List Val) : Option LogRecord :=
  f.log ctx LevelInfo msg args

/-- The method `WarnContext`: `f.log(ctx, LevelWarn, msg, args...)`. -/
def formattingLogger.WarnContext (f : formattingLogger) (ctx : Option Nat) (msg : String)
    (args : List Val) : Option LogRecord :=
  f.log ctx LevelWarn msg args

/-- The method `ErrorContext`: `f.log(ctx, LevelError, msg, args...)`. -/
def formattingLogger.ErrorContext (f : formattingLogger) (ctx : Option Nat) (msg : String)
    (args : List Val) : Option LogRecord :=
  f.log ctx LevelError msg args

/-- The method `Tracef`: `f.log(nil, LevelTrace, fmt.Sprintf(template,
vals...))`. -/
def formattingLogger.Tracef (f : formattingLogger) (Sprintf : String → List Val → String)
    (template : String) (vals : List Val) : Option LogRecord :=
  f.log none LevelTrace (Sprintf template vals) []

/-- The method `Debugf`: `f.log(nil, LevelDebug, fmt.Sprintf(template,
vals...))`. -/
def formattingLogger.Debugf (f : formattingLogger) (Sprintf : String → List Val → String)
    (template : String) (vals : List Val) : Option LogRecord :=
  f.log none LevelDebug (Sprintf template vals) []

/-- The method `Infof`: `f.log(nil, LevelInfo, fmt.Sprintf(template,
vals...))`. -/
def formattingLogger.Infof (f : formattingLogger) (Sprintf : String → List Val → String)
    (template : String) (vals : List Val) : Option LogRecord :=
  f.log none LevelInfo (Sprintf template vals) []

/-- The method `Warnf`: `f.log(nil, LevelWarn, fmt.Sprintf(template,
vals...))`. -/
def formattingLogger.Warnf (f : formattingLogger) (Sprintf : String → List Val → String)
    (template : String) (vals : List Val) : Option LogRecord :=
  f.log none LevelWarn (Sprintf template vals) []

/-- The method `Errorf`: `f.log(nil, LevelError, fmt.Sprintf(template,
vals...))`. -/
def formattingLogger.Errorf (f : formattingLogger) (Sprintf : String → List Val → String)
    (template : String) (vals : List Val) : Option LogRecord :=
  f.log none LevelError (Sprintf template vals) []

/-- The method `TracefContext`: `f.log(ctx, LevelDebug, fmt.Sprintf(template,
vals...))`. -/
def formattingLogger.TracefContext (f : formattingLogger)
    (Sprintf : String → List Val → String) (ctx : Option Nat) (template : String)
    (vals : List Val) : Option LogRecord :=
  f.log ctx LevelDebug (Sprintf template vals) []

/-- The method `DebugfContext`: `f.log(ctx, LevelDebug, fmt.Sprintf(template,
vals...))`. -/
def formattingLogger.DebugfContext (f : formattingLogger)
    (Sprintf : String → List Val → String) (ctx : Option Nat) (template : String)
    (vals : List Val) : Option LogRecord :=
  f.log ctx LevelDebug (Sprintf template vals) []

/-- The method `InfofContext`: `f.log(ctx, LevelInfo, fmt.Sprintf(template,
vals...))`. -/
def formattingLogger.InfofContext (f : formattingLogger)
    (Sprintf : String → List Val → String) (ctx : Option Nat) (template : String)
    (vals : List Val) : Option LogRecord :=
  f.log ctx LevelInfo (Sprintf template vals) []

/-- The method `WarnfContext`: `f.log(ctx, LevelWarn, fmt.Sprintf(template,
vals...))`. -/
def formattingLogger.WarnfContext (f : formattingLogger)
    (Sprintf : String → List Val → String) (ctx : Option Nat) (template : String)
    (vals : List Val) : Option LogRecord :=
  f.log ctx LevelWarn (Sprintf template vals) []

/-- The method `ErrorfContext`: `f.log(ctx, LevelError, fmt.Sprintf(template,
vals...))`. -/
def formattingLogger.ErrorfContext (f : formattingLogger)
    (Sprintf : String → List Val → String) (ctx : Option Nat) (template : String)
    (vals : List Val) : Option LogRecord :=
  f.log ctx LevelError (Sprintf template vals) []

/-! ## Specification devices -/

/-- Length of the longest common prefix of two frame lists (specification
device: applied to reversed stacks it counts matching frames from the root
end). -/
def commonPrefixLen : List Frame → List Frame → Nat
  | a :: as, b :: bs => if a = b then 1 + commonPrefixLen as bs else 0
  | _, _ => 0

/-- Whether the text contains the separator `": "` (`strings.Contains`). -/
def hasSeparator : List Char → Bool
  | [] => false
  | [_] => false
  | c :: d :: rest => (c = ':' ∧ d = ' ') || hasSeparator (d :: rest)

/-- The causal chain of an error, outermost layer first: the error, then what
`Unwrap()` returns, and so on down to the layer without cause.  A foreign
error has no `Unwrap` method and ends the chain. -/
def Err.chain : Err → List Err
  | .simple message none stack => [.simple message none stack]
  | .simple message (some cause) stack => .simple message (some cause) stack :: cause.chain
  | .value message v none stack => [.value message v none stack]
  | .value message v (some cause) stack => .value message v (some cause) stack :: cause.chain
  | .foreign text => [.foreign text]

/-- Whether every layer of the causal chain is a `simple` or a `ValueError`. -/
def Err.modelChain : Err → Bool
  | .simple _ none _ => true
  | .simple _ (some cause) _ => cause.modelChain
  | .value _ _ none _ => true
  | .value _ _ (some cause) _ => cause.modelChain
  | .foreign _ => false

/-- The text `m1 ++ ": " ++ m2 ++ ": " ++ ... ++ mn` of a list of messages. -/
def joinMessages : List String → String
  | [] => ""
  | [m] => m
  | m :: m2 :: ms => m ++ ": " ++ joinMessages (m2 :: ms)

/-- The two lines of a rendered trace for one frame: `"  <function>"` and
`"    <file>:<line>"`.  The function, file and line are those the symbol
table gives for the call instruction of the frame, the program counter just
before its return address; a frame the symbol table does not know is rendered
with `unknown` for the function and the file, and line 0. -/
def frameLines (rt : Runtime) (frame : Frame) : String :=
  match rt ((frame + (2 ^ 64 - 1)) % 2 ^ 64) with
  | some fn =>
    "  " ++ fn.Name ++ "\n" ++
      "    " ++ (fn.FileLine ((frame + (2 ^ 64 - 1)) % 2 ^ 64)).1 ++ ":" ++
      toString (fn.FileLine ((frame + (2 ^ 64 - 1)) % 2 ^ 64)).2 ++ "\n"
  | none => "  unknown\n    unknown:0\n"

/-- The frame lines of a stack: the two lines of every frame, in the order of
the stack. -/
def stackLines (rt : Runtime) : Stack → String
  | [] => ""
  | frame :: stack => frameLines rt frame ++ stackLines rt stack

/-- One block of a rendered trace: the header line of a layer, which is the
header followed by the message of the layer, and then the frame lines of the
stack of the layer.  A foreign error has neither field; its block is the
header line with its text. -/
def layerBlock (rt : Runtime) (header : String) : Err → String
  | .simple message _ stack => header ++ message ++ "\n" ++ stackLines rt stack
  | .value message _ _ stack => header ++ message ++ "\n" ++ stackLines rt stack
  | .foreign text => header ++ text ++ "\n"

/-- The rendered trace of a causal chain given outermost layer first: the
blocks of all layers in root-first order, the root under the header
`"Root Cause: "` and every other layer under `"Caused: "`. -/
def renderChain (rt : Runtime) : List Err → String
  | [] => ""
  | [root] => layerBlock rt "Root Cause: " root
  | e :: e2 :: rest => renderChain rt (e2 :: rest) ++ layerBlock rt "Caused: " e

/-- The lines `"Caused: " ++ s` for a list of message segments, in order. -/
def causedLines : List String → String
  | [] => ""
  | s :: rest => "Caused: " ++ s ++ "\n" ++ causedLines rest

/-- The state of the capture loop after `j` frames of the target list `D`
(the call stack of the caller of `NewStack` from index `skip` on) have been
delivered: `scanned` holds the first `j` frames of `D`, and the page is either
empty with all of `D` delivered, or holds the frames of `D` from some index
`b` on, `j - b` of them already handed out. -/
def captureInv (D : List Frame) (skip : Nat) (c : callers) (j : Nat) : Prop :=
  c.scanned = D.take j ∧ j ≤ D.length ∧
    ((c.page.frames = [] ∧ j = D.length) ∨
      ∃ b : Nat, c.page.skip = ((skip + 2 + b : Nat) : Int) ∧
        c.page.frames = (D.drop b).take framePageSize ∧ c.page.frames ≠ [] ∧
        c.page.off ≤ c.page.frames.length ∧ j = b + c.page.off)

/-- A state of the capture loop whose first page was fetched with an argument
of `runtime.Callers` that has wrapped around to one of the lowest values of
`int`: the page is not empty, and the argument of the first fetch, which is the
`skip` of the page less the frames scanned on the pages before it plus 2, is
among the eleven lowest values of `int`.  `c.scanned` has not reached the
largest length a slice can grow from. -/
def wrappedInv (c : callers) : Prop :=
  c.page.frames ≠ [] ∧ c.page.off ≤ c.page.frames.length ∧
    wrapInt (c.page.skip + c.page.off - c.scanned.length + 2) ≤ -(2 ^ 63 : Int) + 10 ∧
    (c.scanned.length : Int) ≤ 2 ^ 63 - 16

/-- A state of the capture loop in which no `skip` sum wraps around, where
`K` is the depth of the call stack inside `runtime.Callers` when a page is
fetched from `Next`: either the page is empty, or it ends within the call
stack. -/
def scanInv (K : Int) (c : callers) : Prop :=
  c.page.frames = [] ∨
    (c.page.off ≤ c.page.frames.length ∧ -(2 ^ 63 : Int) ≤ c.page.skip ∧
      c.page.skip + c.page.frames.length + 4 ≤ K)

/-- The error `e` with `t` as its stack and every other field kept; a foreign
error has no stack and is left as it is. -/
def Err.withStack : Err → Stack → Err
  | .simple message cause _, t => .simple message cause t
  | .value message v cause _, t => .value message v cause t
  | .foreign text, _ => .foreign text

/-- Whether, along the path `groups`, the first attribute whose key is the
next segment of the path is a group whenever there is such an attribute, at
every level down from `attrs`. -/
def pathIsGroups : List slog.Attr → List String → Bool
  | _, [] => true
  | attrs, group :: groups =>
    match attrs.find? (fun attr => attr.Key == group) with
    | none => true
    | some attr =>
      match attr.Value with
      | .group childAttrs => pathIsGroups childAttrs groups
      | _ => false

/-! ## Properties of `Stack.Trim` -/

theorem Stack.index_from_end (s : Stack) (idx : Nat) :
    s.index ((s.length : Int) - idx - 1) = s.reverse[idx]? := by
  unfold Stack.index
  by_cases h : idx < s.length
  · have h1 : ¬ ((s.length : Int) - idx - 1 < 0) := by omega
    have h2 : ((s.length : Int) - idx - 1).toNat = s.length - 1 - idx := by omega
    rw [if_neg h1, h2, List.getElem?_reverse h, List.get?_eq_getElem?]
  · have h1 : (s.length : Int) - idx - 1 < 0 := by omega
    rw [if_pos h1]
    symm
    apply List.getElem?_eq_none
    simp only [List.length_reverse]
    omega

theorem Stack.trimLoop_eq (s parent : Stack) (idx : Nat) :
    Stack.trimLoop s parent idx =
      match s.reverse[idx]?, parent.reverse[idx]? with
      | some a, some b =>
        if a = b ∧ parent.length > idx + 1 then Stack.trimLoop s parent (idx + 1)
        else some idx
      | _, _ => none := by
  rw [Stack.trimLoop, Stack.index_from_end, Stack.index_from_end]
  cases s.reverse[idx]? <;> cases parent.reverse[idx]? <;> simp [Frame.Equals]

/-- Exit value of the loop whenever it is entered with `idx` below the length
of `parent` and `s` at least as long as `parent`. -/
theorem Stack.trimLoop_spec (s parent : Stack) (hlen : parent.length ≤ s.length) :
    ∀ (n idx : Nat), parent.length - idx = n → idx < parent.length →
      Stack.trimLoop s parent idx =
        some (min (idx + commonPrefixLen (s.reverse.drop idx) (parent.reverse.drop idx))
          (parent.length - 1)) := by
  intro n
  induction n with
  | zero => intro idx h1 h2; omega
  | succ n ih =>
    intro idx h1 h2
    have hs : idx < s.reverse.length := by simp only [List.length_reverse]; omega
    have hp : idx < parent.reverse.length := by simp only [List.length_reverse]; omega
    rw [Stack.trimLoop_eq, List.getElem?_eq_getElem hs, List.getElem?_eq_getElem hp]
    rw [List.drop_eq_getElem_cons hs, List.drop_eq_getElem_cons hp]
    simp only [commonPrefixLen]
    by_cases heq : s.reverse[idx] = parent.reverse[idx]
    · by_cases hgt : parent.length > idx + 1
      · rw [if_pos ⟨heq, hgt⟩, if_pos heq, ih (idx + 1) (by omega) (by omega)]
        congr 1
        omega
      · rw [if_neg (fun h => hgt h.2), if_pos heq]
        congr 1
        omega
    · rw [if_neg (fun h => heq h.1), if_neg heq]
      congr 1
      omega

/-- The loop faults as soon as `idx` is not below the length of `parent`. -/
theorem Stack.trimLoop_fault (s parent : Stack) (idx : Nat) (h : parent.length ≤ idx) :
    Stack.trimLoop s parent idx = none := by
  rw [Stack.trimLoop_eq]
  have hp : parent.reverse[idx]? = none := by
    apply List.getElem?_eq_none
    simp only [List.length_reverse]
    exact h
  rw [hp]
  cases s.reverse[idx]? <;> rfl

/-- Closed form of `Stack.Trim` on the branch that reaches the loop without a
fault: exactly `min (1 + m) (len parent - 1)` frames are taken off the root end
of `s`, where `m` counts the matching frames from position 2 of the root end. -/
theorem Stack.Trim_loop_branch (s parent : Stack) (h2 : 2 ≤ parent.length)
    (hlen : parent.length ≤ s.length) :
    Stack.Trim s parent =
      some (s.take (s.length -
        min (1 + commonPrefixLen (s.reverse.drop 1) (parent.reverse.drop 1))
          (parent.length - 1)), true) := by
  unfold Stack.Trim
  simp only []
  rw [if_neg (by omega), if_neg (by omega),
    Stack.trimLoop_spec s parent hlen (parent.length - 1) 1 (by omega) (by omega)]
  have hpos : 0 < min (1 + commonPrefixLen (s.reverse.drop 1) (parent.reverse.drop 1))
      (parent.length - 1) := by omega
  have hle : min (1 + commonPrefixLen (s.reverse.drop 1) (parent.reverse.drop 1))
      (parent.length - 1) ≤ parent.length - 1 := by omega
  generalize min (1 + commonPrefixLen (s.reverse.drop 1) (parent.reverse.drop 1))
    (parent.length - 1) = m at hpos hle
  have hm : ((s.length : Int) - (m : Int)).toNat = s.length - m := by omega
  have hin : ¬ ((s.length : Int) - (m : Int) < 0 ∨ (s.length : Int) - (m : Int) > s.length) := by
    omega
  simp only [Stack.slice, if_neg hin, hm, gt_iff_lt, hpos, decide_True]

/-- On the early-return branches `Stack.Trim` gives back `s` untouched. -/
theorem Stack.Trim_early (s parent : Stack)
    (h : s.length < parent.length ∨ s.length = 0 ∨ parent.length = 0) :
    Stack.Trim s parent = some (s, false) := by
  unfold Stack.Trim
  simp only []
  by_cases h1 : s.length < parent.length
  · rw [if_pos h1]
  · rw [if_neg h1, if_pos (by omega)]

/-- A parent of exactly one frame under a non-empty `s` makes `Stack.Trim` fault. -/
theorem Stack.Trim_single_parent (s parent : Stack) (h1 : parent.length = 1)
    (hs : 1 ≤ s.length) : Stack.Trim s parent = none := by
  unfold Stack.Trim
  simp only []
  rw [if_neg (by omega), if_neg (by omega), Stack.trimLoop_fault s parent 1 (by omega)]

theorem commonPrefixLen_append_ne (l u v : List Frame) (x y : Frame) (hxy : x ≠ y) :
    commonPrefixLen (l ++ x :: u) (l ++ y :: v) = l.length := by
  induction l with
  | nil => simp [commonPrefixLen, hxy]
  | cons a l ih => simp [commonPrefixLen, ih]; omega

/-- The three ways a call of `Stack.Trim` can end: the early return of `s`
itself, the fault under a one-frame parent, or the removal of `m` frames with
`1 ≤ m < len parent`. -/
theorem Stack.Trim_cases (s parent : Stack) :
    ((s.length < parent.length ∨ s.length = 0 ∨ parent.length = 0) ∧
        Stack.Trim s parent = some (s, false)) ∨
      (parent.length = 1 ∧ 1 ≤ s.length ∧ Stack.Trim s parent = none) ∨
      (∃ m, 1 ≤ m ∧ m < parent.length ∧ parent.length ≤ s.length ∧
        Stack.Trim s parent = some (s.take (s.length - m), true)) := by
  by_cases h : s.length < parent.length ∨ s.length = 0 ∨ parent.length = 0
  · exact Or.inl ⟨h, Stack.Trim_early s parent h⟩
  · by_cases h1 : parent.length = 1
    · exact Or.inr (Or.inl ⟨h1, by omega, Stack.Trim_single_parent s parent h1 (by omega)⟩)
    · refine Or.inr (Or.inr ⟨_, ?_, ?_, by omega,
        Stack.Trim_loop_branch s parent (by omega) (by omega)⟩) <;> omega

/-- A call of `Stack.Trim` that reports `false` returns `s` itself. -/
theorem Stack.Trim_false_unchanged (s parent t : Stack)
    (h : Stack.Trim s parent = some (t, false)) : t = s := by
  rcases Stack.Trim_cases s parent with ⟨_, h1⟩ | ⟨_, _, h1⟩ | ⟨m, _, _, _, h1⟩
  · rw [h1] at h
    simp only [Option.some.injEq, Prod.mk.injEq, and_true] at h
    exact h.symm
  · rw [h1] at h; simp at h
  · rw [h1] at h; simp at h

/-- Result of `(*simple).TrimStack` once `Stack.Trim` has returned. -/
theorem simple_TrimStack_of_trim (message : String) (cause : Option Err)
    (stack parent t : Stack) (ok : Bool) (h : Stack.Trim stack parent = some (t, ok)) :
    simple.TrimStack message cause stack parent = some (Err.simple message cause t) := by
  unfold simple.TrimStack
  rw [h]
  cases ok with
  | true => rfl
  | false => rw [Stack.Trim_false_unchanged stack parent t h]; rfl

/-- Result of `ValueError.TrimStack` once `Stack.Trim` has returned. -/
theorem ValueError_TrimStack_of_trim (message : String) (value : Val)
    (cause : Option Err) (stack parent t : Stack) (ok : Bool)
    (h : Stack.Trim stack parent = some (t, ok)) :
    ValueError.TrimStack message value cause stack parent =
      some (Err.value message value cause t) := by
  unfold ValueError.TrimStack
  rw [h]
  cases ok with
  | true => rfl
  | false => rw [Stack.Trim_false_unchanged stack parent t h]; rfl

/-- What the bound method obtained by `cause.(StackTrimmer)` returns once
`Stack.Trim` on the stack of the cause has returned `t`: the cause with `t` as
its stack and every other field kept. -/
theorem asStackTrimmer_of_trim (c : Err) (trimStack : Stack → Option Err)
    (st f t : Stack) (ok : Bool) (htr : asStackTrimmer (some c) = some trimStack)
    (hst : c.asStacker = some st) (h : Stack.Trim st f = some (t, ok)) :
    ∃ trimmed, trimStack f = some trimmed ∧ trimmed.asStacker = some t ∧
      trimmed.asMessager = c.asMessager ∧ trimmed.asUnwrapper = c.asUnwrapper ∧
      trimmed.asValue = c.asValue := by
  cases c with
  | simple message cause stack =>
    simp only [asStackTrimmer, Option.some.injEq] at htr
    simp only [Err.asStacker, Option.some.injEq] at hst
    subst htr hst
    exact ⟨_, simple_TrimStack_of_trim message cause stack f t ok h, rfl, rfl, rfl, rfl⟩
  | value message value cause stack =>
    simp only [asStackTrimmer, Option.some.injEq] at htr
    simp only [Err.asStacker, Option.some.injEq] at hst
    subst htr hst
    exact ⟨_, ValueError_TrimStack_of_trim message value cause stack f t ok h,
      rfl, rfl, rfl, rfl⟩
  | foreign text => simp [asStackTrimmer] at htr

/-- `Stack.Trim` faults exactly under a parent of one frame and a non-empty
`s`. -/
theorem Stack.Trim_eq_none_iff (s parent : Stack) :
    Stack.Trim s parent = none ↔ parent.length = 1 ∧ s ≠ [] := by
  rcases Stack.Trim_cases s parent with ⟨h0, h1⟩ | ⟨h0, hs, h1⟩ | ⟨m, hm1, hm2, hm3, h1⟩
  · rw [h1]
    constructor
    · intro h; cases h
    · rintro ⟨hp, hs⟩
      have hpos := List.length_pos.mpr hs
      omega
  · rw [h1]
    exact ⟨fun _ => ⟨h0, List.length_pos.mp (by omega)⟩, fun _ => rfl⟩
  · rw [h1]
    constructor
    · intro h; cases h
    · rintro ⟨hp, _⟩
      omega

/-- The method `(*simple).TrimStack` in one expression: it returns when
`Stack.Trim` does, the receiver with the first component as its stack. -/
theorem simple_TrimStack_eq (message : String) (cause : Option Err) (stack parent : Stack) :
    simple.TrimStack message cause stack parent =
      (Stack.Trim stack parent).map (fun r => Err.simple message cause r.1) := by
  cases h : Stack.Trim stack parent with
  | none => simp only [simple.TrimStack, h, Option.map_none']
  | some r =>
    obtain ⟨t, ok⟩ := r
    rw [simple_TrimStack_of_trim message cause stack parent t ok h]
    rfl

/-- The method `ValueError.TrimStack` in one expression. -/
theorem ValueError_TrimStack_eq (message : String) (value : Val) (cause : Option Err)
    (stack parent : Stack) :
    ValueError.TrimStack message value cause stack parent =
      (Stack.Trim stack parent).map (fun r => Err.value message value cause r.1) := by
  cases h : Stack.Trim stack parent with
  | none => simp only [ValueError.TrimStack, h, Option.map_none']
  | some r =>
    obtain ⟨t, ok⟩ := r
    rw [ValueError_TrimStack_of_trim message value cause stack parent t ok h]
    rfl

/-- The bound method obtained by `cause.(StackTrimmer)` in one expression: it
returns when `Stack.Trim` on the stack of the cause does, the cause with the
first component as its stack. -/
theorem asStackTrimmer_eq (c : Err) (trimStack : Stack → Option Err) (st : Stack)
    (htr : asStackTrimmer (some c) = some trimStack) (hst : c.asStacker = some st)
    (f : Stack) :
    trimStack f = (Stack.Trim st f).map (fun r => c.withStack r.1) := by
  cases c with
  | simple message cause stack =>
    simp only [asStackTrimmer, Option.some.injEq] at htr
    simp only [Err.asStacker, Option.some.injEq] at hst
    subst htr hst
    exact simple_TrimStack_eq message cause stack f
  | value message value cause stack =>
    simp only [asStackTrimmer, Option.some.injEq] at htr
    simp only [Err.asStacker, Option.some.injEq] at hst
    subst htr hst
    exact ValueError_TrimStack_eq message value cause stack f
  | foreign text => simp [asStackTrimmer] at htr

/-! ## Claims about `Stack.Trim` -/

/-- C1: when `s` and `parent` (with `len s ≥ len parent`) end in the same
`k ≥ 2` frames `c` and each has one more frame just below them, `x` in `s` and
`y` in `parent` with `x ≠ y`, `Stack.Trim` returns `s` without its last `k`
frames and reports `trimmed = true`. -/
theorem trim_removes_common_suffix (a b c : Stack) (x y : Frame)
    (hk : 2 ≤ c.length) (hxy : x ≠ y)
    (hlen : (b ++ y :: c).length ≤ (a ++ x :: c).length) :
    Stack.Trim (a ++ x :: c) (b ++ y :: c) =
        some ((a ++ x :: c).take ((a ++ x :: c).length - c.length), true) ∧
      (a ++ x :: c).take ((a ++ x :: c).length - c.length) = a ++ [x] := by
  have htake : (a ++ x :: c).take ((a ++ x :: c).length - c.length) = a ++ [x] := by
    have h1 : (a ++ x :: c).length - c.length = (a ++ [x]).length := by
      simp only [List.length_append, List.length_cons, List.length_nil]; omega
    have h2 : a ++ x :: c = (a ++ [x]) ++ c := by simp
    rw [h1, h2, List.take_left]
  refine ⟨?_, htake⟩
  rcases List.eq_nil_or_concat c with hc | ⟨c1, z, hc⟩
  · subst hc; simp at hk
  · rw [List.concat_eq_append] at hc
    subst hc
    have hp2 : 2 ≤ (b ++ y :: (c1 ++ [z])).length := by
      simp only [List.length_append, List.length_cons, List.length_nil]; omega
    rw [Stack.Trim_loop_branch _ _ hp2 hlen]
    have hs : (a ++ x :: (c1 ++ [z])).reverse.drop 1 = c1.reverse ++ x :: a.reverse := by
      simp
    have hp : (b ++ y :: (c1 ++ [z])).reverse.drop 1 = c1.reverse ++ y :: b.reverse := by
      simp
    rw [hs, hp, commonPrefixLen_append_ne _ _ _ _ _ hxy]
    congr 3
    simp only [List.length_append, List.length_cons, List.length_nil, List.length_reverse]
    omega

/-- C1, at a concrete input: five frames against three, sharing the two
root-most frames. -/
theorem trim_removes_common_suffix_witness :
    Stack.Trim ([1, 2] ++ 3 :: [8, 9]) ([] ++ 7 :: [8, 9]) =
        some (([1, 2] ++ 3 :: [8, 9]).take (([1, 2] ++ 3 :: [8, 9]).length - [8, 9].length),
          true) ∧
      ([1, 2] ++ 3 :: [8, 9]).take (([1, 2] ++ 3 :: [8, 9]).length - [8, 9].length)
        = [1, 2] ++ [3] :=
  trim_removes_common_suffix [1, 2] [] [8, 9] 3 7 (by decide) (by decide) (by decide)

/-- C2: whenever `Stack.Trim` returns, its result is `s` itself with
`trimmed = false`, or `s` with a non-empty suffix removed and `trimmed = true`;
the result is never longer than `s`, and `trimmed` is true exactly when a frame
was removed. -/
theorem trim_result_is_prefix (s parent r : Stack) (t : Bool)
    (h : Stack.Trim s parent = some (r, t)) :
    ((r = s ∧ t = false) ∨ (∃ suffix, suffix ≠ [] ∧ s = r ++ suffix ∧ t = true)) ∧
      r.length ≤ s.length ∧ (t = true ↔ r.length < s.length) := by
  rcases Stack.Trim_cases s parent with ⟨_, h1⟩ | ⟨_, _, h1⟩ | ⟨m, hm1, hm2, hm3, h1⟩
  · rw [h1] at h
    simp only [Option.some.injEq, Prod.mk.injEq] at h
    obtain ⟨rfl, rfl⟩ := h
    simp
  · rw [h1] at h; simp at h
  · rw [h1] at h
    simp only [Option.some.injEq, Prod.mk.injEq] at h
    obtain ⟨rfl, rfl⟩ := h
    have hl : (s.take (s.length - m)).length = s.length - m := by
      rw [List.length_take]; omega
    refine ⟨Or.inr ⟨s.drop (s.length - m), ?_, (List.take_append_drop _ _).symm, rfl⟩,
      by omega, ?_⟩
    · intro hnil
      have := congrArg List.length hnil
      simp only [List.length_drop, List.length_nil] at this
      omega
    · simp only [true_iff]; omega

/-- C2, at a concrete input on which `Stack.Trim` returns. -/
theorem trim_result_is_prefix_witness :
    Stack.Trim [1, 2, 3, 8, 9] [7, 8, 9] = some ([1, 2, 3], true) ∧
      ((([1, 2, 3] : Stack) = [1, 2, 3, 8, 9] ∧ true = false) ∨
          (∃ suffix, suffix ≠ [] ∧ ([1, 2, 3, 8, 9] : Stack) = [1, 2, 3] ++ suffix ∧
            true = true)) ∧
        ([1, 2, 3] : Stack).length ≤ ([1, 2, 3, 8, 9] : Stack).length ∧
        (true = true ↔ ([1, 2, 3] : Stack).length < ([1, 2, 3, 8, 9] : Stack).length) :=
  have h : Stack.Trim [1, 2, 3, 8, 9] [7, 8, 9] = some ([1, 2, 3], true) := by
    simp [Stack.Trim, Stack.trimLoop, Stack.index, Stack.slice, Frame.Equals]
  ⟨h, trim_result_is_prefix [1, 2, 3, 8, 9] [7, 8, 9] [1, 2, 3] true h⟩

/-- C3: if `s` is empty, or `parent` is empty, or `s` is shorter than `parent`,
`Stack.Trim` returns `(s, false)`. -/
theorem trim_no_trim_cases (s parent : Stack)
    (h : s = [] ∨ parent = [] ∨ s.length < parent.length) :
    Stack.Trim s parent = some (s, false) := by
  apply Stack.Trim_early
  rcases h with h | h | h
  · subst h; exact Or.inr (Or.inl rfl)
  · subst h; exact Or.inr (Or.inr rfl)
  · exact Or.inl h

/-- C3, at a concrete input: a stack shorter than its parent. -/
theorem trim_no_trim_cases_witness :
    (([8, 9] : Stack) = [] ∨ ([7, 8, 9] : Stack) = [] ∨
        ([8, 9] : Stack).length < ([7, 8, 9] : Stack).length) ∧
      Stack.Trim [8, 9] [7, 8, 9] = some ([8, 9], false) :=
  ⟨Or.inr (Or.inr (by decide)),
    trim_no_trim_cases [8, 9] [7, 8, 9] (Or.inr (Or.inr (by decide)))⟩

/-- C4: `Stack.Trim` is not total.  Under a parent of exactly one frame and a
non-empty `s` the first loop test evaluates `parent[otherCount-idx-1]` with
`idx = 1`, that is `parent[-1]`, and faults; `newSimple` wrapping a cause whose
stack is non-empty, called where the captured stack has one frame, faults with
it. -/
theorem trim_faults_on_single_frame_parent :
    Stack.Trim [1] [2] = none ∧ Stack.Trim [1, 2, 3] [3] = none ∧
      newSimple (fun _ => [2]) "outer" (some (Err.simple "inner" none [1])) = none := by
  refine ⟨Stack.Trim_single_parent _ _ rfl (by decide),
    Stack.Trim_single_parent _ _ rfl (by decide), ?_⟩
  simp only [newSimple, asStackTrimmer, simple.TrimStack,
    Stack.Trim_single_parent [1] [2] rfl (by decide), Option.map_none']

/-- C5 fails as stated: trimming `[1, 2, 9, 9]` against `[7, 9]` gives
`[1, 2, 9]`, and trimming that again against `[7, 9]` removes one more frame
and reports `true`. -/
theorem trim_not_idempotent :
    Stack.Trim [1, 2, 9, 9] [7, 9] = some ([1, 2, 9], true) ∧
      Stack.Trim [1, 2, 9] [7, 9] = some ([1, 2], true) ∧
      Stack.Trim [1, 2, 9] [7, 9] ≠ some ([1, 2, 9], false) := by
  have h1 : Stack.Trim [1, 2, 9, 9] [7, 9] = some ([1, 2, 9], true) := by
    simp [Stack.Trim, Stack.trimLoop, Stack.index, Stack.slice, Frame.Equals]
  have h2 : Stack.Trim [1, 2, 9] [7, 9] = some ([1, 2], true) := by
    simp [Stack.Trim, Stack.trimLoop, Stack.index, Stack.slice, Frame.Equals]
  refine ⟨h1, h2, ?_⟩
  rw [h2]
  simp

/-- C5, amended: the result `s1` of `Stack.Trim(s, p)` is never longer than
`s`, and trimming it again against `p` changes nothing and reports `trimmed =
false` exactly when `s1` is shorter than `p` or one of the two is empty.  That
is so whenever `s` is not longer than `p`; and when `s1` is still at least as
long as a non-empty `p`, the second call removes at least one more frame and
reports `true`. -/
theorem trim_again_is_noop_iff (s p s1 : Stack) (t : Bool)
    (h : Stack.Trim s p = some (s1, t)) :
    s1.length ≤ s.length ∧
      (Stack.Trim s1 p = some (s1, false) ↔ s1.length < p.length ∨ s1 = [] ∨ p = []) ∧
      (s.length ≤ p.length → Stack.Trim s1 p = some (s1, false)) ∧
      (p.length ≤ s1.length → s1 ≠ [] → p ≠ [] →
        ∃ s2, Stack.Trim s1 p = some (s2, true) ∧ s2.length < s1.length) := by
  have hiff : Stack.Trim s1 p = some (s1, false) ↔ s1.length < p.length ∨ s1 = [] ∨ p = [] := by
    constructor
    · intro h2
      rcases Stack.Trim_cases s1 p with ⟨h0, _⟩ | ⟨_, _, h1⟩ | ⟨m, _, _, _, h1⟩
      · rcases h0 with h0 | h0 | h0
        · exact Or.inl h0
        · exact Or.inr (Or.inl (List.length_eq_zero.mp h0))
        · exact Or.inr (Or.inr (List.length_eq_zero.mp h0))
      · rw [h1] at h2; simp at h2
      · rw [h1] at h2; simp at h2
    · intro h2
      apply Stack.Trim_early
      rcases h2 with h2 | h2 | h2
      · exact Or.inl h2
      · subst h2; exact Or.inr (Or.inl rfl)
      · subst h2; exact Or.inr (Or.inr rfl)
  have hlen : s1.length ≤ s.length ∧ (s.length ≤ p.length → s1.length < p.length ∨ s1 = s) ∧
      (p.length ≤ s1.length → s1 ≠ [] → 2 ≤ p.length ∨ p = []) := by
    rcases Stack.Trim_cases s p with ⟨h0, h1⟩ | ⟨_, _, h1⟩ | ⟨m, hm1, hm2, hm3, h1⟩
    · rw [h1] at h
      simp only [Option.some.injEq, Prod.mk.injEq] at h
      obtain ⟨rfl, rfl⟩ := h
      refine ⟨le_refl _, fun _ => Or.inr rfl, ?_⟩
      intro hle hne
      have hpos := List.length_pos.mpr hne
      rcases h0 with h0 | h0 | h0
      · omega
      · omega
      · exact Or.inr (List.length_eq_zero.mp h0)
    · rw [h1] at h; simp at h
    · rw [h1] at h
      simp only [Option.some.injEq, Prod.mk.injEq] at h
      obtain ⟨rfl, rfl⟩ := h
      have hl : (s.take (s.length - m)).length = s.length - m := by
        rw [List.length_take]; omega
      exact ⟨by omega, fun _ => Or.inl (by omega), fun _ _ => Or.inl (by omega)⟩
  refine ⟨hlen.1, hiff, ?_, ?_⟩
  · intro hle
    rcases hlen.2.1 hle with h1 | h1
    · exact hiff.mpr (Or.inl h1)
    · subst h1
      rcases Stack.Trim_cases s1 p with ⟨_, h1⟩ | ⟨_, _, h1⟩ | ⟨m, hm1, hm2, hm3, h1⟩
      · exact h1
      · rw [h1] at h; simp at h
      · exfalso
        rw [h1] at h
        simp only [Option.some.injEq, Prod.mk.injEq] at h
        have hl := congrArg List.length h.1
        rw [List.length_take] at hl
        omega
  · intro hle hne hpne
    rcases hlen.2.2 hle hne with h2 | h2
    · rcases Stack.Trim_cases s1 p with ⟨h0, _⟩ | ⟨h0, _, _⟩ | ⟨m, hm1, hm2, hm3, h1⟩
      · have hpos := List.length_pos.mpr hne
        omega
      · omega
      · refine ⟨_, h1, ?_⟩
        rw [List.length_take]
        omega
    · exact absurd h2 hpne

/-- C5, amended, at a concrete input: a stack longer than its parent whose
trimmed result is shorter than the parent, so that the second call changes
nothing. -/
theorem trim_again_is_noop_iff_witness :
    Stack.Trim [1, 2, 3, 8, 9] [6, 7, 8, 9] = some ([1, 2, 3], true) ∧
      Stack.Trim [1, 2, 3] [6, 7, 8, 9] = some ([1, 2, 3], false) :=
  have h : Stack.Trim [1, 2, 3, 8, 9] [6, 7, 8, 9] = some ([1, 2, 3], true) := by
    simp [Stack.Trim, Stack.trimLoop, Stack.index, Stack.slice, Frame.Equals]
  ⟨h, (trim_again_is_noop_iff [1, 2, 3, 8, 9] [6, 7, 8, 9] [1, 2, 3] true h).2.1.mpr
    (Or.inl (by decide))⟩

/-- C6: on two non-empty stacks whose root-most frames differ (`2` against
`4`) `Stack.Trim` does not return `s` unchanged: the loop starts at `idx = 1`,
so the first frames compared are those at index `len-2`, the root-most frame of
`s` is dropped without being compared, and `trimmed` is `true`. -/
theorem trim_drops_unmatched_root_frame :
    Stack.Trim [1, 2] [3, 4] = some ([1], true) := by
  simp [Stack.Trim, Stack.trimLoop, Stack.index, Stack.slice, Frame.Equals]

/-- C7 fails as stated: against the three-frame parent `[7, 8, 9]` two frames
are removed from `[1, 8, 9]`, one more than `len parent - 2`. -/
theorem trim_bound_exceeded :
    Stack.Trim [1, 8, 9] [7, 8, 9] = some ([1], true) ∧
      ¬ (([1, 8, 9] : Stack).length - ([1] : Stack).length ≤
        ([7, 8, 9] : Stack).length - 2) := by
  constructor
  · simp [Stack.Trim, Stack.trimLoop, Stack.index, Stack.slice, Frame.Equals]
  · decide

/-- C7, amended: for `len s ≥ len parent ≥ 2`, `Stack.Trim` returns and removes
at most `len parent - 1` frames from `s`: matching stops before fewer than one
frame of `parent` would remain unmatched. -/
theorem trim_removes_less_than_parent (s parent : Stack) (h2 : 2 ≤ parent.length)
    (hlen : parent.length ≤ s.length) :
    ∃ r t, Stack.Trim s parent = some (r, t) ∧ r.length ≤ s.length ∧
      s.length - r.length ≤ parent.length - 1 := by
  rcases Stack.Trim_cases s parent with ⟨h0, _⟩ | ⟨h0, _, _⟩ | ⟨m, hm1, hm2, hm3, h1⟩
  · omega
  · omega
  · have hl : (s.take (s.length - m)).length = s.length - m := by
      rw [List.length_take]; omega
    exact ⟨_, _, h1, by omega, by omega⟩

/-- C7, amended, at a concrete input where the bound `len parent - 1` is met. -/
theorem trim_removes_less_than_parent_witness :
    ∃ r t, Stack.Trim [1, 8, 9] [7, 8, 9] = some (r, t) ∧
      r.length ≤ ([1, 8, 9] : Stack).length ∧
      ([1, 8, 9] : Stack).length - r.length ≤ ([7, 8, 9] : Stack).length - 1 :=
  trim_removes_less_than_parent [1, 8, 9] [7, 8, 9] (by decide) (by decide)

/-! ## Claims about the error variants -/

/-- C8: `newSimple`, `NewValueError` and the error branch of `NewPanicError`
do not always return.  Wrapping a cause with stack `[1]` where the freshly
captured stack is the single frame `[2]`, each of them faults inside
`cause.TrimStack`.  On every other input, with `f` the freshly captured
stack: the new error has the stack `f` and the given message (`"panic"` for
`NewPanicError`); a cause that is nil or has no
`TrimStack` method is stored as given; a cause `c` with a `TrimStack` method
is replaced by `c.TrimStack(f)`, which is `c` with the first component of
`Trim(c.stack, f)` as its stack; and the constructor returns exactly when that
`Trim` does, which fails only for an `f` of one frame under a non-empty
`c.stack`.  `NewPanicError` returns nothing when its stack capture does not. -/
theorem constructors_store_trimmed_cause (NewStack : Int → Stack)
    (capture : Int → Option Stack) (Sprintf : String → List Val → String)
    (message : String) (value : Val) (skipStack : Int) :
    (newSimple (fun _ => [2]) "outer" (some (Err.simple "inner" none [1])) = none ∧
      NewValueError (fun _ => [2]) Sprintf value (some (Err.simple "inner" none [1]))
        "outer" [] = none ∧
      NewPanicError (fun _ => some [2]) (Any.err (Err.simple "inner" none [1])) skipStack =
        none) ∧
    (∀ cause, asStackTrimmer cause = none →
      newSimple NewStack message cause =
          some (Err.simple message cause (NewStack 2)) ∧
        NewValueError NewStack Sprintf value cause message [] =
          some (Err.value message value cause (NewStack 1))) ∧
    (∀ e, asStackTrimmer (some e) = none →
      NewPanicError capture (Any.err e) skipStack =
        (capture (wrapInt (wrapInt (1 + skipStack) + 3))).map
          (fun f => Err.simple "panic" (some e) f)) ∧
    (∀ c trimStack st, asStackTrimmer (some c) = some trimStack →
      c.asStacker = some st →
      (∀ f, trimStack f = (Stack.Trim st f).map (fun r => c.withStack r.1)) ∧
      (∀ f, Stack.Trim st f = none ↔ f.length = 1 ∧ st ≠ []) ∧
      newSimple NewStack message (some c) =
        (Stack.Trim st (NewStack 2)).map
          (fun r => Err.simple message (some (c.withStack r.1)) (NewStack 2)) ∧
      NewValueError NewStack Sprintf value (some c) message [] =
        (Stack.Trim st (NewStack 1)).map
          (fun r => Err.value message value (some (c.withStack r.1)) (NewStack 1)) ∧
      NewPanicError capture (Any.err c) skipStack =
        (capture (wrapInt (wrapInt (1 + skipStack) + 3))).bind
          (fun f => (Stack.Trim st f).map
            (fun r => Err.simple "panic" (some (c.withStack r.1)) f))) := by
  have hfault : Stack.Trim [1] [2] = none := Stack.Trim_single_parent _ _ rfl (by decide)
  refine ⟨⟨?_, ?_, ?_⟩, ?_, ?_, ?_⟩
  · simp only [newSimple, asStackTrimmer, simple.TrimStack, hfault, Option.map_none']
  · simp only [NewValueError, asStackTrimmer, simple.TrimStack, hfault, Option.map_none']
  · simp only [NewPanicError, asStackTrimmer, simple.TrimStack, hfault, Option.map_none']
  · intro cause hnone
    constructor
    · simp only [newSimple, hnone]
    · simp only [NewValueError, hnone, List.length_nil, gt_iff_lt, lt_self_iff_false,
        if_false]
  · intro e hnone
    simp only [NewPanicError, hnone]
    cases capture (wrapInt (wrapInt (1 + skipStack) + 3)) <;> rfl
  · intro c trimStack st htr hst
    have heq := asStackTrimmer_eq c trimStack st htr hst
    refine ⟨heq, fun f => Stack.Trim_eq_none_iff st f, ?_, ?_, ?_⟩
    · simp only [newSimple, htr, heq, Option.map_map]
      rfl
    · simp only [NewValueError, htr, heq, Option.map_map, List.length_nil, gt_iff_lt,
        lt_self_iff_false, if_false]
      rfl
    · simp only [NewPanicError, htr, heq, Option.map_map]
      cases capture (wrapInt (wrapInt (1 + skipStack) + 3)) <;> rfl

/-- C8, at a concrete input on which the constructor returns: wrapping a
`simple` cause captured five frames deep under a fresh stack of three frames
stores the cause with the two shared root-most frames removed. -/
theorem constructors_store_trimmed_cause_witness :
    Stack.Trim [1, 2, 3, 8, 9] [7, 8, 9] = some ([1, 2, 3], true) ∧
      newSimple (fun _ => [7, 8, 9]) "outer" (some (Err.simple "inner" none [1, 2, 3, 8, 9])) =
        some (Err.simple "outer" (some (Err.simple "inner" none [1, 2, 3])) [7, 8, 9]) :=
  have h : Stack.Trim [1, 2, 3, 8, 9] [7, 8, 9] = some ([1, 2, 3], true) := by
    simp [Stack.Trim, Stack.trimLoop, Stack.index, Stack.slice, Frame.Equals]
  ⟨h, by
    rw [((constructors_store_trimmed_cause (fun _ => [7, 8, 9]) (fun _ => none)
      (fun m _ => m) "outer" Val.nil 0).2.2.2 (Err.simple "inner" none [1, 2, 3, 8, 9])
      (simple.TrimStack "inner" none [1, 2, 3, 8, 9]) [1, 2, 3, 8, 9] rfl rfl).2.2.1, h]
    rfl⟩

/-- C9: `TrimStack` does not return for every parent stack.  On a receiver
with stack `[1]` and the one-frame parent `[2]`, `(*simple).TrimStack` and
`ValueError.TrimStack` fault inside `Stack.Trim`, which happens exactly under
a parent of one frame and a non-empty receiver stack.  Whenever `Trim(e.stack,
parent)` returns `(t, ok)`, `e.TrimStack(parent)` returns an error with the
message, the cause and (for `ValueError`) the value of `e` and with stack `t`,
and when `ok` is false that is `e` itself.  At the level of references,
`(*simple).TrimStack` leaves every object of the store that existed before the
call, the receiver included, as it was: a trimmed result is a newly allocated
object, an untrimmed one is the receiver's own address and the store is
untouched. -/
theorem trimStack_keeps_fields (message : String) (value : Val) (cause : Option Err)
    (stack parent : Stack) :
    (simple.TrimStack "inner" none [1] [2] = none ∧
      ValueError.TrimStack "inner" value none [1] [2] = none ∧
      simple.TrimStackRef [Err.simple "inner" none [1]] 0 [2] = none) ∧
    (Stack.Trim stack parent = none ↔ parent.length = 1 ∧ stack ≠ []) ∧
    simple.TrimStack message cause stack parent =
      (Stack.Trim stack parent).map (fun r => Err.simple message cause r.1) ∧
    ValueError.TrimStack message value cause stack parent =
      (Stack.Trim stack parent).map (fun r => Err.value message value cause r.1) ∧
    (∀ t, Stack.Trim stack parent = some (t, false) → t = stack) ∧
    (∀ (h : Heap) (s : Nat), h[s]? = some (Err.simple message cause stack) →
      (Stack.Trim stack parent = none → simple.TrimStackRef h s parent = none) ∧
      (∀ t ok, Stack.Trim stack parent = some (t, ok) →
        ∃ h1 r, simple.TrimStackRef h s parent = some (h1, r) ∧
          h1[r]? = some (Err.simple message cause t) ∧
          (∀ (a : Nat) (e : Err), h[a]? = some e → h1[a]? = some e) ∧
          (ok = false → h1 = h ∧ r = s))) := by
  have hfault : Stack.Trim [1] [2] = none := Stack.Trim_single_parent _ _ rfl (by decide)
  refine ⟨⟨?_, ?_, ?_⟩, Stack.Trim_eq_none_iff stack parent,
    simple_TrimStack_eq message cause stack parent,
    ValueError_TrimStack_eq message value cause stack parent,
    fun t ht => Stack.Trim_false_unchanged stack parent t ht, ?_⟩
  · simp only [simple.TrimStack, hfault]
  · simp only [ValueError.TrimStack, hfault]
  · simp [simple.TrimStackRef, hfault]
  · intro h s hget
    constructor
    · intro hnone
      simp only [simple.TrimStackRef, hget, hnone]
    · intro t ok htrim
      cases ok with
      | true =>
        refine ⟨h ++ [Err.simple message cause t], h.length, ?_, ?_, ?_, ?_⟩
        · simp only [simple.TrimStackRef, hget, htrim, if_true]
        · rw [List.getElem?_append_right (le_refl _)]
          simp
        · intro a e ha
          have hlt : a < h.length := by
            by_contra hge
            rw [List.getElem?_eq_none (by omega)] at ha
            simp at ha
          rw [List.getElem?_append_left hlt]
          exact ha
        · intro hf; simp at hf
      | false =>
        have ht := Stack.Trim_false_unchanged stack parent t htrim
        subst ht
        refine ⟨h, s, ?_, hget, fun _ _ ha => ha, fun _ => ⟨rfl, rfl⟩⟩
        simp [simple.TrimStackRef, hget, htrim]

/-- C9, at a concrete input on which `TrimStack` returns: a receiver at
address 1 of a two-object store, trimmed against a three-frame parent. -/
theorem trimStack_keeps_fields_witness :
    Stack.Trim [1, 2, 3, 8, 9] [7, 8, 9] = some ([1, 2, 3], true) ∧
      simple.TrimStack "inner" (some (Err.foreign "io")) [1, 2, 3, 8, 9] [7, 8, 9] =
        some (Err.simple "inner" (some (Err.foreign "io")) [1, 2, 3]) ∧
      ValueError.TrimStack "inner" (Val.int 5) (some (Err.foreign "io")) [1, 2, 3, 8, 9]
          [7, 8, 9] =
        some (Err.value "inner" (Val.int 5) (some (Err.foreign "io")) [1, 2, 3]) ∧
      simple.TrimStackRef
          [Err.foreign "io", Err.simple "inner" (some (Err.foreign "io")) [1, 2, 3, 8, 9]] 1
          [7, 8, 9] =
        some ([Err.foreign "io", Err.simple "inner" (some (Err.foreign "io")) [1, 2, 3, 8, 9],
          Err.simple "inner" (some (Err.foreign "io")) [1, 2, 3]], 2) :=
  have h : Stack.Trim [1, 2, 3, 8, 9] [7, 8, 9] = some ([1, 2, 3], true) := by
    simp [Stack.Trim, Stack.trimLoop, Stack.index, Stack.slice, Frame.Equals]
  have hall := trimStack_keeps_fields "inner" (Val.int 5) (some (Err.foreign "io"))
    [1, 2, 3, 8, 9] [7, 8, 9]
  ⟨h, by rw [hall.2.2.1, h]; rfl, by rw [hall.2.2.2.1, h]; rfl,
    by simp [simple.TrimStackRef, h]⟩

/-- C10: for every error `e` with a `Message()` accessor (a `simple` or a
`ValueError`) with message `message`, `e.Error()` is `message` when `e` has no
cause and `message ++ ": " ++ cause.Error()` when it has the cause `cause`. -/
theorem error_text_of_message_and_cause (e : Err) (message : String)
    (hm : e.asMessager = some message) :
    (e.asUnwrapper = some none → e.Error = message) ∧
      (∀ cause, e.asUnwrapper = some (some cause) →
        e.Error = message ++ ": " ++ cause.Error) := by
  cases e with
  | simple m c st =>
    simp only [Err.asMessager, Option.some.injEq] at hm
    subst hm
    constructor
    · intro hc
      simp only [Err.asUnwrapper, Option.some.injEq] at hc
      subst hc
      simp only [Err.Error]
    · intro cause hc
      simp only [Err.asUnwrapper, Option.some.injEq] at hc
      subst hc
      simp only [Err.Error]
  | value m v c st =>
    simp only [Err.asMessager, Option.some.injEq] at hm
    subst hm
    constructor
    · intro hc
      simp only [Err.asUnwrapper, Option.some.injEq] at hc
      subst hc
      simp only [Err.Error, ErrorString]
    · intro cause hc
      simp only [Err.asUnwrapper, Option.some.injEq] at hc
      subst hc
      simp only [Err.Error, ErrorString]
  | foreign text => simp [Err.asMessager] at hm

/-- C10, at the concrete input of the end-to-end scenario: an error with
message "inner failure" built by `newSimple` and wrapped by `newSimple` under
the message "outer failure" has the text "outer failure: inner failure". -/
theorem error_text_of_message_and_cause_witness :
    newSimple (fun _ => [4, 5, 7, 8, 9]) "inner failure" none =
        some (Err.simple "inner failure" none [4, 5, 7, 8, 9]) ∧
      newSimple (fun _ => [6, 7, 8, 9]) "outer failure"
          (some (Err.simple "inner failure" none [4, 5, 7, 8, 9])) =
        some (Err.simple "outer failure" (some (Err.simple "inner failure" none [4, 5]))
          [6, 7, 8, 9]) ∧
      (Err.simple "outer failure" (some (Err.simple "inner failure" none [4, 5]))
          [6, 7, 8, 9]).Error = "outer failure: inner failure" ∧
      (Err.simple "inner failure" none [4, 5]).Error = "inner failure" :=
  ⟨rfl,
    by simp [newSimple, asStackTrimmer, simple.TrimStack, Stack.Trim, Stack.trimLoop,
      Stack.index, Stack.slice, Frame.Equals],
    (error_text_of_message_and_cause
      (Err.simple "outer failure" (some (Err.simple "inner failure" none [4, 5])) [6, 7, 8, 9])
      "outer failure" rfl).2 (Err.simple "inner failure" none [4, 5]) rfl,
    (error_text_of_message_and_cause (Err.simple "inner failure" none [4, 5])
      "inner failure" rfl).1 rfl⟩

/-! ## Properties of the message protocol -/

theorem splitMessageSeparator_ne_nil : ∀ l : List Char, splitMessageSeparator l ≠ []
  | [] => by simp [splitMessageSeparator]
  | [_] => by simp [splitMessageSeparator]
  | c :: d :: rest => by
    have ih := splitMessageSeparator_ne_nil (d :: rest)
    rw [splitMessageSeparator]
    split
    · simp
    · split <;> simp

/-- A text without separator is its own single segment. -/
theorem splitMessageSeparator_of_no_separator :
    ∀ l : List Char, hasSeparator l = false → splitMessageSeparator l = [l]
  | [], _ => by simp [splitMessageSeparator]
  | [_], _ => by simp [splitMessageSeparator]
  | c :: d :: rest, h => by
    simp only [hasSeparator, Bool.or_eq_false_iff, decide_eq_false_iff_not] at h
    rw [splitMessageSeparator, if_neg h.1,
      splitMessageSeparator_of_no_separator (d :: rest) h.2]

/-- A text without separator followed by the separator and more text is the
first segment of the whole. -/
theorem splitMessageSeparator_append :
    ∀ (l rest : List Char), hasSeparator l = false →
      splitMessageSeparator (l ++ ':' :: ' ' :: rest) = l :: splitMessageSeparator rest
  | [], rest, _ => by simp [splitMessageSeparator]
  | [c], rest, _ => by
    have h1 : ¬ (c = ':' ∧ ':' = ' ') := by intro h; exact absurd h.2 (by decide)
    have h2 : splitMessageSeparator (':' :: ' ' :: rest) = [] :: splitMessageSeparator rest := by
      rw [splitMessageSeparator, if_pos ⟨rfl, rfl⟩]
    simp only [List.singleton_append]
    rw [splitMessageSeparator, if_neg h1, h2]
  | c :: d :: l, rest, h => by
    simp only [hasSeparator, Bool.or_eq_false_iff, decide_eq_false_iff_not] at h
    have ih := splitMessageSeparator_append (d :: l) rest h.2
    simp only [List.cons_append] at ih ⊢
    rw [splitMessageSeparator, if_neg h.1, ih]

/-- The first segment of a split is empty or starts with the first character
of the text. -/
theorem splitMessageSeparator_head_shape (d : Char) (rest seg : List Char)
    (segs : List (List Char)) (h : splitMessageSeparator (d :: rest) = seg :: segs) :
    seg = [] ∨ ∃ t, seg = d :: t := by
  cases rest with
  | nil =>
    simp only [splitMessageSeparator, List.cons.injEq] at h
    exact Or.inr ⟨[], h.1.symm⟩
  | cons e rest =>
    rw [splitMessageSeparator] at h
    by_cases hsep : d = ':' ∧ e = ' '
    · rw [if_pos hsep] at h
      simp only [List.cons.injEq] at h
      exact Or.inl h.1.symm
    · rw [if_neg hsep] at h
      cases hrec : splitMessageSeparator (e :: rest) with
      | nil => exact absurd hrec (splitMessageSeparator_ne_nil _)
      | cons seg2 segs2 =>
        rw [hrec] at h
        simp only [List.cons.injEq] at h
        exact Or.inr ⟨seg2, h.1.symm⟩

/-- The first segment of a split never contains the separator. -/
theorem splitMessageSeparator_head_no_separator :
    ∀ (l seg : List Char) (segs : List (List Char)),
      splitMessageSeparator l = seg :: segs → hasSeparator seg = false
  | [], seg, segs, h => by
    simp only [splitMessageSeparator, List.cons.injEq] at h
    rw [← h.1]; rfl
  | [c], seg, segs, h => by
    simp only [splitMessageSeparator, List.cons.injEq] at h
    rw [← h.1]; rfl
  | c :: d :: rest, seg, segs, h => by
    rw [splitMessageSeparator] at h
    by_cases hsep : c = ':' ∧ d = ' '
    · rw [if_pos hsep] at h
      simp only [List.cons.injEq] at h
      rw [← h.1]; rfl
    · rw [if_neg hsep] at h
      cases hrec : splitMessageSeparator (d :: rest) with
      | nil => exact absurd hrec (splitMessageSeparator_ne_nil _)
      | cons seg2 segs2 =>
        rw [hrec] at h
        simp only [List.cons.injEq] at h
        have ih := splitMessageSeparator_head_no_separator (d :: rest) seg2 segs2 hrec
        rw [← h.1]
        rcases splitMessageSeparator_head_shape d rest seg2 segs2 hrec with h0 | ⟨t, ht⟩
        · rw [h0]; rfl
        · rw [ht] at ih ⊢
          simp only [hasSeparator, Bool.or_eq_false_iff, decide_eq_false_iff_not]
          exact ⟨hsep, ih⟩

/-- `Message` of a `simple` or `ValueError` is its `message` field. -/
theorem Message_of_asMessager (e : Err) (m : String) (hm : e.asMessager = some m) :
    Message e = some m := by
  simp only [Message, hm]

/-- The text of a `simple` or `ValueError` in terms of its two accessors. -/
theorem Err.Error_of_accessors (e : Err) (m : String) (hm : e.asMessager = some m) :
    (e.asUnwrapper = some none → e.Error = m) ∧
      (∀ c, e.asUnwrapper = some (some c) → e.Error = m ++ ": " ++ c.Error) := by
  cases e with
  | simple m1 c st =>
    simp only [Err.asMessager, Option.some.injEq] at hm
    subst hm
    constructor
    · intro hc
      simp only [Err.asUnwrapper, Option.some.injEq] at hc
      subst hc
      simp only [Err.Error]
    · intro cause hc
      simp only [Err.asUnwrapper, Option.some.injEq] at hc
      subst hc
      simp only [Err.Error]
  | value m1 v c st =>
    simp only [Err.asMessager, Option.some.injEq] at hm
    subst hm
    constructor
    · intro hc
      simp only [Err.asUnwrapper, Option.some.injEq] at hc
      subst hc
      simp only [Err.Error, ErrorString]
    · intro cause hc
      simp only [Err.asUnwrapper, Option.some.injEq] at hc
      subst hc
      simp only [Err.Error, ErrorString]
  | foreign text => simp [Err.asMessager] at hm

theorem Err.chain_ne_nil : ∀ e : Err, e.chain ≠ []
  | .simple _ none _ => by simp [Err.chain]
  | .simple _ (some _) _ => by simp [Err.chain]
  | .value _ _ none _ => by simp [Err.chain]
  | .value _ _ (some _) _ => by simp [Err.chain]
  | .foreign _ => by simp [Err.chain]

theorem joinMessages_cons (m : String) (ms : List String) (h : ms ≠ []) :
    joinMessages (m :: ms) = m ++ ": " ++ joinMessages ms := by
  cases ms with
  | nil => exact absurd rfl h
  | cons m2 ms => rfl

/-- The text of a chain of `simple` and `ValueError` layers is the joined
list of the messages of its layers. -/
theorem Err.Error_eq_joinMessages :
    ∀ e : Err, e.modelChain = true →
      ∃ ms, ms ≠ [] ∧ e.chain.map Message = ms.map some ∧ e.Error = joinMessages ms
  | .simple m none st, _ => ⟨[m], by simp, rfl, rfl⟩
  | .simple m (some c) st, h => by
    obtain ⟨ms, hne, hmap, herr⟩ := Err.Error_eq_joinMessages c h
    refine ⟨m :: ms, by simp, ?_, ?_⟩
    · simp only [Err.chain, List.map_cons, hmap]
      rfl
    · rw [joinMessages_cons m ms hne, ← herr]
      simp only [Err.Error]
  | .value m v none st, _ => ⟨[m], by simp, rfl, rfl⟩
  | .value m v (some c) st, h => by
    obtain ⟨ms, hne, hmap, herr⟩ := Err.Error_eq_joinMessages c h
    refine ⟨m :: ms, by simp, ?_, ?_⟩
    · simp only [Err.chain, List.map_cons, hmap]
      rfl
    · rw [joinMessages_cons m ms hne, ← herr]
      simp only [Err.Error, ErrorString]
  | .foreign _, h => by simp [Err.modelChain] at h

/-! ## Claims about the message protocol -/

/-- C11: for a causal chain `e1, e2, ..., en` made only of `simple` and
`ValueError` layers (each the `Unwrap()` of the one before, the last without
cause), `e1.Error()` is `Message(e1) ++ ": " ++ Message(e2) ++ ... ++ ": " ++
Message(en)`, whatever the message strings are. -/
theorem error_is_joined_chain_messages (e : Err) (h : e.modelChain = true) :
    ∃ ms, e.chain.map Message = ms.map some ∧ e.Error = joinMessages ms := by
  obtain ⟨ms, _, hmap, herr⟩ := Err.Error_eq_joinMessages e h
  exact ⟨ms, hmap, herr⟩

/-- C11, at a concrete input: a three-layer chain with a separator inside one
of the messages. -/
theorem error_is_joined_chain_messages_witness :
    ∃ ms,
      (Err.simple "outer" (some (Err.value "mid: dle" (Val.int 3)
          (some (Err.simple "root" none [1])) [2])) [3]).chain.map Message = ms.map some ∧
      (Err.simple "outer" (some (Err.value "mid: dle" (Val.int 3)
          (some (Err.simple "root" none [1])) [2])) [3]).Error = joinMessages ms :=
  error_is_joined_chain_messages
    (Err.simple "outer" (some (Err.value "mid: dle" (Val.int 3)
      (some (Err.simple "root" none [1])) [2])) [3]) rfl

/-- C12 fails as stated: for the `simple` error with message `"a: b"` the
accessor gives `"a: b"` while the first element of the split text is `"a"`. -/
theorem message_accessor_differs_from_split :
    Message (Err.simple "a: b" none []) = some "a: b" ∧
      (Messages (Err.simple "a: b" none []))[0]? = some "a" ∧
      (Messages (Err.simple "a: b" none []))[0]? ≠ Message (Err.simple "a: b" none []) := by
  decide

/-- C12, amended: for a `simple` or `ValueError` `e` with message `m`,
`Message(e)` is `m`, and it equals the first element of
`strings.Split(e.Error(), ": ")` exactly when `m` does not contain the
separator `": "`. -/
theorem message_accessor_equals_split_iff (e : Err) (m : String)
    (hm : e.asMessager = some m) :
    Message e = some m ∧
      (hasSeparator m.data = false ↔ (Messages e)[0]? = Message e) := by
  have hmsg := Message_of_asMessager e m hm
  refine ⟨hmsg, ?_⟩
  rw [hmsg]
  constructor
  · intro hno
    have herr : ∃ rest, splitMessageSeparator e.Error.data = m.data :: rest := by
      cases hu : e.asUnwrapper with
      | none => cases e <;> simp [Err.asUnwrapper, Err.asMessager] at hu hm
      | some cause =>
        cases cause with
        | none =>
          rw [(Err.Error_of_accessors e m hm).1 hu,
            splitMessageSeparator_of_no_separator m.data hno]
          exact ⟨[], rfl⟩
        | some c =>
          rw [(Err.Error_of_accessors e m hm).2 c hu]
          have hdata : (m ++ ": " ++ c.Error).data = m.data ++ ':' :: ' ' :: c.Error.data := by
            simp only [String.data_append, List.append_assoc]
            rfl
          rw [hdata, splitMessageSeparator_append m.data _ hno]
          exact ⟨_, rfl⟩
    obtain ⟨rest, hrest⟩ := herr
    simp only [Messages, hrest, List.map_cons, List.getElem?_cons_zero]
  · intro hfirst
    cases hsplit : splitMessageSeparator e.Error.data with
    | nil => exact absurd hsplit (splitMessageSeparator_ne_nil _)
    | cons seg segs =>
      simp only [Messages, hsplit, List.map_cons, List.getElem?_cons_zero,
        Option.some.injEq] at hfirst
      have hseg := splitMessageSeparator_head_no_separator _ seg segs hsplit
      rw [← hfirst]
      exact hseg

/-- C12, amended, at a concrete input: a message without separator over a
cause. -/
theorem message_accessor_equals_split_iff_witness :
    Message (Err.simple "outer" (some (Err.foreign "io: eof")) [1]) = some "outer" ∧
      (hasSeparator "outer".data = false ↔
        (Messages (Err.simple "outer" (some (Err.foreign "io: eof")) [1]))[0]? =
          Message (Err.simple "outer" (some (Err.foreign "io: eof")) [1])) :=
  message_accessor_equals_split_iff (Err.simple "outer" (some (Err.foreign "io: eof")) [1])
    "outer" rfl

/-! ## Properties of `BackTrace` -/

theorem BackTrace.writeFrames_append (rt : Runtime) :
    ∀ (stack : Stack) (buffer : String),
      BackTrace.writeFrames rt buffer stack = buffer ++ BackTrace.writeFrames rt "" stack
  | [], buffer => by simp [BackTrace.writeFrames]
  | frame :: stack, buffer => by
    have h1 := BackTrace.writeFrames_append rt stack
      (buffer ++ "  " ++ frame.Function rt ++ "\n" ++ "    " ++ (frame.FileLine rt).1 ++ ":" ++
        toString (frame.FileLine rt).2 ++ "\n")
    have h2 := BackTrace.writeFrames_append rt stack
      ("" ++ "  " ++ frame.Function rt ++ "\n" ++ "    " ++ (frame.FileLine rt).1 ++ ":" ++
        toString (frame.FileLine rt).2 ++ "\n")
    simp only [BackTrace.writeFrames, List.foldl_cons] at h1 h2 ⊢
    rw [h1, h2]
    simp only [String.append_assoc, String.empty_append]

/-- What the frame loop writes for one frame is the pair of lines of that
frame. -/
theorem frameLines_eq (rt : Runtime) (frame : Frame) :
    "  " ++ frame.Function rt ++ "\n" ++ "    " ++ (frame.FileLine rt).1 ++ ":" ++
        toString (frame.FileLine rt).2 ++ "\n" = frameLines rt frame := by
  unfold frameLines Frame.Function Frame.FileLine Frame.pc
  cases rt ((frame + (2 ^ 64 - 1)) % 2 ^ 64) with
  | none =>
    exact (by decide :
      "  " ++ "unknown" ++ "\n" ++ "    " ++ (("unknown", 0) : String × Int).1 ++ ":" ++
          toString (("unknown", 0) : String × Int).2 ++ "\n" =
        "  unknown\n    unknown:0\n")
  | some fn => rfl

/-- The frame loop of `BackTrace` writes the frame lines of the stack: two
lines for every frame, in the order of the stack. -/
theorem BackTrace.writeFrames_eq_stackLines (rt : Runtime) :
    ∀ stack : Stack, BackTrace.writeFrames rt "" stack = stackLines rt stack
  | [] => rfl
  | frame :: stack => by
    have ih := BackTrace.writeFrames_eq_stackLines rt stack
    have h1 := BackTrace.writeFrames_append rt stack
      ("" ++ "  " ++ frame.Function rt ++ "\n" ++ "    " ++ (frame.FileLine rt).1 ++ ":" ++
        toString (frame.FileLine rt).2 ++ "\n")
    simp only [BackTrace.writeFrames, List.foldl_cons] at h1 ih ⊢
    rw [h1, ih, String.empty_append, frameLines_eq]
    rfl

theorem causedLines_foldl :
    ∀ (rest : List String) (n : Nat) (buffer : String), 0 < n →
      (rest.enumFrom n).foldl
          (fun buffer (entry : Nat × String) =>
            if entry.1 = 0 then buffer else buffer ++ "Caused: " ++ entry.2 ++ "\n")
          buffer =
        buffer ++ causedLines rest
  | [], _, buffer, _ => by simp [causedLines]
  | s :: rest, n, buffer, hn => by
    have ih := causedLines_foldl rest (n + 1) (buffer ++ "Caused: " ++ s ++ "\n") (by omega)
    simp only [List.enumFrom_cons, List.foldl_cons, if_neg (Nat.pos_iff_ne_zero.mp hn)]
    rw [ih]
    simp only [causedLines, String.append_assoc]

/-- The branch for a cause without `BackTrace` method never faults: it writes
the segments of the cause text in reverse order. -/
theorem BackTrace.writeForeignCause_eq (buffer : String) (cause : Err) :
    ∃ sk rest, (Messages cause).reverse = sk :: rest ∧
      BackTrace.writeForeignCause buffer cause =
        some (buffer ++ "Root Cause: " ++ sk ++ "\n" ++ causedLines rest) := by
  cases hrev : (Messages cause).reverse with
  | nil =>
    exfalso
    have h1 : Messages cause = [] := by simpa using hrev
    simp only [Messages, List.map_eq_nil_iff] at h1
    exact splitMessageSeparator_ne_nil _ h1
  | cons sk rest =>
    refine ⟨sk, rest, rfl, ?_⟩
    simp only [BackTrace.writeForeignCause, hrev, List.getElem?_cons_zero, List.enum,
      List.enumFrom_cons, List.foldl_cons, if_true]
    rw [causedLines_foldl rest (0 + 1) _ (by omega)]

theorem Err.isBackTracer_of_modelChain (e : Err) (h : e.modelChain = true) :
    e.isBackTracer = true := by
  cases e with
  | simple _ _ _ => rfl
  | value _ _ _ _ => rfl
  | foreign _ => simp [Err.modelChain] at h

/-- One step of `BackTrace` in terms of the accessors of `err`. -/
theorem BackTrace_unfold (rt : Runtime) (err : Err) :
    (err.asUnwrapper = some none → BackTrace rt err = BackTrace.body rt err none none) ∧
      (∀ c, err.asUnwrapper = some (some c) →
        BackTrace rt err = BackTrace.body rt err (some c) (BackTrace rt c)) := by
  cases err with
  | simple m cause st =>
    cases cause with
    | none => simp [BackTrace, Err.asUnwrapper]
    | some c => simp [BackTrace, Err.asUnwrapper]
  | value m v cause st =>
    cases cause with
    | none => simp [BackTrace, Err.asUnwrapper]
    | some c => simp [BackTrace, Err.asUnwrapper]
  | foreign text => simp [Err.asUnwrapper]

/-- The body of `BackTrace` for a layer without cause. -/
theorem BackTrace.body_root (rt : Runtime) (e : Err) (m : String) (st : Stack)
    (hm : Message e = some m) (hs : e.asStacker = some st) :
    BackTrace.body rt e none none =
      some ("Root Cause: " ++ m ++ "\n" ++ stackLines rt st) := by
  simp only [BackTrace.body, hm, hs, String.empty_append]
  rw [BackTrace.writeFrames_append, BackTrace.writeFrames_eq_stackLines]

/-- The body of `BackTrace` for a layer over a cause with `BackTrace` method. -/
theorem BackTrace.body_caused (rt : Runtime) (e c : Err) (m trace : String) (st : Stack)
    (hm : Message e = some m) (hs : e.asStacker = some st) (hc : c.isBackTracer = true) :
    BackTrace.body rt e (some c) (some trace) =
      some (trace ++ ("Caused: " ++ m ++ "\n" ++ stackLines rt st)) := by
  simp only [BackTrace.body, hm, hs, hc, if_true, Option.map_some', String.empty_append]
  rw [BackTrace.writeFrames_append, BackTrace.writeFrames_eq_stackLines]
  simp only [String.append_assoc]

theorem renderChain_cons (rt : Runtime) (e : Err) (l : List Err) (h : l ≠ []) :
    renderChain rt (e :: l) = renderChain rt l ++ layerBlock rt "Caused: " e := by
  cases l with
  | nil => exact absurd rfl h
  | cons e2 rest => rfl

/-- The trace of a chain of `simple` and `ValueError` layers. -/
theorem BackTrace_of_modelChain (rt : Runtime) :
    ∀ e : Err, e.modelChain = true → BackTrace rt e = some (renderChain rt e.chain)
  | .simple m none st, _ => by
    rw [(BackTrace_unfold rt (.simple m none st)).1 rfl,
      BackTrace.body_root rt (.simple m none st) m st rfl rfl]
    rfl
  | .simple m (some c) st, h => by
    rw [(BackTrace_unfold rt (.simple m (some c) st)).2 c rfl,
      BackTrace_of_modelChain rt c h,
      BackTrace.body_caused rt (.simple m (some c) st) c m _ st rfl rfl
        (Err.isBackTracer_of_modelChain c h)]
    simp only [Err.chain]
    rw [renderChain_cons rt _ _ (Err.chain_ne_nil c)]
    rfl
  | .value m v none st, _ => by
    rw [(BackTrace_unfold rt (.value m v none st)).1 rfl,
      BackTrace.body_root rt (.value m v none st) m st rfl rfl]
    rfl
  | .value m v (some c) st, h => by
    rw [(BackTrace_unfold rt (.value m v (some c) st)).2 c rfl,
      BackTrace_of_modelChain rt c h,
      BackTrace.body_caused rt (.value m v (some c) st) c m _ st rfl rfl
        (Err.isBackTracer_of_modelChain c h)]
    simp only [Err.chain]
    rw [renderChain_cons rt _ _ (Err.chain_ne_nil c)]
    rfl
  | .foreign _, h => by simp [Err.modelChain] at h

/-- `BackTrace` returns for every error: the index expressions on the split
cause text never fault. -/
theorem BackTrace_returns (rt : Runtime) : ∀ e : Err, ∃ text, BackTrace rt e = some text
  | .simple m none st => by
    rw [(BackTrace_unfold rt (.simple m none st)).1 rfl,
      BackTrace.body_root rt (.simple m none st) m st rfl rfl]
    exact ⟨_, rfl⟩
  | .simple m (some c) st => by
    obtain ⟨t, ht⟩ := BackTrace_returns rt c
    obtain ⟨sk, rest, _, hw⟩ := BackTrace.writeForeignCause_eq "" c
    rw [(BackTrace_unfold rt (.simple m (some c) st)).2 c rfl, ht]
    cases hb : c.isBackTracer <;>
      simp only [BackTrace.body, hw, hb, Message, Err.asMessager, Err.asStacker,
        Option.map_some', if_true, Bool.false_eq_true, if_false] <;>
      exact ⟨_, rfl⟩
  | .value m v none st => by
    rw [(BackTrace_unfold rt (.value m v none st)).1 rfl,
      BackTrace.body_root rt (.value m v none st) m st rfl rfl]
    exact ⟨_, rfl⟩
  | .value m v (some c) st => by
    obtain ⟨t, ht⟩ := BackTrace_returns rt c
    obtain ⟨sk, rest, _, hw⟩ := BackTrace.writeForeignCause_eq "" c
    rw [(BackTrace_unfold rt (.value m v (some c) st)).2 c rfl, ht]
    cases hb : c.isBackTracer <;>
      simp only [BackTrace.body, hw, hb, Message, Err.asMessager, Err.asStacker,
        Option.map_some', if_true, Bool.false_eq_true, if_false] <;>
      exact ⟨_, rfl⟩
  | .foreign text => by
    cases hsplit : splitMessageSeparator text.data with
    | nil => exact absurd hsplit (splitMessageSeparator_ne_nil _)
    | cons seg segs =>
      simp only [BackTrace, BackTrace.body, Message, Err.asMessager, Messages, Err.Error,
        hsplit, List.map_cons, List.getElem?_cons_zero, Err.asStacker]
      exact ⟨_, rfl⟩

/-- Every layer of a chain of `simple` and `ValueError` layers has a message
and a stack, and its block is its header line followed by its frame lines. -/
theorem Err.chain_layers (rt : Runtime) :
    ∀ e : Err, e.modelChain = true →
      ∀ layer ∈ e.chain, ∃ m st, Message layer = some m ∧ layer.asStacker = some st ∧
        ∀ header, layerBlock rt header layer = header ++ m ++ "\n" ++ stackLines rt st
  | .simple m none st, _ => by
    intro layer hl
    simp only [Err.chain, List.mem_singleton] at hl
    subst hl
    exact ⟨m, st, rfl, rfl, fun _ => rfl⟩
  | .simple m (some c) st, h => by
    intro layer hl
    simp only [Err.chain, List.mem_cons] at hl
    rcases hl with hl | hl
    · subst hl
      exact ⟨m, st, rfl, rfl, fun _ => rfl⟩
    · exact Err.chain_layers rt c h layer hl
  | .value m v none st, _ => by
    intro layer hl
    simp only [Err.chain, List.mem_singleton] at hl
    subst hl
    exact ⟨m, st, rfl, rfl, fun _ => rfl⟩
  | .value m v (some c) st, h => by
    intro layer hl
    simp only [Err.chain, List.mem_cons] at hl
    rcases hl with hl | hl
    · subst hl
      exact ⟨m, st, rfl, rfl, fun _ => rfl⟩
    · exact Err.chain_layers rt c h layer hl
  | .foreign _, h => by simp [Err.modelChain] at h

/-! ## Claims about `BackTrace` -/

/-- C13: for a chain `e1, ..., en` of `simple` and `ValueError` layers,
`BackTrace(e1)` is the concatenation, root first, of one block per layer, each
block a header line followed by the frame lines of that layer, two per frame:
`"  <function>"` and `"    <file>:<line>"`, as the symbol table resolves the
frame.  The header is `"Root Cause: " ++ Message(en)` for the root and
`"Caused: " ++ Message(ei)` for every other layer.  A layer without cause
renders as its own root block, and a layer over a cause `c` renders as
`BackTrace(c)` followed by its own `"Caused: "` block. -/
theorem backtrace_of_model_chain (rt : Runtime) (e : Err) (h : e.modelChain = true) :
    BackTrace rt e = some (renderChain rt e.chain) ∧
      (e.asUnwrapper = some none →
        BackTrace rt e = some (layerBlock rt "Root Cause: " e)) ∧
      (∀ c, e.asUnwrapper = some (some c) →
        ∃ trace, BackTrace rt c = some trace ∧
          BackTrace rt e = some (trace ++ layerBlock rt "Caused: " e)) ∧
      (∀ layer ∈ e.chain, ∃ m st, Message layer = some m ∧ layer.asStacker = some st ∧
        ∀ header, layerBlock rt header layer = header ++ m ++ "\n" ++ stackLines rt st) ∧
      (∀ (frame : Frame) (stack : Stack),
        stackLines rt (frame :: stack) = frameLines rt frame ++ stackLines rt stack) ∧
      (∀ (frame : Frame) (fn : Func), rt ((frame + (2 ^ 64 - 1)) % 2 ^ 64) = some fn →
        frameLines rt frame =
          "  " ++ fn.Name ++ "\n" ++
            "    " ++ (fn.FileLine ((frame + (2 ^ 64 - 1)) % 2 ^ 64)).1 ++ ":" ++
            toString (fn.FileLine ((frame + (2 ^ 64 - 1)) % 2 ^ 64)).2 ++ "\n") := by
  have hmain := BackTrace_of_modelChain rt e h
  refine ⟨hmain, ?_, ?_, Err.chain_layers rt e h, fun _ _ => rfl, ?_⟩
  · intro hu
    rw [hmain]
    cases e with
    | simple m cause st =>
      simp only [Err.asUnwrapper, Option.some.injEq] at hu
      subst hu; rfl
    | value m v cause st =>
      simp only [Err.asUnwrapper, Option.some.injEq] at hu
      subst hu; rfl
    | foreign text => simp [Err.asUnwrapper] at hu
  · intro c hu
    have hc : c.modelChain = true := by
      cases e with
      | simple m cause st =>
        simp only [Err.asUnwrapper, Option.some.injEq] at hu
        subst hu; exact h
      | value m v cause st =>
        simp only [Err.asUnwrapper, Option.some.injEq] at hu
        subst hu; exact h
      | foreign text => simp [Err.asUnwrapper] at hu
    refine ⟨_, BackTrace_of_modelChain rt c hc, ?_⟩
    rw [hmain]
    cases e with
    | simple m cause st =>
      simp only [Err.asUnwrapper, Option.some.injEq] at hu
      subst hu
      simp only [Err.chain]
      rw [renderChain_cons rt _ _ (Err.chain_ne_nil c)]
    | value m v cause st =>
      simp only [Err.asUnwrapper, Option.some.injEq] at hu
      subst hu
      simp only [Err.chain]
      rw [renderChain_cons rt _ _ (Err.chain_ne_nil c)]
    | foreign text => simp [Err.asUnwrapper] at hu
  · intro frame fn hfn
    simp only [frameLines, hfn]

/-- C13, at the concrete input of the end-to-end scenario, under a symbol
table that knows the function of the frame `7` only: the trace of "outer
failure" over "inner failure" begins with the root block of the inner error
and goes on with the block of the outer one. -/
theorem backtrace_of_model_chain_witness :
    BackTrace (fun pc => if pc = 6 then some ⟨"main.run", fun _ => ("main.go", 42)⟩ else none)
        (Err.simple "outer failure" (some (Err.simple "inner failure" none [5])) [7]) =
      some (renderChain
        (fun pc => if pc = 6 then some ⟨"main.run", fun _ => ("main.go", 42)⟩ else none)
        (Err.simple "outer failure" (some (Err.simple "inner failure" none [5])) [7]).chain) ∧
    renderChain (fun pc => if pc = 6 then some ⟨"main.run", fun _ => ("main.go", 42)⟩ else none)
        (Err.simple "outer failure" (some (Err.simple "inner failure" none [5])) [7]).chain =
      "Root Cause: inner failure\n  unknown\n    unknown:0\nCaused: outer failure\n  main.run\n    main.go:42\n" :=
  ⟨(backtrace_of_model_chain
      (fun pc => if pc = 6 then some ⟨"main.run", fun _ => ("main.go", 42)⟩ else none)
      (Err.simple "outer failure" (some (Err.simple "inner failure" none [5])) [7]) rfl).1,
    by decide⟩

/-- C14: for an error `err` whose cause is a foreign error with text `text`,
with `sk, ..., s1` the segments of `strings.Split(text, ": ")` in reverse
order, `BackTrace(err)` is the line `"Root Cause: " ++ sk`, the lines
`"Caused: " ++ s` for the remaining segments outwards, then `"Caused: " ++
Message(err)` and the frame lines of `err`, two for every frame of its stack:
`"  <function>"` and `"    <file>:<line>"`, as the symbol table resolves the
frame.  A text without `": "` is rendered as the single line `"Root Cause: "
++ text`, and `BackTrace` returns for every error. -/
theorem backtrace_of_foreign_cause (rt : Runtime) (err : Err) (text m : String)
    (st : Stack) (hc : err.asUnwrapper = some (some (Err.foreign text)))
    (hm : Message err = some m) (hs : err.asStacker = some st) :
    (∃ sk rest, (Messages (Err.foreign text)).reverse = sk :: rest ∧
      BackTrace rt err =
        some ("Root Cause: " ++ sk ++ "\n" ++ causedLines rest ++
          ("Caused: " ++ m ++ "\n" ++ stackLines rt st))) ∧
    (hasSeparator text.data = false →
      BackTrace rt err =
        some ("Root Cause: " ++ text ++ "\n" ++
          ("Caused: " ++ m ++ "\n" ++ stackLines rt st))) ∧
    (∀ e : Err, ∃ trace, BackTrace rt e = some trace) ∧
    (∀ (frame : Frame) (stack : Stack),
      stackLines rt (frame :: stack) = frameLines rt frame ++ stackLines rt stack) ∧
    (∀ (frame : Frame) (fn : Func), rt ((frame + (2 ^ 64 - 1)) % 2 ^ 64) = some fn →
      frameLines rt frame =
        "  " ++ fn.Name ++ "\n" ++
          "    " ++ (fn.FileLine ((frame + (2 ^ 64 - 1)) % 2 ^ 64)).1 ++ ":" ++
          toString (fn.FileLine ((frame + (2 ^ 64 - 1)) % 2 ^ 64)).2 ++ "\n") := by
  obtain ⟨sk, rest, hrev, hw⟩ := BackTrace.writeForeignCause_eq "" (Err.foreign text)
  have hbt : BackTrace rt err =
      some ("Root Cause: " ++ sk ++ "\n" ++ causedLines rest ++
        ("Caused: " ++ m ++ "\n" ++ stackLines rt st)) := by
    rw [(BackTrace_unfold rt err).2 _ hc]
    simp only [BackTrace.body, Err.isBackTracer, hw, hm, hs, Option.map_some',
      String.empty_append, Bool.false_eq_true, if_false]
    rw [BackTrace.writeFrames_append, BackTrace.writeFrames_eq_stackLines]
    simp only [String.append_assoc]
  refine ⟨⟨sk, rest, hrev, hbt⟩, ?_, BackTrace_returns rt, fun _ _ => rfl, ?_⟩
  · intro hno
    have hmsgs : Messages (Err.foreign text) = [text] := by
      simp only [Messages, Err.Error, splitMessageSeparator_of_no_separator text.data hno,
        List.map_cons, List.map_nil]
    rw [hmsgs] at hrev
    simp only [List.reverse_cons, List.reverse_nil, List.nil_append, List.cons.injEq] at hrev
    rw [hbt, ← hrev.1, ← hrev.2]
    simp only [causedLines, String.append_assoc, String.empty_append]
  · intro frame fn hfn
    simp only [frameLines, hfn]

/-- C14, at a concrete input: a foreign cause of three segments under one
`simple` layer of two frames, rendered under a symbol table that knows the
function of the frame `7` only. -/
theorem backtrace_of_foreign_cause_witness :
    (Messages (Err.foreign "a: b: c")).reverse = ["c", "b", "a"] ∧
      BackTrace (fun pc => if pc = 6 then some ⟨"main.run", fun _ => ("main.go", 42)⟩ else none)
          (Err.simple "outer" (some (Err.foreign "a: b: c")) [7, 9]) =
        some "Root Cause: c\nCaused: b\nCaused: a\nCaused: outer\n  main.run\n    main.go:42\n  unknown\n    unknown:0\n" ∧
      ∃ sk rest, (Messages (Err.foreign "a: b: c")).reverse = sk :: rest ∧
        BackTrace
            (fun pc => if pc = 6 then some ⟨"main.run", fun _ => ("main.go", 42)⟩ else none)
            (Err.simple "outer" (some (Err.foreign "a: b: c")) [7, 9]) =
          some ("Root Cause: " ++ sk ++ "\n" ++ causedLines rest ++
            ("Caused: " ++ "outer" ++ "\n" ++
              stackLines
                (fun pc => if pc = 6 then some ⟨"main.run", fun _ => ("main.go", 42)⟩ else none)
                [7, 9])) :=
  ⟨by decide, by decide,
    (backtrace_of_foreign_cause
      (fun pc => if pc = 6 then some ⟨"main.run", fun _ => ("main.go", 42)⟩ else none)
      (Err.simple "outer" (some (Err.foreign "a: b: c")) [7, 9]) "a: b: c" "outer" [7, 9]
      rfl rfl rfl).1⟩

/-! ## Properties of trimmed causes -/

/-- The text of a `simple` does not depend on its stack. -/
theorem Err.Error_simple_stack (m : String) (cause : Option Err) (st t : Stack) :
    (Err.simple m cause t).Error = (Err.simple m cause st).Error := by
  cases cause <;> simp only [Err.Error]

/-- The text of a `ValueError` does not depend on its stack. -/
theorem Err.Error_value_stack (m : String) (v : Val) (cause : Option Err) (st t : Stack) :
    (Err.value m v cause t).Error = (Err.value m v cause st).Error := by
  simp only [Err.Error]

/-- What `TrimStack` returns on a cause: the cause with the trimmed stack, all
accessors but `Stack()` and the `Error()` text kept, and the cause itself when
`Stack.Trim` reports `false`. -/
theorem asStackTrimmer_result (c : Err) (trimStack : Stack → Option Err)
    (st f t : Stack) (ok : Bool) (htr : asStackTrimmer (some c) = some trimStack)
    (hst : c.asStacker = some st) (h : Stack.Trim st f = some (t, ok)) :
    ∃ trimmed, trimStack f = some trimmed ∧ trimmed.asStacker = some t ∧
      trimmed.asMessager = c.asMessager ∧ trimmed.asUnwrapper = c.asUnwrapper ∧
      trimmed.asValue = c.asValue ∧ trimmed.Error = c.Error ∧
      (ok = false → trimmed = c) := by
  cases c with
  | simple message cause stack =>
    simp only [asStackTrimmer, Option.some.injEq] at htr
    simp only [Err.asStacker, Option.some.injEq] at hst
    subst htr hst
    refine ⟨_, simple_TrimStack_of_trim message cause stack f t ok h, rfl, rfl, rfl, rfl,
      Err.Error_simple_stack message cause stack t, ?_⟩
    intro hok
    subst hok
    rw [Stack.Trim_false_unchanged stack f t h]
  | value message value cause stack =>
    simp only [asStackTrimmer, Option.some.injEq] at htr
    simp only [Err.asStacker, Option.some.injEq] at hst
    subst htr hst
    refine ⟨_, ValueError_TrimStack_of_trim message value cause stack f t ok h,
      rfl, rfl, rfl, rfl, Err.Error_value_stack message value cause stack t, ?_⟩
    intro hok
    subst hok
    rw [Stack.Trim_false_unchanged stack f t h]
  | foreign text => simp [asStackTrimmer] at htr

/-- Every `simple` and `ValueError` has a `TrimStack` method and a stack. -/
theorem asStackTrimmer_of_asStacker (c : Err) (st : Stack) (hst : c.asStacker = some st) :
    ∃ trimStack, asStackTrimmer (some c) = some trimStack := by
  cases c with
  | simple message cause stack => exact ⟨_, rfl⟩
  | value message value cause stack => exact ⟨_, rfl⟩
  | foreign text => simp [Err.asStacker] at hst

/-- Whatever `TrimStack` returns has the text of the receiver. -/
theorem asStackTrimmer_keeps_Error (c trimmed : Err) (trimStack : Stack → Option Err)
    (f : Stack) (htr : asStackTrimmer (some c) = some trimStack)
    (hres : trimStack f = some trimmed) : trimmed.Error = c.Error := by
  cases c with
  | simple message cause stack =>
    simp only [asStackTrimmer, Option.some.injEq] at htr
    subst htr
    cases hT : Stack.Trim stack f with
    | none => simp [simple.TrimStack, hT] at hres
    | some r =>
      obtain ⟨t, ok⟩ := r
      rw [simple_TrimStack_of_trim message cause stack f t ok hT] at hres
      simp only [Option.some.injEq] at hres
      rw [← hres]
      exact Err.Error_simple_stack message cause stack t
  | value message value cause stack =>
    simp only [asStackTrimmer, Option.some.injEq] at htr
    subst htr
    cases hT : Stack.Trim stack f with
    | none => simp [ValueError.TrimStack, hT] at hres
    | some r =>
      obtain ⟨t, ok⟩ := r
      rw [ValueError_TrimStack_of_trim message value cause stack f t ok hT] at hres
      simp only [Option.some.injEq] at hres
      rw [← hres]
      exact Err.Error_value_stack message value cause stack t
  | foreign text => simp [asStackTrimmer] at htr

/-! ## Claims about sentinels -/

/-- C16: for every message `m`, `NewSentinel(m)` has an empty `Stack()`, no
cause and `Error() = m`; `TrimStack(p)` on it returns the sentinel itself for
every parent `p` (at the level of references: the receiver's own address, the
store untouched); and `newSimple` wrapping it stores that very sentinel, whose
`Stack()` is still empty. -/
theorem sentinel_is_stateless (m message : String) (p : Stack) (NewStack : Int → Stack) :
    (NewSentinel m).asStacker = some [] ∧ (NewSentinel m).asUnwrapper = some none ∧
      (NewSentinel m).Error = m ∧
      (∃ trimStack, asStackTrimmer (some (NewSentinel m)) = some trimStack ∧
        trimStack p = some (NewSentinel m)) ∧
      (∀ (h : Heap) (s : Nat), h[s]? = some (NewSentinel m) →
        simple.TrimStackRef h s p = some (h, s)) ∧
      newSimple NewStack message (some (NewSentinel m)) =
        some (Err.simple message (some (NewSentinel m)) (NewStack 2)) := by
  have htrim : ∀ q : Stack, Stack.Trim [] q = some ([], false) :=
    fun q => Stack.Trim_early [] q (Or.inr (Or.inl rfl))
  refine ⟨rfl, rfl, rfl, ⟨_, rfl, ?_⟩, ?_, ?_⟩
  · simp only [NewSentinel, simple.TrimStack, htrim, Bool.false_eq_true, if_false]
  · intro h s hget
    simp only [NewSentinel] at hget
    simp only [simple.TrimStackRef, hget, htrim, Bool.false_eq_true, if_false]
  · simp only [newSimple, NewSentinel, asStackTrimmer, simple.TrimStack, htrim,
      Bool.false_eq_true, if_false, Option.map_some']

/-- C17 fails as stated: `WrapSentinel(nil, m)` is not the nil error but a
`simple` with message `m`. -/
theorem wrapSentinel_of_nil_is_not_nil :
    WrapSentinel none "wrapped" = some (Err.simple "wrapped" none []) ∧
      WrapSentinel none "wrapped" ≠ none := by
  constructor
  · rfl
  · intro h; cases h

/-- C17, amended: for every message `m`, `WrapSentinel(nil, m)` returns a
non-nil error with message `m`, no cause and an empty stack, the same value
as `NewSentinel(m)`, with `Error() = m`. -/
theorem wrapSentinel_of_nil_is_sentinel (m : String) :
    WrapSentinel none m = some (NewSentinel m) ∧
      (NewSentinel m).asMessager = some m ∧ (NewSentinel m).asUnwrapper = some none ∧
      (NewSentinel m).asStacker = some [] ∧ (NewSentinel m).Error = m :=
  ⟨rfl, rfl, rfl, rfl, rfl⟩

/-- C18 fails as stated: called where the captured stack is `[7, 8, 9]`,
`newSimple` gives the wrapper that stack while `WrapSentinel` on the same
cause and message gives a wrapper with an empty stack. -/
theorem wrapSentinel_captures_no_stack :
    newSimple (fun _ => [7, 8, 9]) "wrapper" (some (NewSentinel "base")) =
        some (Err.simple "wrapper" (some (NewSentinel "base")) [7, 8, 9]) ∧
      WrapSentinel (some (NewSentinel "base")) "wrapper" =
        some (Err.simple "wrapper" (some (NewSentinel "base")) []) ∧
      WrapSentinel (some (NewSentinel "base")) "wrapper" ≠
        newSimple (fun _ => [7, 8, 9]) "wrapper" (some (NewSentinel "base")) := by
  have h : newSimple (fun _ => [7, 8, 9]) "wrapper" (some (NewSentinel "base")) =
      some (Err.simple "wrapper" (some (NewSentinel "base")) [7, 8, 9]) := by
    simp only [newSimple, NewSentinel, asStackTrimmer, simple.TrimStack,
      Stack.Trim_early [] [7, 8, 9] (Or.inr (Or.inl rfl)), Bool.false_eq_true, if_false,
      Option.map_some']
  refine ⟨h, rfl, ?_⟩
  rw [h]
  simp [WrapSentinel]

/-- C18, amended: for every cause and message, `WrapSentinel(cause, m)`
returns a wrapper with message `m`, the cause stored as given (not trimmed)
and an empty `Stack()`: no stack is captured at the wrap call site.  It has
the message and the `Error()` text of every error that `newSimple(m, cause)`
returns. -/
theorem wrapSentinel_is_stackless_wrapper (cause : Option Err) (m : String)
    (NewStack : Int → Stack) :
    ∃ w, WrapSentinel cause m = some w ∧ w.asMessager = some m ∧
      w.asUnwrapper = some cause ∧ w.asStacker = some [] ∧
      (∀ e, newSimple NewStack m cause = some e →
        e.asMessager = some m ∧ e.Error = w.Error) := by
  refine ⟨Err.simple m cause [], rfl, rfl, rfl, rfl, ?_⟩
  intro e he
  cases htr : asStackTrimmer cause with
  | none =>
    simp only [newSimple, htr, Option.some.injEq] at he
    rw [← he]
    exact ⟨rfl, Err.Error_simple_stack m cause [] (NewStack 2)⟩
  | some trimStack =>
    cases cause with
    | none => simp [asStackTrimmer] at htr
    | some c =>
      cases hres : trimStack (NewStack 2) with
      | none => simp [newSimple, htr, hres] at he
      | some trimmed =>
        simp only [newSimple, htr, hres, Option.map_some', Option.some.injEq] at he
        rw [← he]
        refine ⟨rfl, ?_⟩
        simp only [Err.Error]
        rw [asStackTrimmer_keeps_Error c trimmed trimStack (NewStack 2) htr hres]

/-! ## Properties of the paged capture -/

/-- An `int` expression whose exact value is in the range of `int` has that
value. -/
theorem wrapInt_of_inRange (x : Int) (h1 : -(2 ^ 63) ≤ x) (h2 : x < 2 ^ 63) :
    wrapInt x = x := by
  unfold wrapInt
  omega

/-- What `newCallersPage` returns where the call stack is `live`: the empty
page when nothing is left from index `s` on, else the page of at most 16
frames from index `s` on. -/
theorem newCallersPage_eq (m : CaptureFrames) (live : List Frame) (s : Nat)
    (hs : s + 2 < 2 ^ 63) :
    newCallersPage m live (s : Int) =
      if (live.drop s).take framePageSize = [] then { skip := 0, frames := [], off := 0 }
      else { skip := (s : Int), frames := (live.drop s).take framePageSize, off := 0 } := by
  have h0 : wrapInt ((s : Int) + 2) = (s : Int) + 2 :=
    wrapInt_of_inRange _ (by omega) (by omega)
  have h1 : ((s : Int) + 2).toNat = s + 2 := by omega
  simp only [newCallersPage, runtimeCallers, h0, h1, List.drop_succ_cons, List.take_length]
  by_cases h : (live.drop s).take framePageSize = []
  · rw [if_pos h, if_pos (by rw [h]; rfl)]
  · rw [if_neg h, if_neg (by rw [List.length_eq_zero]; exact h)]

/-- What `nextPage` returns, called from `Next` where the call stack of the
caller of `Next` is `st`: the fetch resumes at the previous skip plus the
number of frames of the previous page. -/
theorem callersPage.nextPage_eq (m : CaptureFrames) (st : List Frame) (c : callersPage)
    (k : Nat) (hk : c.skip = (k : Int)) (hr : k + c.frames.length + 4 < 2 ^ 63) :
    c.nextPage m (m.pageNext :: st) =
      if (st.drop (k + c.frames.length)).take framePageSize = [] then
        { skip := -2, frames := [], off := 0 }
      else
        { skip := ((k + c.frames.length : Nat) : Int),
          frames := (st.drop (k + c.frames.length)).take framePageSize, off := 0 } := by
  have h0 : wrapInt (c.skip + (c.frames.length : Int)) = c.skip + (c.frames.length : Int) :=
    wrapInt_of_inRange _ (by omega) (by omega)
  have h1 : wrapInt (c.skip + (c.frames.length : Int) + 2) =
      ((k + c.frames.length + 2 : Nat) : Int) := by
    rw [wrapInt_of_inRange _ (by omega) (by omega), hk]
    push_cast
    ring
  simp only [callersPage.nextPage, h0, h1, newCallersPage_eq m _ _ hr, List.drop_succ_cons]
  by_cases h : (st.drop (k + c.frames.length)).take framePageSize = []
  · simp only [if_pos h]
    rfl
  · simp only [if_neg h]
    congr 1
    rw [wrapInt_of_inRange _ (by omega) (by omega)]
    push_cast
    ring

/-- One call of `callersPage.Next` on a non-empty page that holds the frames
of `st` from index `k` on. -/
theorem callersPage.Next_spec (m : CaptureFrames) (st : List Frame) (c : callersPage)
    (k : Nat) (hk : c.skip = (k : Int)) (hr : k + c.frames.length + 4 < 2 ^ 63)
    (hne : c.frames ≠ []) (hoff : c.off ≤ c.frames.length) :
    (c.off < c.frames.length ∧ ∃ x, c.frames[c.off]? = some x ∧
        callersPage.Next m st c = some (x, { c with off := c.off + 1 }, true)) ∨
      (c.off = c.frames.length ∧
        (st.drop (k + c.frames.length)).take framePageSize = [] ∧
        callersPage.Next m st c = some (0, { skip := 0, frames := [], off := 0 }, false)) ∨
      (c.off = c.frames.length ∧ ∃ x,
        ((st.drop (k + c.frames.length)).take framePageSize)[0]? = some x ∧
        callersPage.Next m st c =
          some (x, { skip := ((k + c.frames.length : Nat) : Int),
                     frames := (st.drop (k + c.frames.length)).take framePageSize,
                     off := 1 }, true)) := by
  have hlen : c.frames.length ≠ 0 := by rw [Ne, List.length_eq_zero]; exact hne
  by_cases hex : c.frames.length = c.off
  · right
    rw [callersPage.Next, if_neg hlen, if_pos hex, callersPage.nextPage_eq m st c k hk hr]
    by_cases hnil : (st.drop (k + c.frames.length)).take framePageSize = []
    · left
      refine ⟨hex.symm, hnil, ?_⟩
      rw [if_pos hnil, callersPage.Next]
      simp only [List.length_nil, if_true]
    · right
      refine ⟨hex.symm, ?_⟩
      have hlen2 : ((st.drop (k + c.frames.length)).take framePageSize).length ≠ 0 := by
        rw [Ne, List.length_eq_zero]; exact hnil
      have hpos : 0 < ((st.drop (k + c.frames.length)).take framePageSize).length := by omega
      refine ⟨_, List.getElem?_eq_getElem hpos, ?_⟩
      rw [if_neg hnil, callersPage.Next]
      simp only [if_neg hlen2, List.getElem?_eq_getElem hpos]
  · left
    have hlt : c.off < c.frames.length := by omega
    refine ⟨hlt, _, List.getElem?_eq_getElem hlt, ?_⟩
    rw [callersPage.Next, if_neg hlen, if_neg hex]
    simp only [List.getElem?_eq_getElem hlt]

/-- A frame read from the page that starts at index `b` of `D` is the next
frame of `D`. -/
theorem take_succ_of_page (D : List Frame) (b o : Nat) (x : Frame)
    (h : ((D.drop b).take framePageSize)[o]? = some x) :
    D.take (b + o + 1) = D.take (b + o) ++ [x] ∧ b + o + 1 ≤ D.length := by
  have hx : D[b + o]? = some x := by
    rw [List.getElem?_take] at h
    split at h
    · rw [List.getElem?_drop] at h; exact h
    · cases h
  have hlt : b + o < D.length := by
    by_contra hge
    rw [List.getElem?_eq_none (by omega)] at hx
    cases hx
  refine ⟨?_, by omega⟩
  rw [List.take_succ, hx]
  rfl

/-- One call of `callers.Next` inside `NewStack`: either the capture is over,
every frame of the target list delivered, or one more frame is delivered. -/
theorem callers.Next_step (m : CaptureFrames) (live : List Frame) (skip : Nat)
    (hlive : live.length + 16 < 2 ^ 63)
    (c : callers) (j : Nat) (hinv : captureInv (live.drop skip) skip c j) :
    (callers.Next m (m.NewStack :: live) c = some (0, c, false) ∧
        j = (live.drop skip).length) ∨
      ∃ x c1, callers.Next m (m.NewStack :: live) c = some (x, c1, true) ∧
        captureInv (live.drop skip) skip c1 (j + 1) := by
  obtain ⟨hscan, hj, hpage⟩ := hinv
  have hDlen : (live.drop skip).length = live.length - skip := List.length_drop _ _
  have hgrow : ¬ (c.scanned.length % framePageSize = 0 ∧
      (c.scanned.length : Int) + framePageSize > maxInt) := by
    have hl : c.scanned.length = j := by
      rw [hscan, List.length_take]
      omega
    unfold maxInt framePageSize
    omega
  rcases hpage with ⟨hnil, hdone⟩ | ⟨b, hk, hfr, hne, hoff, hjb⟩
  · left
    refine ⟨?_, hdone⟩
    have h0 : c.page.frames.length = 0 := by rw [hnil]; rfl
    simp only [callers.Next]
    rw [callersPage.Next, if_pos h0]
    simp
  · have hdrop : ∀ n : Nat, (m.callersNext :: m.NewStack :: live).drop (skip + 2 + b + n) =
        (live.drop skip).drop (b + n) := by
      intro n
      have h2 : skip + 2 + b + n = (skip + b + n) + 1 + 1 := by omega
      rw [h2, List.drop_succ_cons, List.drop_succ_cons, List.drop_drop]
      congr 1
      omega
    have hfl : c.page.frames.length ≤ (live.drop skip).length - b := by
      rw [hfr, List.length_take, List.length_drop]
      omega
    have hpos : 0 < c.page.frames.length := List.length_pos.mpr hne
    have hr : skip + 2 + b + c.page.frames.length + 4 < 2 ^ 63 := by omega
    rcases callersPage.Next_spec m (m.callersNext :: m.NewStack :: live) c.page
        (skip + 2 + b) hk hr hne hoff with
      ⟨hlt, x, hx, hnext⟩ | ⟨hex, hempty, hnext⟩ | ⟨hex, x, hx, hnext⟩
    · right
      rw [hfr] at hx
      obtain ⟨htake, hle⟩ := take_succ_of_page (live.drop skip) b c.page.off x hx
      refine ⟨x, { scanned := c.scanned ++ [x], page := { c.page with off := c.page.off + 1 } },
        ?_, ?_, ?_, ?_⟩
      · simp only [callers.Next, hnext, if_true, if_neg hgrow]
      · simp only [hscan, hjb, htake]
      · omega
      · right
        exact ⟨b, hk, hfr, hne, by simp only; omega, by simp only; omega⟩
    · left
      constructor
      · simp only [callers.Next, hnext, Bool.false_eq_true, if_false]
      · rw [hdrop, List.take_eq_nil_iff] at hempty
        rcases hempty with h16 | hd
        · exact absurd h16 (by decide)
        · rw [List.drop_eq_nil_iff] at hd
          omega
    · right
      rw [hdrop] at hx hnext
      have hbj : b + c.page.frames.length = j := by omega
      rw [hbj] at hx hnext
      obtain ⟨htake, hle⟩ := take_succ_of_page (live.drop skip) j 0 x hx
      refine ⟨x,
        { scanned := c.scanned ++ [x],
          page := { skip := ((skip + 2 + b + c.page.frames.length : Nat) : Int),
                    frames := ((live.drop skip).drop j).take framePageSize, off := 1 } },
        ?_, ?_, ?_, ?_⟩
      · simp only [callers.Next, hnext, if_true, if_neg hgrow]
      · simp only [hscan]
        exact htake.symm
      · exact hle
      · right
        refine ⟨j, ?_, rfl, ?_, ?_, rfl⟩
        · simp only
          congr 1
          omega
        · simp only
          intro hnil
          rw [hnil] at hx
          cases hx
        · simp only
          have hpos : ((live.drop skip).drop j).take framePageSize ≠ [] := by
            intro hnil
            rw [hnil] at hx
            cases hx
          have := List.length_pos.mpr hpos
          omega

/-- The capture loop, started in a state that has delivered `j` frames, ends
with the whole target list once the fuel covers the frames still to come and
the last, unsuccessful call of `Next`. -/
theorem NewStack.loop_spec (m : CaptureFrames) (live : List Frame) (skip : Nat)
    (hlive : live.length + 16 < 2 ^ 63) :
    ∀ (fuel : Nat) (c : callers) (j : Nat), captureInv (live.drop skip) skip c j →
      (live.drop skip).length - j + 1 ≤ fuel →
      NewStack.loop m (m.NewStack :: live) fuel c = some (live.drop skip) := by
  intro fuel
  induction fuel with
  | zero => intro c j _ hf; omega
  | succ fuel ih =>
    intro c j hinv hf
    rcases callers.Next_step m live skip hlive c j hinv with
      ⟨hnext, hdone⟩ | ⟨x, c1, hnext, hinv1⟩
    · simp only [NewStack.loop, hnext, Bool.false_eq_true, if_false, callers.Frames]
      rw [hinv.1, hdone, List.take_length]
    · have hle : j + 1 ≤ (live.drop skip).length := hinv1.2.1
      simp only [NewStack.loop, hnext, if_true]
      exact ih c1 (j + 1) hinv1 (by omega)

/-- The state built by `newCallers` inside `NewStack` has delivered nothing
and holds the first page of the target list. -/
theorem newCallers_inv (m : CaptureFrames) (live : List Frame) (skip : Nat)
    (hskip : skip + 4 < 2 ^ 63) :
    captureInv (live.drop skip) skip
      (newCallers m (m.NewStack :: live) ((skip : Int) + 1)) 0 := by
  have h0 : wrapInt ((skip : Int) + 1 + 1) = ((skip + 1 + 1 : Nat) : Int) := by
    rw [wrapInt_of_inRange _ (by omega) (by omega)]
    push_cast
    ring
  simp only [newCallers, h0, newCallersPage_eq m _ (skip + 1 + 1) (by omega),
    List.drop_succ_cons]
  by_cases hnil : (live.drop skip).take framePageSize = []
  · rw [if_pos hnil]
    refine ⟨rfl, Nat.zero_le _, Or.inl ⟨rfl, ?_⟩⟩
    rw [List.take_eq_nil_iff] at hnil
    rcases hnil with h16 | hd
    · exact absurd h16 (by decide)
    · rw [hd]; rfl
  · rw [if_neg hnil]
    exact ⟨rfl, Nat.zero_le _, Or.inr ⟨0, rfl, rfl, hnil, Nat.zero_le _, rfl⟩⟩

/-- `NewStack(skip)` returns the call stack of its caller without the `skip`
innermost frames, for a `skip` from 0 to the largest `int` less 4 and any fuel
above the number of frames to deliver. -/
theorem NewStack_returns (m : CaptureFrames) (live : List Frame) (skip fuel : Nat)
    (hskip : skip + 4 < 2 ^ 63) (hlive : live.length + 16 < 2 ^ 63)
    (hfuel : (live.drop skip).length + 1 ≤ fuel) :
    NewStack m fuel live (skip : Int) = some (live.drop skip) := by
  unfold NewStack
  rw [wrapInt_of_inRange _ (by omega) (by omega)]
  exact NewStack.loop_spec m live skip hlive fuel _ 0 (newCallers_inv m live skip hskip)
    (by omega)

/-! ## The capture under a wrapped `skip` -/

/-- Under an argument of `runtime.Callers` that has wrapped around below
zero, nothing is skipped: `newCallersPage` returns the innermost frames of the
call stack, the frame of `runtime.Callers` and its own first. -/
theorem newCallersPage_wrapped (m : CaptureFrames) (live : List Frame) (skip : Int)
    (hneg : wrapInt (skip + 2) < 0) :
    newCallersPage m live skip =
      { skip := skip,
        frames := (m.Callers :: m.newCallersPage :: live).take framePageSize, off := 0 } := by
  have h1 : (wrapInt (skip + 2)).toNat = 0 := by omega
  have h2 : ((m.Callers :: m.newCallersPage :: live).take framePageSize).length ≠ 0 := by
    simp [framePageSize]
  simp only [newCallersPage, runtimeCallers, h1, List.drop_zero, if_neg h2,
    List.take_length]

/-- Under an argument of `runtime.Callers` that wraps around below zero,
`nextPage` fetches the innermost frames of the call stack once more. -/
theorem callersPage.nextPage_wrapped (m : CaptureFrames) (live : List Frame)
    (c : callersPage)
    (hneg : wrapInt (wrapInt (wrapInt (c.skip + c.frames.length) + 2) + 2) < 0) :
    c.nextPage m live =
      { skip := wrapInt (wrapInt (wrapInt (c.skip + c.frames.length) + 2) - 2),
        frames := (m.Callers :: m.newCallersPage :: m.nextPage :: live).take framePageSize,
        off := 0 } := by
  simp only [callersPage.nextPage, newCallersPage_wrapped m _ _ hneg]

/-- Under an argument of `runtime.Callers` that wraps around below zero, a
call of `callersPage.Next` delivers a frame: the page handed back is not
empty, and is either the page of the call with `off` advanced by one or a
newly fetched one of which one frame is handed out. -/
theorem callersPage.Next_page_wrapped (m : CaptureFrames) (st : List Frame) (c : callersPage)
    (hne : c.frames ≠ []) (hoff : c.off ≤ c.frames.length)
    (hneg : c.off = c.frames.length →
      wrapInt (wrapInt (wrapInt (c.skip + c.frames.length) + 2) + 2) < 0) :
    ∃ x p, callersPage.Next m st c = some (x, p, true) ∧ p.frames ≠ [] ∧
      p.off ≤ p.frames.length ∧
      ((p.skip = c.skip ∧ p.off = c.off + 1) ∨
        (c.off = c.frames.length ∧ p.off = 1 ∧
          p.skip = wrapInt (wrapInt (wrapInt (c.skip + c.frames.length) + 2) - 2))) := by
  have hlen : c.frames.length ≠ 0 := by rw [Ne, List.length_eq_zero]; exact hne
  by_cases hex : c.frames.length = c.off
  · have hfr : ((m.Callers :: m.newCallersPage :: m.nextPage :: m.pageNext :: st).take
        framePageSize) = m.Callers ::
          ((m.newCallersPage :: m.nextPage :: m.pageNext :: st).take 15) := rfl
    rw [callersPage.Next, if_neg hlen, if_pos hex,
      callersPage.nextPage_wrapped m _ c (hneg hex.symm), callersPage.Next]
    simp only [hfr, List.length_cons, Nat.add_one_ne_zero, if_false, List.getElem?_cons_zero]
    exact ⟨_, _, rfl, by simp, by simp, Or.inr ⟨hex.symm, rfl, rfl⟩⟩
  · have hlt : c.off < c.frames.length := by omega
    rw [callersPage.Next, if_neg hlen, if_neg hex]
    simp only [List.getElem?_eq_getElem hlt]
    exact ⟨_, _, rfl, hne, by simp only; omega, Or.inl ⟨rfl, rfl⟩⟩

/-- Once the first fetch has wrapped around, a call of `callers.Next` either
faults, `c.scanned` having reached the largest length of a slice, or delivers
a frame and leaves the capture in such a state again. -/
theorem callers.Next_wrapped (m : CaptureFrames) (live : List Frame) (c : callers)
    (hinv : wrappedInv c) :
    callers.Next m live c = none ∨
      ∃ x c1, callers.Next m live c = some (x, c1, true) ∧ wrappedInv c1 := by
  obtain ⟨hne, hoff, hsum, hscan⟩ := hinv
  have hneg : c.page.off = c.page.frames.length →
      wrapInt (wrapInt (wrapInt (c.page.skip + c.page.frames.length) + 2) + 2) < 0 := by
    intro h
    rw [h] at hsum
    unfold wrapInt at hsum ⊢
    omega
  obtain ⟨x, p, hnext, hpne, hpoff, hp⟩ :=
    callersPage.Next_page_wrapped m (m.callersNext :: live) c.page hne hoff hneg
  by_cases hgrow : c.scanned.length % framePageSize = 0 ∧
      (c.scanned.length : Int) + framePageSize > maxInt
  · left
    simp only [callers.Next, hnext, if_true, if_pos hgrow]
  · right
    refine ⟨x, { scanned := c.scanned ++ [x], page := p }, ?_, hpne, hpoff, ?_, ?_⟩
    · simp only [callers.Next, hnext, if_true, if_neg hgrow]
    · simp only [List.length_append, List.length_singleton]
      rcases hp with ⟨h1, h2⟩ | ⟨h0, h1, h2⟩
      · rw [h1, h2]
        unfold wrapInt at hsum ⊢
        push_cast
        omega
      · rw [h1, h2]
        rw [h0] at hsum
        unfold wrapInt at hsum ⊢
        push_cast
        omega
    · simp only [List.length_append, List.length_singleton]
      unfold maxInt framePageSize at hgrow
      push_cast
      omega

/-- Once the first fetch has wrapped around, the capture loop does not
return, whatever the fuel. -/
theorem NewStack.loop_wrapped (m : CaptureFrames) (live : List Frame) :
    ∀ (fuel : Nat) (c : callers), wrappedInv c → NewStack.loop m live fuel c = none := by
  intro fuel
  induction fuel with
  | zero => intro c _; rfl
  | succ fuel ih =>
    intro c hinv
    rcases callers.Next_wrapped m live c hinv with hnone | ⟨x, c1, hnext, hinv1⟩
    · simp only [NewStack.loop, hnone]
    · simp only [NewStack.loop, hnext, if_true]
      exact ih c1 hinv1

/-- `NewStack(skip)` does not return when `skip + 4`, the argument of the
first `runtime.Callers` call, wraps around to one of the eleven lowest values
of `int`: for a `skip` among the four largest values of `int` in particular. -/
theorem NewStack_wrapped (m : CaptureFrames) (live : List Frame) (skip : Int) (fuel : Nat)
    (h : wrapInt (skip + 4) ≤ -(2 ^ 63) + 10) :
    NewStack m fuel live skip = none := by
  unfold NewStack
  apply NewStack.loop_wrapped
  have hneg : wrapInt (wrapInt (wrapInt (skip + 1) + 1) + 2) < 0 := by
    unfold wrapInt at h ⊢
    omega
  have hfr : ((m.Callers :: m.newCallersPage :: m.newCallers :: m.NewStack :: live).take
      framePageSize) = m.Callers ::
        ((m.newCallersPage :: m.newCallers :: m.NewStack :: live).take 15) := rfl
  simp only [newCallers, newCallersPage_wrapped m _ _ hneg, hfr]
  refine ⟨by simp, Nat.zero_le _, ?_, ?_⟩
  · simp only [List.length_nil]
    unfold wrapInt at h ⊢
    push_cast
    omega
  · simp only [List.length_nil]
    norm_num

/-! ## The capture under any `skip` that does not wrap around -/

/-- What `newCallersPage` returns when its sum does not wrap around: an empty
page, or a page with the given `skip` that ends within the call stack. -/
theorem newCallersPage_scan (m : CaptureFrames) (live : List Frame) (skip : Int)
    (hlo : -(2 ^ 63) ≤ skip + 2) (hhi : skip + 2 < 2 ^ 63) :
    (newCallersPage m live skip).off = 0 ∧
      ((newCallersPage m live skip).frames = [] ∨
        ((newCallersPage m live skip).skip = skip ∧
          skip + 2 + (newCallersPage m live skip).frames.length ≤ live.length + 2)) := by
  have h0 : wrapInt (skip + 2) = skip + 2 := wrapInt_of_inRange _ hlo hhi
  simp only [newCallersPage, runtimeCallers, h0, List.take_length]
  by_cases h : ((List.drop (skip + 2).toNat
      (m.Callers :: m.newCallersPage :: live)).take framePageSize).length = 0
  · rw [if_pos h]
    exact ⟨rfl, Or.inl rfl⟩
  · rw [if_neg h]
    refine ⟨rfl, Or.inr ⟨rfl, ?_⟩⟩
    simp only [List.length_take, List.length_drop, List.length_cons] at h ⊢
    omega

/-- One call of `callersPage.Next` when no sum wraps around: the capture is
over, or a frame is delivered and `skip` and `off` together have advanced by
one. -/
theorem callersPage.Next_page_scan (m : CaptureFrames) (st : List Frame) (c : callersPage)
    (hK : (st.length : Int) + 4 < 2 ^ 63)
    (hinv : c.frames = [] ∨ (c.off ≤ c.frames.length ∧ -(2 ^ 63 : Int) ≤ c.skip ∧
      c.skip + c.frames.length + 4 ≤ (st.length : Int) + 4)) :
    (∃ p, callersPage.Next m st c = some (0, p, false)) ∨
      ∃ x p, callersPage.Next m st c = some (x, p, true) ∧ c.frames ≠ [] ∧
        p.frames ≠ [] ∧ p.off ≤ p.frames.length ∧ -(2 ^ 63 : Int) ≤ p.skip ∧
        p.skip + p.frames.length + 4 ≤ (st.length : Int) + 4 ∧
        p.skip + p.off = c.skip + c.off + 1 := by
  rcases hinv with hnil | ⟨hoff, hlo, hhi⟩
  · left
    have h0 : c.frames.length = 0 := by rw [hnil]; rfl
    rw [callersPage.Next, if_pos h0]
    exact ⟨_, rfl⟩
  · by_cases hlen : c.frames.length = 0
    · left
      rw [callersPage.Next, if_pos hlen]
      exact ⟨_, rfl⟩
    · have hne : c.frames ≠ [] := by rw [Ne, ← List.length_eq_zero]; exact hlen
      by_cases hex : c.frames.length = c.off
      · have h0 : wrapInt (c.skip + (c.frames.length : Int)) =
            c.skip + (c.frames.length : Int) := wrapInt_of_inRange _ (by omega) (by omega)
        have h1 : wrapInt (c.skip + (c.frames.length : Int) + 2) =
            c.skip + (c.frames.length : Int) + 2 := wrapInt_of_inRange _ (by omega) (by omega)
        obtain ⟨hpoff, hp⟩ := newCallersPage_scan m (m.nextPage :: m.pageNext :: st)
          (c.skip + (c.frames.length : Int) + 2) (by omega) (by omega)
        rw [callersPage.Next, if_neg hlen, if_pos hex]
        simp only [callersPage.nextPage, h0, h1]
        generalize newCallersPage m (m.nextPage :: m.pageNext :: st)
          (c.skip + (c.frames.length : Int) + 2) = q at hpoff hp
        rcases hp with hq | ⟨hqs, hql⟩
        · left
          have hq0 : q.frames.length = 0 := by rw [hq]; rfl
          rw [callersPage.Next, if_pos hq0]
          exact ⟨_, rfl⟩
        · by_cases hq0 : q.frames.length = 0
          · left
            rw [callersPage.Next, if_pos hq0]
            exact ⟨_, rfl⟩
          · right
            have hqpos : 0 < q.frames.length := by omega
            have hw : wrapInt (q.skip - 2) = c.skip + (c.frames.length : Int) := by
              rw [hqs, wrapInt_of_inRange _ (by omega) (by omega)]
              omega
            rw [callersPage.Next]
            simp only [hw, hpoff, if_neg hq0, if_neg (Ne.symm (Nat.ne_of_lt hqpos)),
              List.getElem?_eq_getElem hqpos]
            refine ⟨_, _, rfl, hne, ?_, ?_, ?_, ?_, ?_⟩
            · rw [Ne, ← List.length_eq_zero]; exact hq0
            · simp only; omega
            · simp only; omega
            · simp only [List.length_cons] at hql ⊢
              omega
            · simp only
              push_cast
              omega
      · right
        have hlt : c.off < c.frames.length := by omega
        rw [callersPage.Next, if_neg hlen, if_neg hex]
        simp only [List.getElem?_eq_getElem hlt]
        exact ⟨_, _, rfl, hne, hne, by simp only; omega, hlo, hhi,
          by simp only; push_cast; omega⟩

/-- One call of `callers.Next` when no sum wraps around and `c.scanned` can
still grow: the capture is over, or a frame is delivered. -/
theorem callers.Next_scan (m : CaptureFrames) (live : List Frame) (c : callers)
    (hK : (live.length : Int) + 5 < 2 ^ 63)
    (hinv : scanInv ((live.length : Int) + 5) c)
    (hmem : (c.scanned.length : Int) + 16 ≤ maxInt) :
    callers.Next m live c = some (0, c, false) ∨
      ∃ x c1, callers.Next m live c = some (x, c1, true) ∧ c.page.frames ≠ [] ∧
        c1.page.frames ≠ [] ∧ scanInv ((live.length : Int) + 5) c1 ∧
        c1.page.skip + c1.page.off = c.page.skip + c.page.off + 1 ∧
        c1.scanned.length = c.scanned.length + 1 := by
  have hgrow : ¬ (c.scanned.length % framePageSize = 0 ∧
      (c.scanned.length : Int) + framePageSize > maxInt) := by
    unfold maxInt at hmem ⊢
    unfold framePageSize
    omega
  have hinv1 : c.page.frames = [] ∨ (c.page.off ≤ c.page.frames.length ∧
      -(2 ^ 63 : Int) ≤ c.page.skip ∧ c.page.skip + c.page.frames.length + 4 ≤
        ((m.callersNext :: live).length : Int) + 4) := by
    rcases hinv with h | ⟨h1, h2, h3⟩
    · exact Or.inl h
    · refine Or.inr ⟨h1, h2, ?_⟩
      simp only [List.length_cons]
      push_cast
      omega
  rcases callersPage.Next_page_scan m (m.callersNext :: live) c.page
      (by simp only [List.length_cons]; push_cast; omega) hinv1 with
    ⟨p, hnext⟩ | ⟨x, p, hnext, hcne, hpne, hpoff, hplo, hphi, hpsum⟩
  · left
    simp only [callers.Next, hnext, Bool.false_eq_true, if_false]
  · right
    refine ⟨x, { scanned := c.scanned ++ [x], page := p }, ?_, hcne, hpne, ?_, hpsum, ?_⟩
    · simp only [callers.Next, hnext, if_true, if_neg hgrow]
    · refine Or.inr ⟨hpoff, hplo, ?_⟩
      simp only [List.length_cons] at hphi
      push_cast at hphi
      simp only
      omega
    · simp only [List.length_append, List.length_singleton]

/-- The capture loop returns when no sum wraps around, within as many calls
of `Next` as there are positions left between the page and the root of the
call stack. -/
theorem NewStack.loop_scan (m : CaptureFrames) (live : List Frame)
    (hK : (live.length : Int) + 5 < 2 ^ 63) :
    ∀ (fuel : Nat) (c : callers), scanInv ((live.length : Int) + 5) c →
      1 ≤ fuel →
      (c.page.frames ≠ [] →
        (live.length : Int) + 5 - (c.page.skip + c.page.off) + 1 ≤ fuel ∧
        (c.scanned.length : Int) + ((live.length : Int) + 5 - (c.page.skip + c.page.off)) +
          16 ≤ maxInt) →
      (c.scanned.length : Int) + 16 ≤ maxInt →
      ∃ st, NewStack.loop m live fuel c = some st := by
  intro fuel
  induction fuel with
  | zero => intro c _ h1; omega
  | succ fuel ih =>
    intro c hinv _ hres hmem
    rcases callers.Next_scan m live c hK hinv hmem with
      hnext | ⟨x, c1, hnext, hcne, hc1ne, hinv1, hsum, hlen⟩
    · simp only [NewStack.loop, hnext, Bool.false_eq_true, if_false]
      exact ⟨_, rfl⟩
    · obtain ⟨hf, hm⟩ := hres hcne
      have hbound : c1.page.skip + c1.page.off + 4 ≤ (live.length : Int) + 5 := by
        rcases hinv1 with h | ⟨h1, h2, h3⟩
        · exact absurd h hc1ne
        · have : (c1.page.off : Int) ≤ c1.page.frames.length := by exact_mod_cast h1
          omega
      simp only [NewStack.loop, hnext, if_true]
      apply ih c1 hinv1
      · omega
      · intro _
        constructor
        · rw [hsum]; omega
        · rw [hsum, hlen]; push_cast; omega
      · rw [hlen]
        push_cast
        have : (0 : Int) ≤ (live.length : Int) + 5 - (c.page.skip + c.page.off) := by
          rw [hsum] at hbound
          omega
        omega

/-- `NewStack(skip)` returns for every `skip` up to the largest `int` less 4,
negative ones included, given fuel for the positions between `skip` and the
root of the call stack and room for as many frames in `c.scanned`. -/
theorem NewStack_terminates (m : CaptureFrames) (live : List Frame) (skip : Int)
    (fuel : Nat) (hhi : skip + 4 ≤ maxInt)
    (hmem : (live.length : Int) + 22 + max 0 (-skip) ≤ maxInt)
    (hfuel : (live.length : Int) + 6 + max 0 (-skip) ≤ fuel) :
    ∃ st, NewStack m fuel live skip = some st := by
  unfold maxInt at hhi hmem
  have h0 : wrapInt (skip + 1) = skip + 1 := wrapInt_of_inRange _ (by omega) (by omega)
  have h1 : wrapInt (skip + 1 + 1) = skip + 1 + 1 :=
    wrapInt_of_inRange _ (by omega) (by omega)
  obtain ⟨hpoff, hp⟩ := newCallersPage_scan m (m.newCallers :: m.NewStack :: live)
    (skip + 1 + 1) (by omega) (by omega)
  unfold NewStack
  simp only [newCallers, h0, h1]
  generalize newCallersPage m (m.newCallers :: m.NewStack :: live) (skip + 1 + 1) = q
    at hpoff hp
  have hlen : ((m.NewStack :: live).length : Int) = (live.length : Int) + 1 := by
    simp only [List.length_cons]
    push_cast
    rfl
  apply NewStack.loop_scan m (m.NewStack :: live) (by rw [hlen]; omega) fuel
  · rcases hp with hq | ⟨hqs, hql⟩
    · exact Or.inl hq
    · refine Or.inr ⟨by simp only; omega, by simp only; omega, ?_⟩
      simp only [List.length_cons] at hql ⊢
      push_cast at hql ⊢
      omega
  · omega
  · intro _
    simp only [List.length_nil, hpoff]
    rcases hp with hq | ⟨hqs, hql⟩
    · rename_i hne
      exact absurd hq hne
    · rw [hlen]
      simp only [hqs]
      unfold maxInt
      push_cast
      omega
  · simp only [List.length_nil]
    unfold maxInt
    norm_num

/-! ## Claims about stack capture -/

/-- C15 fails as stated: for `skip` at the largest `int`, which is at least
the depth of any call stack, `NewStack(skip)` does not return the empty stack.
The sums `skip + 1`, `skip + 2` and `skip + 4` on the way to `runtime.Callers`
wrap around to the lowest values of `int`, `runtime.Callers` then skips nothing
and every page holds the innermost frames of the call stack again, so the loop
does not return, whatever the fuel. -/
theorem capture_at_max_skip_does_not_return :
    ¬ ∃ (fuel : Nat) (st : Stack),
      NewStack ⟨100, 101, 102, 103, 104, 105, 106⟩ fuel [1, 2, 3] maxInt = some st := by
  rintro ⟨fuel, st, h⟩
  rw [NewStack_wrapped _ _ maxInt fuel (by decide)] at h
  cases h

/-- C15, amended: with the runtime handing out at most 16 frames of a finite
call stack from a given skip offset, `NewStack(skip)` called where the call
stack is `live`, for a `skip` from 0 to the largest `int` less 4, terminates
(any fuel above the number of frames to deliver is enough) and returns exactly
`live` without its `skip` innermost frames, in order, for every depth of
`live`; this is what one `runtime.Callers` call of `NewStack` with a buffer as
large as the stack would fill in; the result is empty when `skip` is at least
the depth; and each page fetch resumes at the previous skip plus the number of
frames of the previous page.  For a `skip` among the four largest values of
`int` the argument of `runtime.Callers` wraps around and `NewStack` does not
return. -/
theorem paged_capture_equals_unbounded (m : CaptureFrames) (live : List Frame)
    (skip fuel : Nat) (hskip : (skip : Int) + 4 ≤ maxInt)
    (hlive : (live.length : Int) + 16 ≤ maxInt)
    (hfuel : (live.drop skip).length + 1 ≤ fuel) :
    NewStack m fuel live (skip : Int) = some (live.drop skip) ∧
      (∀ size, live.length ≤ size →
        runtimeCallers (m.Callers :: m.NewStack :: live) ((skip : Int) + 2) size =
          live.drop skip) ∧
      (live.length ≤ skip → NewStack m fuel live (skip : Int) = some []) ∧
      (∀ (st : List Frame) (c : callersPage) (k : Nat), c.skip = (k : Int) →
        (k : Int) + c.frames.length + 4 ≤ maxInt →
        (c.nextPage m (m.pageNext :: st)).frames =
          (st.drop (k + c.frames.length)).take framePageSize) ∧
      (∀ (large : Int) (fuel1 : Nat), maxInt - 3 ≤ large → large ≤ maxInt →
        NewStack m fuel1 live large = none) := by
  unfold maxInt at hskip hlive
  have hmain : NewStack m fuel live (skip : Int) = some (live.drop skip) :=
    NewStack_returns m live skip fuel (by omega) (by omega) hfuel
  refine ⟨hmain, ?_, ?_, ?_, ?_⟩
  · intro size hsize
    have h1 : ((skip : Int) + 2).toNat = skip + 1 + 1 := by omega
    simp only [runtimeCallers, h1, List.drop_succ_cons]
    apply List.take_of_length_le
    rw [List.length_drop]
    omega
  · intro hskip
    rw [hmain, List.drop_eq_nil_iff.mpr hskip]
  · intro st c k hk hr
    unfold maxInt at hr
    rw [callersPage.nextPage_eq m st c k hk (by omega)]
    split
    · next h => rw [h]
    · rfl
  · intro large fuel1 h1 h2
    apply NewStack_wrapped
    unfold maxInt at h1 h2
    unfold wrapInt
    omega

/-- C15, amended, at a concrete input: a call stack of 28 frames captured with
skip 1, 27 frames delivered over two pages. -/
theorem paged_capture_equals_unbounded_witness :
    NewStack ⟨100, 101, 102, 103, 104, 105, 106⟩ 28 (List.range 28) ((1 : Nat) : Int) =
        some ((List.range 28).drop 1) ∧
      ((List.range 28).drop 1).length = 27 :=
  ⟨(paged_capture_equals_unbounded ⟨100, 101, 102, 103, 104, 105, 106⟩ (List.range 28) 1 28
      (by decide) (by decide) (by decide)).1,
    by decide⟩

/-- C18, amended, at a concrete input: a sentinel wrapped where the captured
stack would be `[7, 8, 9]`. -/
theorem wrapSentinel_is_stackless_wrapper_witness :
    ∃ w, WrapSentinel (some (NewSentinel "base")) "wrapper" = some w ∧
      w.asMessager = some "wrapper" ∧ w.asUnwrapper = some (some (NewSentinel "base")) ∧
      w.asStacker = some [] ∧
      (∀ e, newSimple (fun _ => [7, 8, 9]) "wrapper" (some (NewSentinel "base")) = some e →
        e.asMessager = some "wrapper" ∧ e.Error = w.Error) :=
  wrapSentinel_is_stackless_wrapper (some (NewSentinel "base")) "wrapper" (fun _ => [7, 8, 9])

/-! ## Claims about recovered faults -/

/-- The stack capture of `NewPanicError` where the call stack of its caller
is `live` and its own frame is `self`, for a `skipStack` up to the largest
`int` less 8: it returns, given fuel for the positions between the skip and
the root of the call stack and room for as many frames in `c.scanned`; and
from `skipStack = -4` on, where the argument of `NewStack` is not negative, it
returns the call stack without the frame of `NewPanicError` and the
`skipStack + 3` frames below it. -/
theorem NewPanicError_capture (m : CaptureFrames) (self : Frame) (live : List Frame)
    (fuel : Nat) (skipStack : Int) (hhi : skipStack + 8 ≤ maxInt)
    (hmem : (live.length : Int) + 23 + max 0 (-(1 + skipStack + 3)) ≤ maxInt)
    (hfuel : (live.length : Int) + 7 + max 0 (-(1 + skipStack + 3)) ≤ fuel) :
    ∃ f, NewStack m fuel (self :: live) (wrapInt (wrapInt (1 + skipStack) + 3)) = some f ∧
      (-4 ≤ skipStack → f = (self :: live).drop (1 + skipStack + 3).toNat) := by
  have hhi1 := hhi
  have hmem1 := hmem
  unfold maxInt at hhi1 hmem1
  have h0 : wrapInt (wrapInt (1 + skipStack) + 3) = 1 + skipStack + 3 := by
    rw [wrapInt_of_inRange (1 + skipStack) (by omega) (by omega),
      wrapInt_of_inRange _ (by omega) (by omega)]
  rw [h0]
  by_cases hlo : -4 ≤ skipStack
  · have h1 : 1 + skipStack + 3 = (((1 + skipStack + 3).toNat : Nat) : Int) := by omega
    refine ⟨(self :: live).drop (1 + skipStack + 3).toNat, ?_, fun _ => rfl⟩
    rw [h1]
    have h2 : ((((1 + skipStack + 3).toNat : Nat) : Int)).toNat = (1 + skipStack + 3).toNat := by
      omega
    rw [h2]
    apply NewStack_returns
    · omega
    · simp only [List.length_cons]
      omega
    · simp only [List.length_drop, List.length_cons]
      omega
  · obtain ⟨f, hf⟩ := NewStack_terminates m (self :: live) (1 + skipStack + 3) fuel
      (by unfold maxInt; omega)
      (by simp only [List.length_cons]; push_cast; omega)
      (by simp only [List.length_cons]; push_cast; omega)
    exact ⟨f, hf, fun h => absurd h hlo⟩

/-- `NewPanicError` does not return for a `skipStack` among the eight largest
values of `int`: the argument of `runtime.Callers` wraps around to the bottom
of the `int` range, and the stack capture on it does not return. -/
theorem NewPanicError_wrapped (m : CaptureFrames) (live : List Frame) (fuel : Nat)
    (v : Any) (skipStack : Int) (hlo : maxInt - 7 ≤ skipStack) (hhi : skipStack ≤ maxInt) :
    NewPanicError (NewStack m fuel live) v skipStack = none := by
  have h : NewStack m fuel live (wrapInt (wrapInt (1 + skipStack) + 3)) = none := by
    apply NewStack_wrapped
    unfold maxInt at hlo hhi
    unfold wrapInt
    omega
  cases v <;> simp only [NewPanicError, h]

/-- C19 fails as stated: recovered where the captured stack is `[7, 8, 9]`
(the call stack of the recovering function below the frame `50` of
`NewPanicError` and the three frames of the runtime), the `simple` error with
stack `[1, 2, 3, 8, 9]` is stored with stack `[1, 2, 3]`, so `Unwrap()` of the
panic error is not the recovered value. -/
theorem panic_error_cause_is_trimmed :
    NewPanicError (NewStack ⟨100, 101, 102, 103, 104, 105, 106⟩ 20 [50, 60, 61, 62, 7, 8, 9])
        (Any.err (Err.simple "inner" none [1, 2, 3, 8, 9])) 0 =
        some (Err.simple "panic" (some (Err.simple "inner" none [1, 2, 3])) [7, 8, 9]) ∧
      (Err.simple "panic" (some (Err.simple "inner" none [1, 2, 3])) [7, 8, 9]).asUnwrapper ≠
        some (some (Err.simple "inner" none [1, 2, 3, 8, 9])) := by
  constructor
  · obtain ⟨f, h, hf⟩ := NewPanicError_capture ⟨100, 101, 102, 103, 104, 105, 106⟩ 50
      [60, 61, 62, 7, 8, 9] 20 0 (by decide) (by decide) (by decide)
    have hd : f = [7, 8, 9] := by rw [hf (by decide)]; decide
    subst hd
    simp only [NewPanicError, h]
    simp [asStackTrimmer, simple.TrimStack, Stack.Trim, Stack.trimLoop,
      Stack.index, Stack.slice, Frame.Equals]
  · simp [Err.asUnwrapper]

/-- C19, amended: for a recovered value `v` that is an error and a `skipStack`
up to the largest `int` less 8, `NewPanicError(v, skipStack)` captures a stack
`f` (given fuel for the positions between the skip and the root of the call
stack), which from `skipStack = -4` on is the call stack without the frame of
`NewPanicError` and the `skipStack + 3` frames below it.  A foreign `v` is
wrapped as a `simple` with message `"panic"`, stack `f` and `Unwrap()` equal to
`v`.  A `simple` or `ValueError` `v` is wrapped as a `simple` with message
`"panic"`, stack `f` and `Unwrap()` equal to `v` with the first component `t`
of `Trim(v.stack, f)` as its stack and with the message, cause, value and text
of `v`, which is `v` itself when `Trim` reports `false`; only under an `f` of
one frame and a non-empty `v.stack` does `Trim`, and with it `NewPanicError`,
fault.  For a `skipStack` among the eight largest values of `int` the capture
does not return. -/
theorem panic_error_wraps_error (m : CaptureFrames) (self : Frame) (live : List Frame)
    (fuel : Nat) (v : Err) (skipStack : Int) (hhi : skipStack + 8 ≤ maxInt)
    (hmem : (live.length : Int) + 23 + max 0 (-(1 + skipStack + 3)) ≤ maxInt)
    (hfuel : (live.length : Int) + 7 + max 0 (-(1 + skipStack + 3)) ≤ fuel) :
    (∃ f, NewStack m fuel (self :: live) (wrapInt (wrapInt (1 + skipStack) + 3)) = some f ∧
      (-4 ≤ skipStack → f = (self :: live).drop (1 + skipStack + 3).toNat) ∧
      (v.asStacker = none →
        NewPanicError (NewStack m fuel (self :: live)) (Any.err v) skipStack =
          some (Err.simple "panic" (some v) f)) ∧
      (∀ st, v.asStacker = some st → ¬ (f.length = 1 ∧ st ≠ []) →
        ∃ t ok stored, Stack.Trim st f = some (t, ok) ∧
          NewPanicError (NewStack m fuel (self :: live)) (Any.err v) skipStack =
            some (Err.simple "panic" (some stored) f) ∧
          stored.asStacker = some t ∧ stored.asMessager = v.asMessager ∧
          stored.asUnwrapper = v.asUnwrapper ∧ stored.asValue = v.asValue ∧
          stored.Error = v.Error ∧ (ok = false → stored = v)) ∧
      (∀ st, v.asStacker = some st → f.length = 1 ∧ st ≠ [] →
        NewPanicError (NewStack m fuel (self :: live)) (Any.err v) skipStack = none)) ∧
    (∀ (large : Int) (fuel1 : Nat), maxInt - 7 ≤ large → large ≤ maxInt →
      NewPanicError (NewStack m fuel1 (self :: live)) (Any.err v) large = none) := by
  obtain ⟨f, hcap, hdrop⟩ := NewPanicError_capture m self live fuel skipStack hhi hmem hfuel
  refine ⟨⟨f, hcap, hdrop, ?_, ?_, ?_⟩,
    fun large fuel1 h1 h2 => NewPanicError_wrapped m (self :: live) fuel1 _ large h1 h2⟩
  · intro hnone
    cases v with
    | simple _ _ _ => simp [Err.asStacker] at hnone
    | value _ _ _ _ => simp [Err.asStacker] at hnone
    | foreign text => simp only [NewPanicError, hcap, asStackTrimmer]
  · intro st hst hf
    obtain ⟨trimStack, htr⟩ := asStackTrimmer_of_asStacker v st hst
    cases hT : Stack.Trim st f with
    | none => exact absurd ((Stack.Trim_eq_none_iff _ _).mp hT) hf
    | some r =>
      obtain ⟨t, ok⟩ := r
      obtain ⟨stored, h1, h2, h3, h4, h5, h6, h7⟩ :=
        asStackTrimmer_result v trimStack st _ t ok htr hst hT
      refine ⟨t, ok, stored, rfl, ?_, h2, h3, h4, h5, h6, h7⟩
      simp only [NewPanicError, hcap, htr, h1, Option.map_some']
  · intro st hst hf
    obtain ⟨trimStack, htr⟩ := asStackTrimmer_of_asStacker v st hst
    have hT := (Stack.Trim_eq_none_iff st _).mpr hf
    have h1 := asStackTrimmer_eq v trimStack st htr hst f
    rw [hT] at h1
    simp only [NewPanicError, hcap, htr, h1, Option.map_none']

/-- C19, amended, at a concrete input: a `simple` error five frames deep
recovered where the captured stack is `[7, 8, 9]` is stored with the two
shared root-most frames removed. -/
theorem panic_error_wraps_error_witness :
    ∃ stored,
      NewPanicError
          (NewStack ⟨100, 101, 102, 103, 104, 105, 106⟩ 20 [50, 60, 61, 62, 7, 8, 9])
          (Any.err (Err.simple "inner" none [1, 2, 3, 8, 9])) 0 =
        some (Err.simple "panic" (some stored) [7, 8, 9]) ∧
      stored.asStacker = some [1, 2, 3] ∧
      stored.asMessager = some "inner" ∧ stored.asUnwrapper = some none ∧
      stored.Error = "inner" := by
  obtain ⟨⟨f, _, hdrop, _, hmodel, _⟩, _⟩ :=
    panic_error_wraps_error ⟨100, 101, 102, 103, 104, 105, 106⟩ 50 [60, 61, 62, 7, 8, 9] 20
      (Err.simple "inner" none [1, 2, 3, 8, 9]) 0 (by decide) (by decide) (by decide)
  have hf : f = [7, 8, 9] := by rw [hdrop (by decide)]; decide
  subst hf
  obtain ⟨t, ok, stored, hT, hres, h1, h2, h3, _, h5, _⟩ :=
    hmodel [1, 2, 3, 8, 9] rfl (by decide)
  have hT2 : Stack.Trim [1, 2, 3, 8, 9] [7, 8, 9] = some ([1, 2, 3], true) := by
    simp [Stack.Trim, Stack.trimLoop, Stack.index, Stack.slice, Frame.Equals]
  rw [hT2] at hT
  simp only [Option.some.injEq, Prod.mk.injEq] at hT
  obtain ⟨rfl, rfl⟩ := hT
  exact ⟨stored, hres, h1, h2, h3, h5⟩

/-- C20 fails as stated: for `skipStack` at the largest `int`,
`NewPanicError(123, skipStack)` returns no `ValueError`.  The sum `1 +
skipStack + 3` wraps around to the bottom of the `int` range, `runtime.Callers`
then skips nothing and every page holds the innermost frames of the call stack
again, so the stack capture does not return, whatever the fuel. -/
theorem panic_error_at_max_skip_does_not_return :
    ¬ ∃ (fuel : Nat) (e : Err),
      NewPanicError (NewStack ⟨100, 101, 102, 103, 104, 105, 106⟩ fuel [50, 1, 2, 3])
        (Any.val (Val.int 123)) maxInt = some e := by
  rintro ⟨fuel, e, h⟩
  rw [NewPanicError_wrapped _ _ _ _ maxInt (by decide) (by decide)] at h
  cases h

/-- C20, amended: for every recovered value `x` that is not an error and a
`skipStack` up to the largest `int` less 8, `NewPanicError` returns (given
fuel for the positions between the skip and the root of the call stack) a
`ValueError` with message `"panic"`, no cause, text `"panic"` and `Value()`
equal to `x`; from `skipStack = -4` on its stack is the call stack without the
frame of `NewPanicError` and the `skipStack + 3` frames below it.  For any
`skipStack`, `NewPanicError` returns exactly when its stack capture does.  For
a `skipStack` among the eight largest values of `int` it does not return. -/
theorem panic_error_keeps_value (m : CaptureFrames) (self : Frame) (live : List Frame)
    (fuel : Nat) (x : Val) (skipStack : Int) (hhi : skipStack + 8 ≤ maxInt)
    (hmem : (live.length : Int) + 23 + max 0 (-(1 + skipStack + 3)) ≤ maxInt)
    (hfuel : (live.length : Int) + 7 + max 0 (-(1 + skipStack + 3)) ≤ fuel) :
    (∃ stack,
      NewPanicError (NewStack m fuel (self :: live)) (Any.val x) skipStack =
        some (Err.value "panic" x none stack) ∧
      (-4 ≤ skipStack → stack = (self :: live).drop (1 + skipStack + 3).toNat) ∧
      (Err.value "panic" x none stack).asValue = some x ∧
      (Err.value "panic" x none stack).asMessager = some "panic" ∧
      (Err.value "panic" x none stack).asUnwrapper = some none ∧
      (Err.value "panic" x none stack).Error = "panic") ∧
    (∀ (capture : Int → Option Stack) (skip : Int),
      NewPanicError capture (Any.val x) skip =
        (capture (wrapInt (wrapInt (1 + skip) + 3))).map
          (fun stack => Err.value "panic" x none stack)) ∧
    (∀ (large : Int) (fuel1 : Nat), maxInt - 7 ≤ large → large ≤ maxInt →
      NewPanicError (NewStack m fuel1 (self :: live)) (Any.val x) large = none) := by
  obtain ⟨f, hcap, hdrop⟩ := NewPanicError_capture m self live fuel skipStack hhi hmem hfuel
  refine ⟨⟨f, ?_, hdrop, rfl, rfl, rfl, rfl⟩, ?_,
    fun large fuel1 h1 h2 => NewPanicError_wrapped m (self :: live) fuel1 _ large h1 h2⟩
  · simp only [NewPanicError, hcap]
  · intro capture skip
    simp only [NewPanicError]
    cases capture (wrapInt (wrapInt (1 + skip) + 3)) <;> rfl

/-- C20, amended, at a concrete input: the integer 123 recovered with no
extra frame to skip, where the call stack below the frame `50` of
`NewPanicError` and the three frames of the runtime is `[7, 8, 9]`. -/
theorem panic_error_keeps_value_witness :
    NewPanicError
        (NewStack ⟨100, 101, 102, 103, 104, 105, 106⟩ 20 [50, 60, 61, 62, 7, 8, 9])
        (Any.val (Val.int 123)) 0 =
      some (Err.value "panic" (Val.int 123) none [7, 8, 9]) := by
  obtain ⟨⟨stack, hres, hdrop, _⟩, _⟩ :=
    panic_error_keeps_value ⟨100, 101, 102, 103, 104, 105, 106⟩ 50 [60, 61, 62, 7, 8, 9] 20
      (Val.int 123) 0 (by decide) (by decide) (by decide)
  have hs : stack = [7, 8, 9] := by rw [hdrop (by decide)]; decide
  subst hs
  exact hres

/-! ## The exact behaviour of `Stack.Trim` -/

/-- The closed form of `Stack.Trim` for stacks given with their root-most
frames apart: neither `x` nor `y` occurs on the right-hand side. -/
theorem Stack.Trim_concat (s0 p0 : Stack) (x y : Frame) (hp : 1 ≤ p0.length)
    (hlen : p0.length ≤ s0.length) :
    Stack.Trim (s0 ++ [x]) (p0 ++ [y]) =
      some (s0.take (s0.length + 1 -
        min (1 + commonPrefixLen s0.reverse p0.reverse) p0.length), true) := by
  have h2 : 2 ≤ (p0 ++ [y]).length := by
    simp only [List.length_append, List.length_cons, List.length_nil]; omega
  have hl : (p0 ++ [y]).length ≤ (s0 ++ [x]).length := by
    simp only [List.length_append, List.length_cons, List.length_nil]; omega
  rw [Stack.Trim_loop_branch _ _ h2 hl]
  have hs : (s0 ++ [x]).reverse.drop 1 = s0.reverse := by simp
  have hpr : (p0 ++ [y]).reverse.drop 1 = p0.reverse := by simp
  rw [hs, hpr]
  simp only [List.length_append, List.length_cons, List.length_nil, Nat.add_sub_cancel]
  congr 2
  apply List.take_append_of_le_length
  omega

/-- C24: for `len s ≥ len parent ≥ 2`, `Stack.Trim` returns `trimmed = true`
and `s` without its last `min (1 + m) (len parent - 1)` frames, where `m` is
the number of consecutive positions 2, 3, ... from the root end at which `s`
and `parent` hold equal frames; at least one frame is removed and at least one
remains; and the root-most frames are never compared: replacing them by any
frames `x` and `y` leaves the result as it is. -/
theorem trim_exact_characterisation (s parent : Stack) (h2 : 2 ≤ parent.length)
    (hlen : parent.length ≤ s.length) :
    Stack.Trim s parent =
        some (s.take (s.length -
          min (1 + commonPrefixLen (s.reverse.drop 1) (parent.reverse.drop 1))
            (parent.length - 1)), true) ∧
      1 ≤ min (1 + commonPrefixLen (s.reverse.drop 1) (parent.reverse.drop 1))
        (parent.length - 1) ∧
      1 ≤ (s.take (s.length -
          min (1 + commonPrefixLen (s.reverse.drop 1) (parent.reverse.drop 1))
            (parent.length - 1))).length ∧
      (∀ x y : Frame,
        Stack.Trim (s.dropLast ++ [x]) (parent.dropLast ++ [y]) = Stack.Trim s parent) := by
  refine ⟨Stack.Trim_loop_branch s parent h2 hlen, by omega, ?_, ?_⟩
  · rw [List.length_take]
    omega
  · intro x y
    rcases List.eq_nil_or_concat s with hs | ⟨s0, a, hs⟩
    · subst hs
      simp only [List.length_nil] at hlen
      omega
    · rcases List.eq_nil_or_concat parent with hp | ⟨p0, b, hp⟩
      · subst hp; simp at h2
      · rw [List.concat_eq_append] at hs hp
        subst hs hp
        simp only [List.length_append, List.length_cons, List.length_nil] at h2 hlen
        simp only [List.dropLast_concat]
        rw [Stack.Trim_concat s0 p0 x y (by omega) (by omega),
          Stack.Trim_concat s0 p0 a b (by omega) (by omega)]

/-- C24, at a concrete input: two matching frames above differing root-most
frames, and the same stacks with other root-most frames. -/
theorem trim_exact_characterisation_witness :
    Stack.Trim [1, 2, 3, 8, 9] [7, 8, 5] = some ([1, 2, 3], true) ∧
      (∀ x y : Frame,
        Stack.Trim (([1, 2, 3, 8, 9] : Stack).dropLast ++ [x])
            (([7, 8, 5] : Stack).dropLast ++ [y]) =
          Stack.Trim [1, 2, 3, 8, 9] [7, 8, 5]) :=
  ⟨by simp [Stack.Trim, Stack.trimLoop, Stack.index, Stack.slice, Frame.Equals],
    (trim_exact_characterisation [1, 2, 3, 8, 9] [7, 8, 5] (by decide) (by decide)).2.2.2⟩

/-! ## Claims about the formatting logger -/

/-- Every level method of `formattingLogger` other than `TracefContext`
passes the level of its name to `log`. -/
theorem formattingLogger.named_levels (f : formattingLogger)
    (Sprintf : String → List Val → String) (ctx : Option Nat) (msg : String)
    (args : List Val) :
    f.Trace msg args = f.log none LevelTrace msg args ∧
      f.Debug msg args = f.log none LevelDebug msg args ∧
      f.Info msg args = f.log none LevelInfo msg args ∧
      f.Warn msg args = f.log none LevelWarn msg args ∧
      f.Error msg args = f.log none LevelError msg args ∧
      f.TraceContext ctx msg args = f.log ctx LevelTrace msg args ∧
      f.DebugContext ctx msg args = f.log ctx LevelDebug msg args ∧
      f.InfoContext ctx msg args = f.log ctx LevelInfo msg args ∧
      f.WarnContext ctx msg args = f.log ctx LevelWarn msg args ∧
      f.ErrorContext ctx msg args = f.log ctx LevelError msg args ∧
      f.Tracef Sprintf msg args = f.log none LevelTrace (Sprintf msg args) [] ∧
      f.Debugf Sprintf msg args = f.log none LevelDebug (Sprintf msg args) [] ∧
      f.Infof Sprintf msg args = f.log none LevelInfo (Sprintf msg args) [] ∧
      f.Warnf Sprintf msg args = f.log none LevelWarn (Sprintf msg args) [] ∧
      f.Errorf Sprintf msg args = f.log none LevelError (Sprintf msg args) [] ∧
      f.DebugfContext Sprintf ctx msg args = f.log ctx LevelDebug (Sprintf msg args) [] ∧
      f.InfofContext Sprintf ctx msg args = f.log ctx LevelInfo (Sprintf msg args) [] ∧
      f.WarnfContext Sprintf ctx msg args = f.log ctx LevelWarn (Sprintf msg args) [] ∧
      f.ErrorfContext Sprintf ctx msg args = f.log ctx LevelError (Sprintf msg args) [] :=
  ⟨rfl, rfl, rfl, rfl, rfl, rfl, rfl, rfl, rfl, rfl, rfl, rfl, rfl, rfl, rfl, rfl, rfl, rfl,
    rfl⟩

/-- C25: `TracefContext` does not log at the level of its name.  On a logger
that enables every level it emits its record at `LevelDebug` where `Tracef`
emits at `LevelTrace`; on a logger that enables the levels from `LevelDebug`
up, `Tracef` and `TraceContext` emit nothing while `TracefContext` emits a
record. -/
theorem tracefContext_logs_at_debug_level :
    formattingLogger.TracefContext ⟨fun _ _ => true⟩ (fun t _ => t) (some 1) "t" [] =
        some { ctx := some 1, level := LevelDebug, msg := "t", values := [] } ∧
      formattingLogger.Tracef ⟨fun _ _ => true⟩ (fun t _ => t) "t" [] =
        some { ctx := none, level := LevelTrace, msg := "t", values := [] } ∧
      LevelDebug ≠ LevelTrace ∧
      formattingLogger.Tracef ⟨fun _ l => decide (LevelDebug ≤ l)⟩ (fun t _ => t) "t" [] =
        none ∧
      formattingLogger.TraceContext ⟨fun _ l => decide (LevelDebug ≤ l)⟩ (some 1) "t" [] =
        none ∧
      formattingLogger.TracefContext ⟨fun _ l => decide (LevelDebug ≤ l)⟩ (fun t _ => t)
          (some 1) "t" [] =
        some { ctx := some 1, level := LevelDebug, msg := "t", values := [] } := by
  refine ⟨?_, ?_, ?_, ?_, ?_, ?_⟩ <;> decide

/-! ## Properties of `MergeAttrs` -/

/-- The inner loop keeps the keys of the attributes it finds and adds at most
one key at the end. -/
theorem MergeAttrs.inner_keys (addAttr : slog.Attr)
    (merged : List slog.Attr → List slog.Attr) :
    ∀ l : List slog.Attr, ∃ t : List String,
      (MergeAttrs.inner addAttr merged l).map slog.Attr.Key = l.map slog.Attr.Key ++ t ∧
        t.length ≤ 1
  | [] => ⟨[addAttr.Key], by simp [MergeAttrs.inner]⟩
  | parentAttr :: rest => by
    by_cases hk : parentAttr.Key = addAttr.Key
    · refine ⟨[], ?_, by simp⟩
      simp only [MergeAttrs.inner, if_pos hk, List.map_cons, List.append_nil, List.cons.injEq,
        and_true]
      cases hv : parentAttr.Value with
      | group parentGroup =>
        simp only
        split
        · exact hk.symm
        · exact hk.symm
      | string _ => exact hk.symm
      | int64 _ => exact hk.symm
      | any _ => exact hk.symm
      | error _ => exact hk.symm
    · obtain ⟨t, ht, hlen⟩ := MergeAttrs.inner_keys addAttr merged rest
      refine ⟨t, ?_, hlen⟩
      simp only [MergeAttrs.inner, if_neg hk, List.map_cons, ht, List.cons_append]

/-- The inner loop leaves every attribute with another key where it is. -/
theorem MergeAttrs.inner_unchanged (addAttr : slog.Attr)
    (merged : List slog.Attr → List slog.Attr) :
    ∀ (l : List slog.Attr) (i : Nat) (x : slog.Attr), l[i]? = some x →
      x.Key ≠ addAttr.Key → (MergeAttrs.inner addAttr merged l)[i]? = some x
  | [], i, x, h, _ => by simp at h
  | parentAttr :: rest, 0, x, h, hne => by
    simp only [List.getElem?_cons_zero, Option.some.injEq] at h
    subst h
    simp only [MergeAttrs.inner, if_neg hne, List.getElem?_cons_zero]
  | parentAttr :: rest, i + 1, x, h, hne => by
    simp only [List.getElem?_cons_succ] at h
    by_cases hk : parentAttr.Key = addAttr.Key
    · simp only [MergeAttrs.inner, if_pos hk, List.getElem?_cons_succ, h]
    · simp only [MergeAttrs.inner, if_neg hk, List.getElem?_cons_succ]
      exact MergeAttrs.inner_unchanged addAttr merged rest i x h hne

/-- The inner loop replaces the first attribute that has the key of
`addAttr`: by the group built from the merged groups when both values are
groups, by `addAttr` otherwise. -/
theorem MergeAttrs.inner_first (addAttr : slog.Attr)
    (merged : List slog.Attr → List slog.Attr) :
    ∀ (l : List slog.Attr) (i : Nat) (p : slog.Attr), l[i]? = some p →
      p.Key = addAttr.Key →
      (∀ (j : Nat) (x : slog.Attr), j < i → l[j]? = some x → x.Key ≠ addAttr.Key) →
      (MergeAttrs.inner addAttr merged l)[i]? =
        some (match p.Value with
          | .group parentGroup =>
            if addAttr.Value.isGroup then slog.Group addAttr.Key (merged parentGroup)
            else addAttr
          | _ => addAttr)
  | [], i, p, h, _, _ => by simp at h
  | parentAttr :: rest, 0, p, h, hk, _ => by
    simp only [List.getElem?_cons_zero, Option.some.injEq] at h
    subst h
    simp only [MergeAttrs.inner, if_pos hk, List.getElem?_cons_zero]
  | parentAttr :: rest, i + 1, p, h, hk, hfirst => by
    simp only [List.getElem?_cons_succ] at h
    have h0 : parentAttr.Key ≠ addAttr.Key :=
      hfirst 0 parentAttr (Nat.succ_pos i) (by simp)
    simp only [MergeAttrs.inner, if_neg h0, List.getElem?_cons_succ]
    apply MergeAttrs.inner_first addAttr merged rest i p h hk
    intro j x hj hx
    exact hfirst (j + 1) x (by omega) (by simpa using hx)

/-- One round of the outer loop of `MergeAttrs`. -/
theorem MergeAttrs_cons (current : List slog.Attr) (addAttr : slog.Attr)
    (rest : List slog.Attr) :
    MergeAttrs current (addAttr :: rest) =
      MergeAttrs
        (MergeAttrs.inner addAttr
          (fun parentGroup =>
            match addAttr.Value with
            | .group addGroup => MergeAttrs parentGroup addGroup
            | _ => parentGroup)
          current)
        rest := by
  cases addAttr with
  | mk key value =>
    cases value <;> simp only [MergeAttrs, slog.Attr.Value]

theorem MergeAttrs_append (l1 l2 : List slog.Attr) :
    ∀ current : List slog.Attr,
      MergeAttrs current (l1 ++ l2) = MergeAttrs (MergeAttrs current l1) l2 := by
  induction l1 with
  | nil => intro current; simp only [List.nil_append, MergeAttrs]
  | cons a l1 ih =>
    intro current
    rw [List.cons_append, MergeAttrs_cons, MergeAttrs_cons, ih]

/-- The keys of `current` stay where they are, and at most one key per
attribute of `add` is appended. -/
theorem MergeAttrs_keys (add : List slog.Attr) :
    ∀ current : List slog.Attr, ∃ t : List String,
      (MergeAttrs current add).map slog.Attr.Key = current.map slog.Attr.Key ++ t ∧
        t.length ≤ add.length := by
  induction add with
  | nil => intro current; exact ⟨[], by simp [MergeAttrs], by simp⟩
  | cons a add ih =>
    intro current
    rw [MergeAttrs_cons]
    obtain ⟨t1, h1, hl1⟩ := MergeAttrs.inner_keys a
      (fun parentGroup =>
        match a.Value with
        | .group addGroup => MergeAttrs parentGroup addGroup
        | _ => parentGroup) current
    obtain ⟨t2, h2, hl2⟩ := ih (MergeAttrs.inner a
      (fun parentGroup =>
        match a.Value with
        | .group addGroup => MergeAttrs parentGroup addGroup
        | _ => parentGroup) current)
    refine ⟨t1 ++ t2, ?_, ?_⟩
    · rw [h2, h1, List.append_assoc]
    · simp only [List.length_append, List.length_cons]
      omega

/-- An attribute of `current` whose key occurs nowhere in `add` stays as it
is. -/
theorem MergeAttrs_unchanged (add : List slog.Attr) :
    ∀ (current : List slog.Attr) (i : Nat) (x : slog.Attr), current[i]? = some x →
      (∀ a ∈ add, a.Key ≠ x.Key) → (MergeAttrs current add)[i]? = some x := by
  induction add with
  | nil => intro current i x h _; simpa [MergeAttrs] using h
  | cons a add ih =>
    intro current i x h hne
    rw [MergeAttrs_cons]
    apply ih
    · exact MergeAttrs.inner_unchanged a _ current i x h
        (fun hk => hne a (List.mem_cons_self a add) hk.symm)
    · intro b hb
      exact hne b (List.mem_cons_of_mem a hb)

/-- Key at an index below the length of `current`. -/
theorem MergeAttrs_key_at (current add : List slog.Attr) (i : Nat) (hi : i < current.length) :
    ((MergeAttrs current add)[i]?).map slog.Attr.Key = (current[i]?).map slog.Attr.Key := by
  obtain ⟨t, ht, _⟩ := MergeAttrs_keys add current
  have h1 : ((MergeAttrs current add).map slog.Attr.Key)[i]? =
      (current.map slog.Attr.Key ++ t)[i]? := by rw [ht]
  rw [List.getElem?_append_left (by simpa using hi)] at h1
  simpa [List.getElem?_map] using h1

/-! ## Claims about `MergeAttrs` -/

/-- C23 fails as stated: with the key `"a"` twice in `current`, the second
attribute `a = 2` has a key that occurs in `add` and its value is no group,
yet the result keeps `a = 2` at index 1 and not the value from `add`. -/
theorem mergeAttrs_replaces_first_only :
    MergeAttrs [slog.Attr.mk "a" (.int64 1), slog.Attr.mk "a" (.int64 2)]
        [slog.Attr.mk "a" (.int64 3)] =
      [slog.Attr.mk "a" (.int64 3), slog.Attr.mk "a" (.int64 2)] ∧
    (MergeAttrs [slog.Attr.mk "a" (.int64 1), slog.Attr.mk "a" (.int64 2)]
        [slog.Attr.mk "a" (.int64 3)])[1]? ≠ some (slog.Attr.mk "a" (.int64 3)) := by
  have h : MergeAttrs [slog.Attr.mk "a" (.int64 1), slog.Attr.mk "a" (.int64 2)]
      [slog.Attr.mk "a" (.int64 3)] =
      [slog.Attr.mk "a" (.int64 3), slog.Attr.mk "a" (.int64 2)] := by
    simp [MergeAttrs, MergeAttrs.inner, slog.Attr.Key, slog.Attr.Value]
  refine ⟨h, ?_⟩
  rw [h]
  simp

/-- C23, amended: `MergeAttrs(current, add)` has at least `len(current)` and at
most `len(current) + len(add)` attributes; at every index below `len(current)`
the key is that of `current`, and the attribute is unchanged when its key
occurs nowhere in `add`; and at an index that is the first occurrence of its
key in `current`, when exactly one attribute `a` of `add` has that key, the
result holds `slog.Group(key, MergeAttrs(...))` of the two groups when both
values are groups and `a` otherwise. -/
theorem mergeAttrs_keeps_siblings (current add : List slog.Attr) :
    current.length ≤ (MergeAttrs current add).length ∧
    (MergeAttrs current add).length ≤ current.length + add.length ∧
    (∀ i, i < current.length →
      ((MergeAttrs current add)[i]?).map slog.Attr.Key = (current[i]?).map slog.Attr.Key) ∧
    (∀ (i : Nat) (x : slog.Attr), current[i]? = some x → (∀ a ∈ add, a.Key ≠ x.Key) →
      (MergeAttrs current add)[i]? = some x) ∧
    (∀ (i : Nat) (p a : slog.Attr) (pre post : List slog.Attr), current[i]? = some p →
      (∀ (j : Nat) (x : slog.Attr), j < i → current[j]? = some x → x.Key ≠ p.Key) →
      add = pre ++ a :: post → a.Key = p.Key → (∀ x ∈ pre ++ post, x.Key ≠ p.Key) →
      (MergeAttrs current add)[i]? =
        some (match p.Value, a.Value with
          | .group parentGroup, .group addGroup =>
            slog.Group p.Key (MergeAttrs parentGroup addGroup)
          | _, _ => a)) := by
  obtain ⟨t, ht, hlen⟩ := MergeAttrs_keys add current
  have hl : (MergeAttrs current add).length = current.length + t.length := by
    have := congrArg List.length ht
    simpa using this
  refine ⟨by omega, by omega, fun i hi => MergeAttrs_key_at current add i hi,
    MergeAttrs_unchanged add current, ?_⟩
  intro i p a pre post hp hfirst hadd hak hothers
  subst hadd
  have hpre : ∀ x ∈ pre, x.Key ≠ p.Key := fun x hx => hothers x (List.mem_append_left _ hx)
  have hpost : ∀ x ∈ post, x.Key ≠ p.Key := fun x hx => hothers x (List.mem_append_right _ hx)
  have hi : i < current.length := by
    by_contra hge
    rw [List.getElem?_eq_none (by omega)] at hp
    cases hp
  rw [MergeAttrs_append, MergeAttrs_cons]
  -- after the attributes before `a`
  have h1 : (MergeAttrs current pre)[i]? = some p := MergeAttrs_unchanged pre current i p hp hpre
  have h1first : ∀ (j : Nat) (x : slog.Attr), j < i → (MergeAttrs current pre)[j]? = some x →
      x.Key ≠ a.Key := by
    intro j x hj hx
    have hkey := MergeAttrs_key_at current pre j (by omega)
    rw [hx] at hkey
    cases hc : current[j]? with
    | none => rw [hc] at hkey; cases hkey
    | some y =>
      rw [hc] at hkey
      simp only [Option.map_some', Option.some.injEq] at hkey
      rw [hkey, hak]
      exact hfirst j y hj hc
  -- the round of `a`
  have h2 := MergeAttrs.inner_first a
    (fun parentGroup =>
      match a.Value with
      | .group addGroup => MergeAttrs parentGroup addGroup
      | _ => parentGroup) (MergeAttrs current pre) i p h1 hak.symm h1first
  -- after the attributes behind `a`
  apply MergeAttrs_unchanged post _ i _
  · rw [h2]
    congr 1
    cases hpv : p.Value <;> cases hav : a.Value <;>
      simp only [slog.Value.isGroup, if_true, Bool.false_eq_true, if_false, hak]
  · intro b hb
    have hkey : (match p.Value, a.Value with
        | .group parentGroup, .group addGroup =>
          slog.Group p.Key (MergeAttrs parentGroup addGroup)
        | _, _ => a).Key = p.Key := by
      cases hpv : p.Value <;> cases hav : a.Value <;> first
        | exact hak
        | rfl
    rw [hkey]
    exact hpost b hb

/-- C23, amended, at a concrete input: the `Merge` case of the table of
`Test_setAttrsAtPath`, one level down. -/
theorem mergeAttrs_keeps_siblings_witness :
    MergeAttrs [slog.Group "b" [slog.Attr.mk "c" (.int64 3)]]
        [slog.Group "b" [slog.Attr.mk "d" (.int64 4)],
          slog.Group "e" [slog.Attr.mk "f" (.int64 6)]] =
      [slog.Group "b" [slog.Attr.mk "c" (.int64 3), slog.Attr.mk "d" (.int64 4)],
        slog.Group "e" [slog.Attr.mk "f" (.int64 6)]] ∧
    ([slog.Group "b" [slog.Attr.mk "c" (.int64 3)]] : List slog.Attr).length ≤
      (MergeAttrs [slog.Group "b" [slog.Attr.mk "c" (.int64 3)]]
        [slog.Group "b" [slog.Attr.mk "d" (.int64 4)],
          slog.Group "e" [slog.Attr.mk "f" (.int64 6)]]).length :=
  ⟨by simp [MergeAttrs, MergeAttrs.inner, slog.Group, slog.GroupValue, slog.Attr.Key,
      slog.Attr.Value, slog.Value.isGroup, slog.Value.isEmptyGroup],
    (mergeAttrs_keeps_siblings [slog.Group "b" [slog.Attr.mk "c" (.int64 3)]]
      [slog.Group "b" [slog.Attr.mk "d" (.int64 4)],
        slog.Group "e" [slog.Attr.mk "f" (.int64 6)]]).1⟩

/-! ## Properties of `GetValueAtPath` -/

theorem GetValueAtPath.loop_nil (key : String) (p : List String) :
    GetValueAtPath.loop (slog.GroupValue []) (key :: p) = none := by
  simp [GetValueAtPath.loop, slog.GroupValue]

/-- An attribute with another key in front is passed over. -/
theorem GetValueAtPath.loop_cons_ne (x : slog.Attr) (l : List slog.Attr) (key : String)
    (p : List String) (h : x.Key ≠ key) :
    GetValueAtPath.loop (slog.GroupValue (x :: l)) (key :: p) =
      GetValueAtPath.loop (slog.GroupValue l) (key :: p) := by
  have hb : (x.Key == key) = false := by
    rw [beq_eq_false_iff_ne]; exact h
  have hfind : ((x :: l).filter (fun a => !a.Value.isEmptyGroup)).find?
      (fun attr => attr.Key == key) =
      (l.filter (fun a => !a.Value.isEmptyGroup)).find? (fun attr => attr.Key == key) := by
    rw [List.filter_cons]
    by_cases hq : (!x.Value.isEmptyGroup) = true
    · rw [if_pos hq, List.find?_cons, hb]
    · rw [if_neg hq]
  simp only [GetValueAtPath.loop, slog.GroupValue, hfind]

/-- An attribute with the key in front, not an empty group, is the one
found. -/
theorem GetValueAtPath.loop_cons_eq (x : slog.Attr) (l : List slog.Attr) (key : String)
    (p : List String) (h : x.Key = key) (hne : x.Value.isEmptyGroup = false) :
    GetValueAtPath.loop (slog.GroupValue (x :: l)) (key :: p) =
      GetValueAtPath.loop x.Value p := by
  have hb : (x.Key == key) = true := by rw [beq_iff_eq]; exact h
  have hq : (!x.Value.isEmptyGroup) = true := by rw [hne]; rfl
  have hfind : ((x :: l).filter (fun a => !a.Value.isEmptyGroup)).find?
      (fun attr => attr.Key == key) = some x := by
    rw [List.filter_cons, if_pos hq, List.find?_cons, hb]
  simp only [GetValueAtPath.loop, slog.GroupValue, hfind]

/-- An empty group in front is passed over, whatever its key. -/
theorem GetValueAtPath.loop_cons_empty (x : slog.Attr) (l : List slog.Attr) (key : String)
    (p : List String) (h : x.Value.isEmptyGroup = true) :
    GetValueAtPath.loop (slog.GroupValue (x :: l)) (key :: p) =
      GetValueAtPath.loop (slog.GroupValue l) (key :: p) := by
  have hq : ¬ ((!x.Value.isEmptyGroup) = true) := by rw [h]; simp
  have hfilter : (x :: l).filter (fun a => !a.Value.isEmptyGroup) =
      l.filter (fun a => !a.Value.isEmptyGroup) := by
    rw [List.filter_cons, if_neg hq]
  simp only [slog.GroupValue, hfilter]

/-- The first attribute with the key, not an empty group, is the one found. -/
theorem GetValueAtPath.loop_decomp (a : slog.Attr) (post : List slog.Attr) (key : String)
    (p : List String) (h : a.Key = key) (hne : a.Value.isEmptyGroup = false) :
    ∀ pre : List slog.Attr, (∀ x ∈ pre, x.Key ≠ key) →
      GetValueAtPath.loop (slog.GroupValue (pre ++ a :: post)) (key :: p) =
        GetValueAtPath.loop a.Value p := by
  intro pre
  induction pre with
  | nil => intro _; exact GetValueAtPath.loop_cons_eq a post key p h hne
  | cons x pre ih =>
    intro hpre
    rw [List.cons_append, GetValueAtPath.loop_cons_ne x _ key p (hpre x (List.mem_cons_self x pre))]
    exact ih (fun y hy => hpre y (List.mem_cons_of_mem x hy))

/-- No attribute with the key: nothing is found. -/
theorem GetValueAtPath.loop_absent (key : String) (p : List String) :
    ∀ l : List slog.Attr, (∀ x ∈ l, x.Key ≠ key) →
      GetValueAtPath.loop (slog.GroupValue l) (key :: p) = none := by
  intro l
  induction l with
  | nil => intro _; exact GetValueAtPath.loop_nil key p
  | cons x l ih =>
    intro h
    rw [GetValueAtPath.loop_cons_ne x l key p (h x (List.mem_cons_self x l))]
    exact ih (fun y hy => h y (List.mem_cons_of_mem x hy))

/-- A group in which a path of at least one key leads somewhere is not
empty. -/
theorem GetValueAtPath.loop_nonempty (l : List slog.Attr) (key : String) (p : List String)
    (v : slog.Value) (h : GetValueAtPath.loop (slog.GroupValue l) (key :: p) = some v) :
    (slog.GroupValue l).isEmptyGroup = false := by
  cases hf : l.filter (fun a => !a.Value.isEmptyGroup) with
  | nil =>
    unfold slog.GroupValue at h
    rw [hf] at h
    simp [GetValueAtPath.loop] at h
  | cons x rest =>
    unfold slog.GroupValue
    rw [hf]
    rfl

/-- A value that is no group is no empty group. -/
theorem slog.Value.not_empty_of_not_group (v : slog.Value) (h : v.isGroup = false) :
    v.isEmptyGroup = false := by
  cases v <;> first | rfl | simp [slog.Value.isGroup] at h

/-! ## More properties of `MergeAttrs` -/

/-- The inner loop on a list whose first attribute with the key of `addAttr`
is `x`. -/
theorem MergeAttrs.inner_decomp (addAttr x : slog.Attr)
    (merged : List slog.Attr → List slog.Attr) (post : List slog.Attr)
    (hx : x.Key = addAttr.Key) :
    ∀ pre : List slog.Attr, (∀ y ∈ pre, y.Key ≠ addAttr.Key) →
      MergeAttrs.inner addAttr merged (pre ++ x :: post) =
        pre ++ (match x.Value with
          | .group parentGroup =>
            if addAttr.Value.isGroup then slog.Group addAttr.Key (merged parentGroup)
            else addAttr
          | _ => addAttr) :: post := by
  intro pre
  induction pre with
  | nil => intro _; simp only [List.nil_append, MergeAttrs.inner, if_pos hx]
  | cons y pre ih =>
    intro hpre
    have h1 : MergeAttrs.inner addAttr merged (y :: (pre ++ x :: post)) =
        y :: MergeAttrs.inner addAttr merged (pre ++ x :: post) := by
      simp only [MergeAttrs.inner, if_neg (hpre y (List.mem_cons_self y pre))]
    rw [List.cons_append, h1, ih (fun z hz => hpre z (List.mem_cons_of_mem y hz)),
      List.cons_append]

/-- The inner loop on a list without the key of `addAttr` appends it. -/
theorem MergeAttrs.inner_absent (addAttr : slog.Attr)
    (merged : List slog.Attr → List slog.Attr) :
    ∀ l : List slog.Attr, (∀ y ∈ l, y.Key ≠ addAttr.Key) →
      MergeAttrs.inner addAttr merged l = l ++ [addAttr] := by
  intro l
  induction l with
  | nil => intro _; rfl
  | cons y l ih =>
    intro h
    simp only [MergeAttrs.inner, if_neg (h y (List.mem_cons_self y l)),
      ih (fun z hz => h z (List.mem_cons_of_mem y hz)), List.cons_append]

/-- After the inner loop for an `addAttr` that is no group, a lookup of its
key finds `addAttr`. -/
theorem MergeAttrs.inner_lookup_self (addAttr : slog.Attr)
    (merged : List slog.Attr → List slog.Attr) (p : List String)
    (hv : addAttr.Value.isGroup = false) :
    ∀ l : List slog.Attr,
      GetValueAtPath.loop (slog.GroupValue (MergeAttrs.inner addAttr merged l))
          (addAttr.Key :: p) =
        GetValueAtPath.loop addAttr.Value p := by
  have hne := slog.Value.not_empty_of_not_group addAttr.Value hv
  intro l
  induction l with
  | nil => exact GetValueAtPath.loop_cons_eq addAttr [] addAttr.Key p rfl hne
  | cons y l ih =>
    by_cases hk : y.Key = addAttr.Key
    · have hrep : MergeAttrs.inner addAttr merged (y :: l) = addAttr :: l := by
        simp only [MergeAttrs.inner, if_pos hk, hv, Bool.false_eq_true, if_false]
        cases y.Value <;> rfl
      rw [hrep]
      exact GetValueAtPath.loop_cons_eq addAttr l addAttr.Key p rfl hne
    · simp only [MergeAttrs.inner, if_neg hk]
      rw [GetValueAtPath.loop_cons_ne y _ addAttr.Key p hk]
      exact ih

/-- The inner loop does not change what a lookup of another key finds. -/
theorem MergeAttrs.inner_lookup_other (addAttr : slog.Attr)
    (merged : List slog.Attr → List slog.Attr) (key : String) (p : List String)
    (hk : addAttr.Key ≠ key) :
    ∀ l : List slog.Attr,
      GetValueAtPath.loop (slog.GroupValue (MergeAttrs.inner addAttr merged l)) (key :: p) =
        GetValueAtPath.loop (slog.GroupValue l) (key :: p) := by
  intro l
  induction l with
  | nil =>
    simp only [MergeAttrs.inner]
    rw [GetValueAtPath.loop_cons_ne addAttr [] key p hk]
  | cons y l ih =>
    by_cases hy : y.Key = addAttr.Key
    · have hyk : y.Key ≠ key := by rw [hy]; exact hk
      simp only [MergeAttrs.inner, if_pos hy]
      rw [GetValueAtPath.loop_cons_ne y l key p hyk]
      apply GetValueAtPath.loop_cons_ne
      cases y.Value with
      | group parentGroup =>
        simp only
        split
        · exact hk
        · exact hk
      | string _ => exact hk
      | int64 _ => exact hk
      | any _ => exact hk
      | error _ => exact hk
    · simp only [MergeAttrs.inner, if_neg hy]
      by_cases hyk : y.Key = key
      · by_cases hye : y.Value.isEmptyGroup = false
        · rw [GetValueAtPath.loop_cons_eq y _ key p hyk hye,
            GetValueAtPath.loop_cons_eq y _ key p hyk hye]
        · have hye1 : y.Value.isEmptyGroup = true := by
            cases hc : y.Value.isEmptyGroup
            · exact absurd hc hye
            · rfl
          rw [GetValueAtPath.loop_cons_empty y _ key p hye1,
            GetValueAtPath.loop_cons_empty y _ key p hye1]
          exact ih
      · rw [GetValueAtPath.loop_cons_ne y _ key p hyk, GetValueAtPath.loop_cons_ne y _ key p hyk]
        exact ih

/-! ## Properties of `SetAttrsAtPath` -/

theorem attrIndex_decomp (a : slog.Attr) (post : List slog.Attr) (name : String)
    (hk : a.Key = name) (hg : a.Value.isGroup = true) :
    ∀ pre : List slog.Attr, (∀ x ∈ pre, x.Key ≠ name) →
      attrIndex (pre ++ a :: post) name = pre.length := by
  intro pre
  induction pre with
  | nil => intro _; simp only [List.nil_append, attrIndex, if_pos (And.intro hg hk), List.length_nil]
  | cons x pre ih =>
    intro hpre
    have hx : ¬ (x.Value.isGroup = true ∧ x.Key = name) :=
      fun h => hpre x (List.mem_cons_self x pre) h.2
    have h1 : attrIndex (x :: (pre ++ a :: post)) name =
        attrIndex (pre ++ a :: post) name + 1 := by
      simp only [attrIndex, if_neg hx]
    rw [List.cons_append, h1, ih (fun y hy => hpre y (List.mem_cons_of_mem x hy)),
      List.length_cons]

theorem attrIndex_absent (name : String) :
    ∀ l : List slog.Attr, (∀ x ∈ l, x.Key ≠ name) → attrIndex l name = l.length := by
  intro l
  induction l with
  | nil => intro _; rfl
  | cons x l ih =>
    intro h
    have hx : ¬ (x.Value.isGroup = true ∧ x.Key = name) :=
      fun hc => h x (List.mem_cons_self x l) hc.2
    simp only [attrIndex, if_neg hx, ih (fun y hy => h y (List.mem_cons_of_mem x hy)),
      List.length_cons]

theorem path_concat_ne_nil (groups : List String) (k : String) :
    ∃ key p, groups ++ [k] = key :: p := by
  cases groups with
  | nil => exact ⟨k, [], rfl⟩
  | cons g rest => exact ⟨g, rest ++ [k], rfl⟩

/-- The groups wrapped around an attribute for a path that is not in the tree
lead back to the attribute. -/
theorem GetValueAtPath_wrap (k : String) (v : slog.Value) (hv : v.isGroup = false) :
    ∀ groups : List String,
      GetValueAtPath
          (groups.foldr (fun g attrs => [slog.Group g attrs]) [slog.Attr.mk k v])
          (groups ++ [k]) = some v := by
  intro groups
  induction groups with
  | nil =>
    simp only [List.foldr_nil, List.nil_append, GetValueAtPath]
    rw [GetValueAtPath.loop_cons_eq (slog.Attr.mk k v) [] k [] rfl
      (slog.Value.not_empty_of_not_group v hv)]
    rfl
  | cons g rest ih =>
    obtain ⟨key, p, hp⟩ := path_concat_ne_nil rest k
    have hne := GetValueAtPath.loop_nonempty _ key p v (by rw [← hp]; exact ih)
    simp only [List.foldr_cons, List.cons_append, GetValueAtPath]
    rw [GetValueAtPath.loop_cons_eq
      (slog.Group g (rest.foldr (fun g attrs => [slog.Group g attrs]) [slog.Attr.mk k v]))
      [] g (rest ++ [k]) rfl hne]
    exact ih

/-- Set, then get, along a path whose attributes are groups. -/
theorem SetAttrsAtPath_get (k : String) (v : slog.Value) (hv : v.isGroup = false) :
    ∀ (groups : List String) (parentAttrs : List slog.Attr),
      pathIsGroups parentAttrs groups = true →
      ∃ r, SetAttrsAtPath parentAttrs groups [slog.Attr.mk k v] = some r ∧
        GetValueAtPath r (groups ++ [k]) = some v := by
  intro groups
  induction groups with
  | nil =>
    intro parentAttrs _
    refine ⟨_, rfl, ?_⟩
    rw [MergeAttrs_cons]
    simp only [MergeAttrs, List.nil_append, GetValueAtPath]
    exact MergeAttrs.inner_lookup_self (slog.Attr.mk k v) _ [] hv parentAttrs
  | cons g rest ih =>
    intro parentAttrs hpath
    obtain ⟨key, p, hp⟩ := path_concat_ne_nil rest k
    cases hfind : parentAttrs.find? (fun attr => attr.Key == g) with
    | none =>
      have habs : ∀ x ∈ parentAttrs, x.Key ≠ g := by
        intro x hx hk
        rw [List.find?_eq_none] at hfind
        exact hfind x hx (by rw [beq_iff_eq]; exact hk)
      have hw := GetValueAtPath_wrap k v hv rest
      have hne := GetValueAtPath.loop_nonempty _ key p v (by rw [← hp]; exact hw)
      refine ⟨parentAttrs ++ [slog.Group g
        (rest.foldr (fun g attrs => [slog.Group g attrs]) [slog.Attr.mk k v])], ?_, ?_⟩
      · simp only [SetAttrsAtPath, attrIndex_absent g parentAttrs habs, lt_self_iff_false,
          if_false, List.foldr_cons]
      · simp only [List.cons_append, GetValueAtPath]
        rw [GetValueAtPath.loop_decomp
          (slog.Group g (rest.foldr (fun g attrs => [slog.Group g attrs]) [slog.Attr.mk k v]))
          [] g (rest ++ [k]) rfl hne parentAttrs habs]
        exact hw
    | some a =>
      obtain ⟨hak, pre, post, hdec, hpre⟩ := List.find?_eq_some.mp hfind
      have hakey : a.Key = g := by rw [beq_iff_eq] at hak; exact hak
      have hprek : ∀ x ∈ pre, x.Key ≠ g := by
        intro x hx hk
        have := hpre x hx
        rw [beq_iff_eq.mpr hk] at this
        cases this
      simp only [pathIsGroups, hfind] at hpath
      cases hval : a.Value with
      | group child =>
        rw [hval] at hpath
        simp only at hpath
        obtain ⟨newChild, hset, hget⟩ := ih child hpath
        have hne := GetValueAtPath.loop_nonempty newChild key p v (by rw [← hp]; exact hget)
        have hgrp : a.Value.isGroup = true := by rw [hval]; rfl
        refine ⟨pre ++ slog.Attr.mk a.Key (slog.GroupValue newChild) :: post, ?_, ?_⟩
        · subst hdec
          have hidx := attrIndex_decomp a post g hakey hgrp pre hprek
          have hlt : pre.length < (pre ++ a :: post).length := by
            simp only [List.length_append, List.length_cons]; omega
          have hat : (pre ++ a :: post)[pre.length]? = some a := by
            rw [List.getElem?_append_right (le_refl _)]
            simp
          simp only [SetAttrsAtPath, hidx, hlt, if_true, hat, hval, slog.Value.Group, hset]
          rw [List.set_append_right _ _ (le_refl _)]
          simp
        · simp only [List.cons_append, GetValueAtPath]
          rw [GetValueAtPath.loop_decomp (slog.Attr.mk a.Key (slog.GroupValue newChild)) post g
            (rest ++ [k]) hakey hne pre hprek]
          exact hget
      | string _ => rw [hval] at hpath; simp at hpath
      | int64 _ => rw [hval] at hpath; simp at hpath
      | any _ => rw [hval] at hpath; simp at hpath
      | error _ => rw [hval] at hpath; simp at hpath

/-! ## Claims about `SetAttrsAtPath` and `GetValueAtPath` -/

/-- C22 fails as stated: in the tree `[a = 1]`, whose keys are pairwise
distinct, setting `k = 2` at the path `["a"]` appends a group `a` behind the
integer attribute `a`, and `GetValueAtPath` on the path `a, k` stops at the
integer attribute and finds nothing. -/
theorem set_then_get_fails_under_non_group :
    SetAttrsAtPath [slog.Attr.mk "a" (.int64 1)] ["a"] [slog.Attr.mk "k" (.int64 2)] =
        some [slog.Attr.mk "a" (.int64 1),
          slog.Attr.mk "a" (.group [slog.Attr.mk "k" (.int64 2)])] ∧
      GetValueAtPath
          [slog.Attr.mk "a" (.int64 1),
            slog.Attr.mk "a" (.group [slog.Attr.mk "k" (.int64 2)])]
          (["a"] ++ ["k"]) = none := by
  constructor
  · simp [SetAttrsAtPath, attrIndex, slog.Group, slog.GroupValue, slog.Attr.Key,
      slog.Attr.Value, slog.Value.isGroup, slog.Value.isEmptyGroup]
  · simp [GetValueAtPath, GetValueAtPath.loop, slog.GroupValue, slog.Attr.Key,
      slog.Attr.Value, slog.Value.isEmptyGroup]

/-- C22, amended: for every attribute tree in which, at each level along the
path `groups`, the first attribute whose key is the next segment of the path
is a group whenever there is one (in a tree with pairwise distinct keys: no
attribute on the path is a non-group), and every attribute `(k, v)` with a
non-group value `v`, `SetAttrsAtPath` returns and `GetValueAtPath` on its
result with the path `groups..., k` returns `(v, true)`. -/
theorem set_then_get (parentAttrs : List slog.Attr) (groups : List String) (k : String)
    (v : slog.Value) (hv : v.isGroup = false)
    (hpath : pathIsGroups parentAttrs groups = true) :
    ∃ r, SetAttrsAtPath parentAttrs groups [slog.Attr.mk k v] = some r ∧
      GetValueAtPath r (groups ++ [k]) = some v :=
  SetAttrsAtPath_get k v hv groups parentAttrs hpath

/-- C22, amended, at a concrete input: the `ExistingParents` case of the table
of `Test_setAttrsAtPath`. -/
theorem set_then_get_witness :
    ∃ r,
      SetAttrsAtPath
          [slog.Attr.mk "a" (.group [slog.Attr.mk "b" (.group [slog.Attr.mk "c" (.int64 3)])])]
          ["a", "b"] [slog.Attr.mk "d" (.int64 4)] = some r ∧
        GetValueAtPath r (["a", "b"] ++ ["d"]) = some (.int64 4) :=
  set_then_get
    [slog.Attr.mk "a" (.group [slog.Attr.mk "b" (.group [slog.Attr.mk "c" (.int64 3)])])]
    ["a", "b"] "d" (.int64 4) rfl
    (by simp [pathIsGroups, slog.Attr.Key, slog.Attr.Value])

/-! ## Properties of the error attributes middleware -/

theorem NewErrorAttrsMiddleware.search_decomp (a : slog.Attr) (post : List slog.Attr)
    (hkey : a.Key = ErrorKey) :
    ∀ (pre : List slog.Attr) (i : Nat), (∀ x ∈ pre, x.Key ≠ ErrorKey) →
      NewErrorAttrsMiddleware.search i (pre ++ a :: post) = (a.Value.asError, i + pre.length) := by
  intro pre
  induction pre with
  | nil =>
    intro i _
    simp only [List.nil_append, NewErrorAttrsMiddleware.search, if_pos hkey, List.length_nil,
      Nat.add_zero]
  | cons x pre ih =>
    intro i hpre
    have h1 : NewErrorAttrsMiddleware.search i (x :: (pre ++ a :: post)) =
        NewErrorAttrsMiddleware.search (i + 1) (pre ++ a :: post) := by
      simp only [NewErrorAttrsMiddleware.search, if_neg (hpre x (List.mem_cons_self x pre))]
    rw [List.cons_append, h1, ih (i + 1) (fun y hy => hpre y (List.mem_cons_of_mem x hy)),
      List.length_cons]
    congr 1
    omega

theorem NewErrorAttrsMiddleware.search_none :
    ∀ (attrs : List slog.Attr) (i : Nat),
      (∀ a ∈ attrs, a.Key = ErrorKey → a.Value.asError = none) →
      (NewErrorAttrsMiddleware.search i attrs).1 = none := by
  intro attrs
  induction attrs with
  | nil => intro i _; rfl
  | cons x attrs ih =>
    intro i h
    by_cases hk : x.Key = ErrorKey
    · simp only [NewErrorAttrsMiddleware.search, if_pos hk]
      exact h x (List.mem_cons_self x attrs) hk
    · simp only [NewErrorAttrsMiddleware.search, if_neg hk]
      exact ih (i + 1) (fun y hy => h y (List.mem_cons_of_mem x hy))

/-- What a lookup below the merged `error` attribute finds: the two strings
of the added group, whatever the value `x` that was there. -/
theorem error_group_lookup (x : slog.Value) (trace text : String) :
    ∃ r : slog.Attr,
      r = (match x with
        | .group parentGroup =>
          if (slog.GroupValue [slog.String ErrorBacktraceKey trace,
              slog.String ErrorTextKey text]).isGroup then
            slog.Group ErrorKey
              (MergeAttrs parentGroup
                [slog.String ErrorBacktraceKey trace, slog.String ErrorTextKey text])
          else
            slog.Attr.mk ErrorKey (slog.GroupValue [slog.String ErrorBacktraceKey trace,
              slog.String ErrorTextKey text])
        | _ =>
          slog.Attr.mk ErrorKey (slog.GroupValue [slog.String ErrorBacktraceKey trace,
            slog.String ErrorTextKey text])) ∧
      r.Key = ErrorKey ∧ r.Value.isGroup = true ∧ r.Value.isEmptyGroup = false ∧
      GetValueAtPath.loop r.Value [ErrorTextKey] = some (.string text) ∧
      GetValueAtPath.loop r.Value [ErrorBacktraceKey] = some (.string trace) := by
  have hbt : ErrorBacktraceKey ≠ ErrorTextKey := by decide
  have htb : ErrorTextKey ≠ ErrorBacktraceKey := by decide
  have hEtext : GetValueAtPath.loop (slog.GroupValue [slog.String ErrorBacktraceKey trace,
      slog.String ErrorTextKey text]) [ErrorTextKey] = some (.string text) := by
    rw [GetValueAtPath.loop_cons_ne (slog.String ErrorBacktraceKey trace) _ ErrorTextKey [] hbt,
      GetValueAtPath.loop_cons_eq (slog.String ErrorTextKey text) [] ErrorTextKey [] rfl rfl]
    rfl
  have hEtrace : GetValueAtPath.loop (slog.GroupValue [slog.String ErrorBacktraceKey trace,
      slog.String ErrorTextKey text]) [ErrorBacktraceKey] = some (.string trace) := by
    rw [GetValueAtPath.loop_cons_eq (slog.String ErrorBacktraceKey trace) _ ErrorBacktraceKey []
      rfl rfl]
    rfl
  have hEne := GetValueAtPath.loop_nonempty _ ErrorTextKey [] _ hEtext
  have hmerged : ∀ l : List slog.Attr,
      GetValueAtPath.loop (slog.GroupValue (MergeAttrs l
          [slog.String ErrorBacktraceKey trace, slog.String ErrorTextKey text]))
          [ErrorTextKey] = some (.string text) ∧
        GetValueAtPath.loop (slog.GroupValue (MergeAttrs l
          [slog.String ErrorBacktraceKey trace, slog.String ErrorTextKey text]))
          [ErrorBacktraceKey] = some (.string trace) := by
    intro l
    rw [MergeAttrs_cons, MergeAttrs_cons]
    simp only [MergeAttrs]
    constructor
    · exact MergeAttrs.inner_lookup_self (slog.String ErrorTextKey text) _ [] rfl _
    · rw [MergeAttrs.inner_lookup_other (slog.String ErrorTextKey text) _ ErrorBacktraceKey []
        htb]
      exact MergeAttrs.inner_lookup_self (slog.String ErrorBacktraceKey trace) _ [] rfl _
  have hnonempty : ∀ l : List slog.Attr, (slog.GroupValue (MergeAttrs l
      [slog.String ErrorBacktraceKey trace, slog.String ErrorTextKey text])).isEmptyGroup =
      false :=
    fun l => GetValueAtPath.loop_nonempty _ ErrorTextKey [] _ (hmerged l).1
  cases x with
  | group parentGroup =>
    exact ⟨_, rfl, rfl, rfl, hnonempty parentGroup, (hmerged parentGroup).1,
      (hmerged parentGroup).2⟩
  | string _ => exact ⟨_, rfl, rfl, rfl, hEne, hEtext, hEtrace⟩
  | int64 _ => exact ⟨_, rfl, rfl, rfl, hEne, hEtext, hEtrace⟩
  | any _ => exact ⟨_, rfl, rfl, rfl, hEne, hEtext, hEtrace⟩
  | error _ => exact ⟨_, rfl, rfl, rfl, hEne, hEtext, hEtrace⟩

/-- The list handed on by the middleware when the first attribute with key
`ErrorKey` holds the error `err`: the list with that attribute replaced by the
merged `error` attribute. -/
theorem NewErrorAttrsMiddleware_eq (rt : Runtime) (Value : Err → slog.Value)
    (TrimSpace : String → String) (pre post : List slog.Attr) (a : slog.Attr) (err : Err)
    (trace : String) (hpre : ∀ x ∈ pre, x.Key ≠ ErrorKey) (hkey : a.Key = ErrorKey)
    (herr : a.Value.asError = some err) (htrace : BackTrace rt err = some trace) :
    NewErrorAttrsMiddleware rt Value TrimSpace (pre ++ a :: post) =
      some (pre ++
        (match Value err with
          | .group parentGroup =>
            if (slog.GroupValue [slog.String ErrorBacktraceKey (TrimSpace trace),
                slog.String ErrorTextKey err.Error]).isGroup then
              slog.Group ErrorKey
                (MergeAttrs parentGroup
                  [slog.String ErrorBacktraceKey (TrimSpace trace),
                    slog.String ErrorTextKey err.Error])
            else
              slog.Attr.mk ErrorKey
                (slog.GroupValue [slog.String ErrorBacktraceKey (TrimSpace trace),
                  slog.String ErrorTextKey err.Error])
          | _ =>
            slog.Attr.mk ErrorKey
              (slog.GroupValue [slog.String ErrorBacktraceKey (TrimSpace trace),
                slog.String ErrorTextKey err.Error])) :: post) := by
  have hsearch := NewErrorAttrsMiddleware.search_decomp a post hkey pre 0 hpre
  rw [herr, Nat.zero_add] at hsearch
  have hset : (pre ++ a :: post).set pre.length (Attr Value ErrorKey err) =
      pre ++ Attr Value ErrorKey err :: post := by
    rw [List.set_append_right _ _ (le_refl _)]
    simp
  simp only [NewErrorAttrsMiddleware, hsearch, hset, htrace]
  rw [MergeAttrs_cons]
  simp only [MergeAttrs]
  rw [MergeAttrs.inner_decomp
    (slog.Attr.mk ErrorKey
      (slog.GroupValue [slog.String ErrorBacktraceKey (TrimSpace trace),
        slog.String ErrorTextKey err.Error]))
    (Attr Value ErrorKey err) _ post rfl pre hpre]
  congr 2

/-! ## Claims about the error attributes middleware -/

/-- C21: on an attribute list whose first attribute with key `"error"` holds
an error `err`, the middleware hands on a list in which the path `error` leads
to a group, the path `error, text` to the string `err.Error()` and the path
`error, backtrace` to the string `BackTrace(err)` with the surrounding white
space trimmed; on a list in which no attribute with key `"error"` holds an
error it hands on the list as it is. -/
theorem error_attrs_middleware (rt : Runtime) (Value : Err → slog.Value)
    (TrimSpace : String → String) (attrs : List slog.Attr) :
    (∀ (pre post : List slog.Attr) (a : slog.Attr) (err : Err),
      attrs = pre ++ a :: post → (∀ x ∈ pre, x.Key ≠ ErrorKey) → a.Key = ErrorKey →
      a.Value.asError = some err →
      ∃ result trace, BackTrace rt err = some trace ∧
        NewErrorAttrsMiddleware rt Value TrimSpace attrs = some result ∧
        (∃ g, GetValueAtPath result [ErrorKey] = some (.group g)) ∧
        GetValueAtPath result [ErrorKey, ErrorTextKey] = some (.string err.Error) ∧
        GetValueAtPath result [ErrorKey, ErrorBacktraceKey] =
          some (.string (TrimSpace trace))) ∧
    ((∀ a ∈ attrs, a.Key = ErrorKey → a.Value.asError = none) →
      NewErrorAttrsMiddleware rt Value TrimSpace attrs = some attrs) := by
  constructor
  · intro pre post a err hattrs hpre hkey herr
    subst hattrs
    obtain ⟨trace, htrace⟩ := BackTrace_returns rt err
    obtain ⟨r, hr, hrkey, hrgroup, hrne, hrtext, hrtrace⟩ :=
      error_group_lookup (Value err) (TrimSpace trace) err.Error
    refine ⟨pre ++ r :: post, trace, htrace, ?_, ?_, ?_, ?_⟩
    · rw [NewErrorAttrsMiddleware_eq rt Value TrimSpace pre post a err trace hpre hkey herr
        htrace, hr]
    · have hstep : GetValueAtPath (pre ++ r :: post) [ErrorKey] = some r.Value := by
        simp only [GetValueAtPath]
        rw [GetValueAtPath.loop_decomp r post ErrorKey [] hrkey hrne pre hpre]
        rfl
      rw [hstep]
      cases hv : r.Value with
      | group g => exact ⟨g, rfl⟩
      | string _ => rw [hv] at hrgroup; cases hrgroup
      | int64 _ => rw [hv] at hrgroup; cases hrgroup
      | any _ => rw [hv] at hrgroup; cases hrgroup
      | error _ => rw [hv] at hrgroup; cases hrgroup
    · simp only [GetValueAtPath]
      rw [GetValueAtPath.loop_decomp r post ErrorKey [ErrorTextKey] hrkey hrne pre hpre]
      exact hrtext
    · simp only [GetValueAtPath]
      rw [GetValueAtPath.loop_decomp r post ErrorKey [ErrorBacktraceKey] hrkey hrne pre hpre]
      exact hrtrace
  · intro hnone
    have hs := NewErrorAttrsMiddleware.search_none attrs 0 hnone
    simp only [NewErrorAttrsMiddleware]
    cases hsearch : NewErrorAttrsMiddleware.search 0 attrs with
    | mk e ia =>
      rw [hsearch] at hs
      simp only at hs
      subst hs
      rfl

/-- C21, at a concrete input: a list with a foreign error under the key
`"error"` behind another attribute, under a symbol table that knows no
function and the identity for `Value` and `TrimSpace`. -/
theorem error_attrs_middleware_witness :
    ∃ result trace, BackTrace (fun _ => none) (Err.foreign "boom: io") = some trace ∧
      NewErrorAttrsMiddleware (fun _ => none) (fun e => .error e) (fun s => s)
          [slog.Attr.mk "x" (.int64 1), slog.Attr.mk "error" (.error (Err.foreign "boom: io"))] =
        some result ∧
      (∃ g, GetValueAtPath result [ErrorKey] = some (.group g)) ∧
      GetValueAtPath result [ErrorKey, ErrorTextKey] =
        some (.string (Err.foreign "boom: io").Error) ∧
      GetValueAtPath result [ErrorKey, ErrorBacktraceKey] = some (.string trace) :=
  (error_attrs_middleware (fun _ => none) (fun e => .error e) (fun s => s)
      [slog.Attr.mk "x" (.int64 1), slog.Attr.mk "error" (.error (Err.foreign "boom: io"))]).1
    [slog.Attr.mk "x" (.int64 1)] [] (slog.Attr.mk "error" (.error (Err.foreign "boom: io")))
    (Err.foreign "boom: io") rfl
    (by intro x hx; simp only [List.mem_singleton] at hx; subst hx; decide)
    rfl rfl

end Slogan
